import Mathlib

/-!
# tektongraph: graph construction and dependency extraction

A shallow embedding of the Go sources `pipeline.go`, `eventlistener.go` and
`tektongraph.go`.

* Go `string` values are Lean `String`s; the scanning functions work on the
  character list `String.data`.
* A `strings.Builder` is the list of chunks written to it, one per
  `WriteString` call; `Builder.text` is their concatenation.
* A `map[string]bool` is a total function `String → Bool` (a missing key reads
  as `false`, as the Go index expression does).
-/

set_option autoImplicit false
set_option maxRecDepth 100000

namespace TektonGraph

/-! ## `extractTaskReferences` (pipeline.go 93-103, tektongraph.go 367-377)

The regular expression is `\$\(\s*tasks\.(\w+)\.`.  Go's `regexp` uses RE2
syntax: `\w` is `[0-9A-Za-z_]` and `\s` is `[\t\n\f\r ]`.  The greedy loops of
this pattern never have to give characters back (a white-space character
cannot start `tasks.` and a word character cannot be the closing `.`), so a
match at a given position is found by one left-to-right pass. -/

/-- Character class `\w` of RE2: `[0-9A-Za-z_]`. -/
def isWordChar (c : Char) : Bool := c.isAlphanum || c == '_'

/-- Character class `\s` of RE2: `[\t\n\f\r ]`. -/
def isSpaceChar (c : Char) : Bool :=
  c == '\t' || c == '\n' || c == '\x0c' || c == '\r' || c == ' '

/-- Remove the literal `p` from the front of `s`, if it is there. -/
def stripLiteral : List Char → List Char → Option (List Char)
  | [], s => some s
  | _ :: _, [] => none
  | p :: ps, c :: cs => if p = c then stripLiteral ps cs else none

/-- Match `\$\(\s*tasks\.(\w+)\.` anchored at the start of `s`: the captured
group 1 and the length of the whole match. -/
def matchHere (s : List Char) : Option (List Char × Nat) :=
  match stripLiteral ['$', '('] s with
  | none => none
  | some r1 =>
    let ws := r1.takeWhile isSpaceChar
    match stripLiteral ['t', 'a', 's', 'k', 's', '.'] (r1.dropWhile isSpaceChar) with
    | none => none
    | some r3 =>
      let name := r3.takeWhile isWordChar
      match name, r3.dropWhile isWordChar with
      | [], _ => none
      | _ :: _, '.' :: _ => some (name, 2 + ws.length + 6 + name.length + 1)
      | _ :: _, _ => none

/-- The loop of `regexp.FindAllStringSubmatch(value, -1)` followed by the
collection of `match[1]`: at every position outside an earlier match try the
pattern; after a match the search goes on at the end of that match.  `skip`
counts the characters that still belong to the previous match. -/
def findAllGroups : Nat → List Char → List (List Char)
  | _, [] => []
  | skip + 1, _ :: cs => findAllGroups skip cs
  | 0, c :: cs =>
    match matchHere (c :: cs) with
    | some (name, len) => name :: findAllGroups (len - 1) cs
    | none => findAllGroups 0 cs

/-- Go `extractTaskReferences(value string) []string`. -/
def extractTaskReferences (value : String) : List String :=
  (findAllGroups 0 value.data).map String.mk

/-- An identifier matching `\w+`: non-empty and made of word characters. -/
def IsIdent (n : String) : Prop := n.data ≠ [] ∧ ∀ c ∈ n.data, isWordChar c = true

instance (n : String) : Decidable (IsIdent n) := by
  unfold IsIdent; infer_instance

/-- The text `value` contains an occurrence of the reference pattern: it
splits as `pre ++ "$(" ++ ws ++ "tasks." ++ name ++ "." ++ post` with `ws`
white space and `name` a non-empty run of word characters. -/
def HasReference (value : String) : Prop :=
  ∃ pre ws name post : List Char,
    value.data = pre ++ ['$', '('] ++ ws ++ ['t', 'a', 's', 'k', 's', '.'] ++ name ++ ['.'] ++ post ∧
    (∀ c ∈ ws, isSpaceChar c = true) ∧ name ≠ [] ∧ (∀ c ∈ name, isWordChar c = true)

/-- One reference segment `"$(tasks." + n + ".results.r) "`. -/
def resultSegment (n : String) : String := "$(tasks." ++ n ++ ".results.r) "

/-! ## Diagram text

A node reference is the Go string built by `fmt.Sprintf`: either a bare label
such as `Task_build` or the display form `Task_build[Task: build]`. -/

/-- One `WriteString` call on the `strings.Builder` holding the diagram. -/
inductive Line where
  /-- A fence or header line, written verbatim. -/
  | text (s : String)
  /-- Go `WriteString(node + ";\n")`. -/
  | node (decl : String)
  /-- Go `WriteString(fmt.Sprintf("%s --> %s;\n", fromNode, toNode))`. -/
  | edge (fromNode toNode : String)
  deriving DecidableEq

/-- The text appended by one `WriteString` call. -/
def Line.render : Line → String
  | .text s => s
  | .node decl => decl ++ ";\n"
  | .edge fromNode toNode => fromNode ++ " --> " ++ toNode ++ ";\n"

/-- The endpoints of an edge line; `none` for the other lines. -/
def Line.endpoints : Line → Option (String × String)
  | .edge fromNode toNode => some (fromNode, toNode)
  | _ => none

/-- Go `strings.Builder`: the chunks written so far, oldest first. -/
abbrev Builder := List Line

/-- Go `(*strings.Builder).String()`. -/
def Builder.text (b : Builder) : String := String.join (b.map Line.render)

/-- The edges of a diagram, in the order they were written. -/
def Builder.edges (b : Builder) : List (String × String) := b.filterMap Line.endpoints

/-- The label of a node reference: the text before the first `[`, which is
what the diagram language takes as the node identifier. -/
def nodeLabel (node : String) : String := String.mk (node.data.takeWhile (fun c => c != '['))

/-- Go `fmt.Sprintf("Pipeline_%s[Pipeline: %s]", name, name)`. -/
def pipelineNodeOf (name : String) : String := "Pipeline_" ++ name ++ "[Pipeline: " ++ name ++ "]"

/-- Go `fmt.Sprintf("Task_%s[Task: %s]", name, name)`. -/
def taskNodeOf (name : String) : String := "Task_" ++ name ++ "[Task: " ++ name ++ "]"

/-- Go `fmt.Sprintf("Task_%s", name)`. -/
def taskLabelOf (name : String) : String := "Task_" ++ name

/-- Go `fmt.Sprintf("EventListener_%s[EventListener: %s]", name, name)`. -/
def eventListenerNodeOf (name : String) : String :=
  "EventListener_" ++ name ++ "[EventListener: " ++ name ++ "]"

/-- Go `fmt.Sprintf("TriggerBinding_%s[TriggerBinding: %s]", name, name)`. -/
def triggerBindingNodeOf (name : String) : String :=
  "TriggerBinding_" ++ name ++ "[TriggerBinding: " ++ name ++ "]"

/-- Go `fmt.Sprintf("TriggerTemplate_%s[TriggerTemplate: %s]", name, name)`. -/
def triggerTemplateNodeOf (name : String) : String :=
  "TriggerTemplate_" ++ name ++ "[TriggerTemplate: " ++ name ++ "]"

/-! ## Data model (the fields of the Tekton API types that the code reads) -/

/-- Go `pipelinev1.ParamType`. -/
inductive ParamType where
  | string
  | array
  | object
  deriving DecidableEq

/-- Go `pipelinev1.ParamValue`. -/
structure ParamValue where
  Type' : ParamType
  StringVal : String
  ArrayVal : List String
  ObjectVal : List (String × String)
  deriving DecidableEq

/-- Go `pipelinev1.Param`. -/
structure Param where
  Name : String
  Value : ParamValue
  deriving DecidableEq

/-- Go `pipelinev1.WhenExpression`. -/
structure WhenExpression where
  Input : String
  Operator : String
  Values : List String
  deriving DecidableEq

/-- Go `pipelinev1.PipelineTask`. -/
structure PipelineTask where
  Name : String
  RunAfter : List String
  Params : List Param
  When : List WhenExpression
  deriving DecidableEq

/-- Go `pipelinev1.PipelineSpec`. -/
structure PipelineSpec where
  Tasks : List PipelineTask
  deriving DecidableEq

/-- Go `pipelinev1.Pipeline`. -/
structure Pipeline where
  Name : String
  Spec : PipelineSpec
  deriving DecidableEq

/-- Go `apiextensionsv1.JSON`: `Raw` is a byte slice that may be `nil`. -/
structure RawJSON where
  Raw : Option String
  deriving DecidableEq

/-- Go `triggersv1beta1.InterceptorParams`. -/
structure InterceptorParams where
  Name : String
  Value : RawJSON
  deriving DecidableEq

/-- Go `triggersv1beta1.InterceptorRef`. -/
structure InterceptorRef where
  Name : String
  deriving DecidableEq

/-- Go `triggersv1beta1.TriggerInterceptor`. -/
structure TriggerInterceptor where
  Ref : InterceptorRef
  Params : List InterceptorParams
  deriving DecidableEq

/-- Go `triggersv1beta1.EventListenerBinding`. -/
structure EventListenerBinding where
  Ref : String
  deriving DecidableEq

/-- Go `triggersv1beta1.EventListenerTemplate`: `Ref` is a `*string`. -/
structure EventListenerTemplate where
  Ref : Option String
  deriving DecidableEq

/-- Go `triggersv1beta1.EventListenerTrigger`: `Template` is a
`*EventListenerTemplate`, nil for a trigger that is given by a `triggerRef`. -/
structure EventListenerTrigger where
  Name : String
  Template : Option EventListenerTemplate
  Bindings : List EventListenerBinding
  Interceptors : List TriggerInterceptor
  deriving DecidableEq

/-- Go `triggersv1beta1.EventListenerSpec`. -/
structure EventListenerSpec where
  Triggers : List EventListenerTrigger
  deriving DecidableEq

/-- Go `triggersv1beta1.EventListener`. -/
structure EventListener where
  Name : String
  Spec : EventListenerSpec
  deriving DecidableEq

/-- Go `triggersv1beta1.TriggerResourceTemplate` (a `runtime.RawExtension`). -/
structure TriggerResourceTemplate where
  Raw : String
  deriving DecidableEq

/-- Go `triggersv1beta1.TriggerTemplateSpec`. -/
structure TriggerTemplateSpec where
  ResourceTemplates : List TriggerResourceTemplate
  deriving DecidableEq

/-- Go `triggersv1beta1.TriggerTemplate`. -/
structure TriggerTemplate where
  Name : String
  Spec : TriggerTemplateSpec
  deriving DecidableEq

/-- The calls made on `*triggersclientset.Clientset`, as functions of their
arguments: `EventListeners(namespace).List` and
`TriggerTemplates(namespace).Get(name)`. -/
structure Clientset where
  ListEventListeners : String → Except String (List EventListener)
  GetTriggerTemplate : String → String → Except String TriggerTemplate

/-- The two uses of `encoding/json`, as functions of the raw bytes.
`unstructuredKind raw` is `json.Unmarshal(raw, &unstructuredObj)` followed by
`GetKind()`, `none` when `Unmarshal` fails.  `marshalIndent raw` is
`json.Unmarshal` into an `interface{}` followed by
`json.MarshalIndent(decoded, "", "  ")`, `none` when either fails. -/
structure JSONCodec where
  unstructuredKind : String → Option String
  marshalIndent : String → Option String

/-! ## `addEdgeIfNotExists` (pipeline.go 105-112, tektongraph.go 185-192) -/

/-- Go `map[string]bool` read through index expressions. -/
abbrev EdgeSet := String → Bool

/-- Go `make(map[string]bool)`. -/
def EdgeSet.empty : EdgeSet := fun _ => false

/-- The map key of an edge: `fmt.Sprintf("%s --> %s", fromNode, toNode)`. -/
def edgeKey (fromNode toNode : String) : String := fromNode ++ " --> " ++ toNode

/-- Go `addEdgeIfNotExists`: the builder and the map after the call. -/
def addEdgeIfNotExists (mermaidDiagram : Builder) (fromNode toNode : String)
    (existingEdges : EdgeSet) : Builder × EdgeSet :=
  let edge := edgeKey fromNode toNode
  if !existingEdges edge then
    (mermaidDiagram ++ [Line.edge fromNode toNode],
      fun key => if key = edge then true else existingEdges key)
  else
    (mermaidDiagram, existingEdges)

/-! ## `decodeRawJSON` (eventlistener.go 170-187, tektongraph.go 303-320) -/

/-- Scan for `strings.ReplaceAll` with a non-empty `old`; `skip` counts the
characters of the occurrence just replaced that are still ahead. -/
def replaceAllFrom (old new : List Char) : Nat → List Char → List Char
  | _, [] => []
  | skip + 1, _ :: cs => replaceAllFrom old new skip cs
  | 0, c :: cs =>
    if old.isPrefixOf (c :: cs) then new ++ replaceAllFrom old new (old.length - 1) cs
    else c :: replaceAllFrom old new 0 cs

/-- Go `strings.ReplaceAll(s, old, new)`: every non-overlapping occurrence of
`old`, leftmost first, is replaced; an empty `old` matches before every
character and at the end. -/
def stringsReplaceAll (s old new : String) : String :=
  if old.data = [] then String.mk (new.data ++ s.data.flatMap (fun c => c :: new.data))
  else String.mk (replaceAllFrom old.data new.data 0 s.data)

/-- Go `decodeRawJSON`; `none` stands for a non-nil error. -/
def decodeRawJSON (json : JSONCodec) (raw : String) : Option String :=
  match json.marshalIndent raw with
  | none => none
  | some prettyJSON => some (stringsReplaceAll prettyJSON "\\u0026" "&")

/-! ## `addTriggersToMermaid` (eventlistener.go 125-168, tektongraph.go 322-365) -/

/-- The run-time panic of Go on a read through a nil pointer. -/
def nilDereference : String := "runtime error: invalid memory address or nil pointer dereference"

/-- The innermost loop body: one binding of a linked trigger. -/
def linkBinding (eventListenerNode triggerTemplateNode : String) (mermaidDiagram : Builder)
    (binding : EventListenerBinding) : Builder :=
  let triggerBindingName := binding.Ref
  if triggerBindingName = "" then mermaidDiagram
  else
    let triggerBindingNode := triggerBindingNodeOf triggerBindingName
    let mermaidDiagram := mermaidDiagram ++ [Line.node triggerBindingNode]
    let mermaidDiagram := mermaidDiagram ++ [Line.edge eventListenerNode triggerBindingNode]
    mermaidDiagram ++ [Line.edge triggerBindingNode triggerTemplateNode]

/-- The loop body over `triggerTemplate.Spec.ResourceTemplates`. -/
def linkResource (json : JSONCodec) (eventListener : EventListener)
    (trigger : EventListenerTrigger) (triggerTemplate : TriggerTemplate)
    (mermaidDiagram : Builder) (res : TriggerResourceTemplate) : Builder :=
  match json.unstructuredKind res.Raw with
  | none => mermaidDiagram
  | some kind =>
    if kind = "PipelineRun" then
      let eventListenerNode := eventListenerNodeOf eventListener.Name
      let triggerTemplateNode := triggerTemplateNodeOf triggerTemplate.Name
      let mermaidDiagram := mermaidDiagram ++ [Line.node eventListenerNode]
      let mermaidDiagram := mermaidDiagram ++ [Line.node triggerTemplateNode]
      let mermaidDiagram := mermaidDiagram ++ [Line.edge eventListenerNode triggerTemplateNode]
      trigger.Bindings.foldl (linkBinding eventListenerNode triggerTemplateNode) mermaidDiagram
    else mermaidDiagram

/-- Lines 134-164 of eventlistener.go (331-361 of tektongraph.go): the loop
body over `eventListener.Spec.Triggers` once `triggerTemplateName` has been
read. -/
def linkTriggerWith (json : JSONCodec) (client : Clientset) (ns : String)
    (eventListener : EventListener) (triggerTemplateName : Option String)
    (mermaidDiagram : Builder) (trigger : EventListenerTrigger) : Builder :=
  match triggerTemplateName with
  | none => mermaidDiagram
  | some triggerTemplateName =>
    if triggerTemplateName = "" then mermaidDiagram
    else
      match client.GetTriggerTemplate ns triggerTemplateName with
      | .error _ => mermaidDiagram
      | .ok triggerTemplate =>
        triggerTemplate.Spec.ResourceTemplates.foldl
          (linkResource json eventListener trigger triggerTemplate) mermaidDiagram

/-- The loop body over `eventListener.Spec.Triggers`: line 133 reads
`trigger.Template.Ref`, which panics when `trigger.Template` is nil. -/
def linkTrigger (json : JSONCodec) (client : Clientset) (ns : String)
    (eventListener : EventListener) (mermaidDiagram : Builder)
    (trigger : EventListenerTrigger) : Except String Builder :=
  match trigger.Template with
  | none => .error nilDereference
  | some template =>
    .ok (linkTriggerWith json client ns eventListener template.Ref mermaidDiagram trigger)

/-- The loop over the triggers of one event listener: a panic ends it. -/
def linkTriggers (json : JSONCodec) (client : Clientset) (ns : String)
    (eventListener : EventListener) :
    Builder → List EventListenerTrigger → Except String Builder
  | mermaidDiagram, [] => .ok mermaidDiagram
  | mermaidDiagram, trigger :: rest =>
    match linkTrigger json client ns eventListener mermaidDiagram trigger with
    | .error panic => .error panic
    | .ok mermaidDiagram => linkTriggers json client ns eventListener mermaidDiagram rest

/-- The loop over the event listeners: a panic ends it. -/
def linkListeners (json : JSONCodec) (client : Clientset) (ns : String) :
    Builder → List EventListener → Except String Builder
  | mermaidDiagram, [] => .ok mermaidDiagram
  | mermaidDiagram, eventListener :: rest =>
    match linkTriggers json client ns eventListener mermaidDiagram
        eventListener.Spec.Triggers with
    | .error panic => .error panic
    | .ok mermaidDiagram => linkListeners json client ns mermaidDiagram rest

/-- Go `addTriggersToMermaid(mermaidDiagram, _, namespace, triggersClient)`:
`.error` when the call panics, else the builder after the call and the
returned error (`none` for `nil`).  The second parameter is the pipeline name,
which the Go function binds to `_`.  No caller recovers from a panic, so the
builder of a panicking call is never written to a file. -/
def addTriggersToMermaid (json : JSONCodec) (mermaidDiagram : Builder) (_pipelineName : String)
    (ns : String) (triggersClient : Clientset) : Except String (Builder × Option String) :=
  match triggersClient.ListEventListeners ns with
  | .error err => .ok (mermaidDiagram, some err)
  | .ok eventListeners =>
    match linkListeners json triggersClient ns mermaidDiagram eventListeners with
    | .error panic => .error panic
    | .ok mermaidDiagram => .ok (mermaidDiagram, none)

/-! ## `buildAndVisualizeMermaidForPipeline` (pipeline.go 14-81, tektongraph.go 122-183)

The file system is taken to work: `os.Create` and the writes succeed, so the
outcome of a call is the file name, the text the file holds when the call
ends, the text printed on standard output, the returned error, and the panic
that ended the call, if there was one. -/

/-- The outcome of building one output file. -/
structure FileResult where
  fileName : String
  file : String
  stdout : String
  err : Option String
  panic : Option String

/-- The path elements between the slashes of a path. -/
def splitSlash : List Char → List (List Char)
  | [] => [[]]
  | c :: cs =>
    match splitSlash cs with
    | [] => [[]]
    | first :: rest => if c = '/' then [] :: first :: rest else (c :: first) :: rest

/-- One step of Go `filepath.Clean` over the path elements; `kept` holds the
elements written so far, the last one first.  An empty element and `.` are
dropped; `..` removes the element before it, stays when nothing but `..`
elements came before, and is dropped at the root. -/
def cleanStep (rooted : Bool) (kept : List (List Char)) (element : List Char) :
    List (List Char) :=
  if element = [] ∨ element = ['.'] then kept
  else if element = ['.', '.'] then
    match kept with
    | top :: below => if top = ['.', '.'] then element :: kept else below
    | [] => if rooted then [] else [element]
  else element :: kept

/-- Go `filepath.Clean` with the separator `/`. -/
def pathClean (path : List Char) : List Char :=
  match path with
  | [] => ['.']
  | c :: _ =>
    let rooted := decide (c = '/')
    let kept := (splitSlash path).foldl (cleanStep rooted) []
    let body := List.intercalate ['/'] kept.reverse
    if rooted then '/' :: body else if body = [] then ['.'] else body

/-- Go `filepath.Join(outputDir, fileName)` with the separator `/`: the
elements from the first non-empty one on, joined by `/` and cleaned. -/
def filepathJoin (outputDir fileName : String) : String :=
  if outputDir ≠ "" then String.mk (pathClean (outputDir.data ++ '/' :: fileName.data))
  else if fileName ≠ "" then String.mk (pathClean fileName.data)
  else ""

/-- The diagram under construction and the text printed so far. -/
structure PipelineState where
  mermaidDiagram : Builder
  stdout : String

/-- Go `renderCondition` (pipeline.go 83-90): the four `fmt.Printf` calls. -/
def renderCondition (taskName : String) (whenExpression : WhenExpression) (stdout : String) :
    String :=
  let stdout := stdout ++ "\tTask: " ++ taskName ++ "\n"
  let stdout := stdout ++ "\t\tTrace: When Input: " ++ whenExpression.Input ++ "\n"
  let stdout := stdout ++ "\t\tTrace: When Operator: " ++ whenExpression.Operator ++ "\n"
  whenExpression.Values.foldl
    (fun stdout value => stdout ++ "\t\t\tTrace: When Value: " ++ value ++ "\n") stdout

/-- The diagram part of the loop body over `pipeline.Spec.Tasks`
(pipeline.go 37-56, tektongraph.go 145-164; the two copies are the same). -/
def visualizeTask (pipelineNode : String) (mermaidDiagram : Builder) (task : PipelineTask) :
    Builder :=
  let taskNode := taskNodeOf task.Name
  let mermaidDiagram := mermaidDiagram ++ [Line.node taskNode]
  let mermaidDiagram := mermaidDiagram ++ [Line.edge pipelineNode taskNode]
  let mermaidDiagram := task.RunAfter.foldl
    (fun d dep => d ++ [Line.edge (taskLabelOf dep) taskNode]) mermaidDiagram
  task.Params.foldl
    (fun d param =>
      if param.Value.Type' = ParamType.string then
        (extractTaskReferences param.Value.StringVal).foldl
          (fun d m => d ++ [Line.edge (taskLabelOf m) taskNode]) d
      else d)
    mermaidDiagram

/-- The loop body over `pipeline.Spec.Tasks` of pipeline.go (lines 36-63): the
diagram part followed by the trace of the when-expressions. -/
def visualizeTaskWithTrace (pipelineNode : String) (st : PipelineState) (task : PipelineTask) :
    PipelineState :=
  ⟨visualizeTask pipelineNode st.mermaidDiagram task,
    task.When.foldl (fun stdout whenExpression => renderCondition task.Name whenExpression stdout)
      st.stdout⟩

/-- The state of pipeline.go's `buildAndVisualizeMermaidForPipeline` when it
reaches the call of `addTriggersToMermaid` (line 66). -/
def pipelinePart (pipeline : Pipeline) : PipelineState :=
  let mermaidDiagram : Builder := [Line.text "```mermaid\n", Line.text "graph TD;\n"]
  let pipelineNode := pipelineNodeOf pipeline.Name
  let mermaidDiagram := mermaidDiagram ++ [Line.node pipelineNode]
  pipeline.Spec.Tasks.foldl (visualizeTaskWithTrace pipelineNode) ⟨mermaidDiagram, ""⟩

/-- Go `buildAndVisualizeMermaidForPipeline` of pipeline.go. -/
def buildAndVisualizeMermaidForPipeline (json : JSONCodec) (pipeline : Pipeline) (ns : String)
    (triggersClient : Clientset) (outputDir : String) : FileResult :=
  let fileName := ns ++ "_pipeline_" ++ pipeline.Name ++ ".md"
  let filePath := filepathJoin outputDir fileName
  let st := pipelinePart pipeline
  match addTriggersToMermaid json st.mermaidDiagram pipeline.Name ns triggersClient with
  | .error panic => ⟨fileName, "", st.stdout, none, some panic⟩
  | .ok (_, some err) => ⟨fileName, "", st.stdout, some err, none⟩
  | .ok (mermaidDiagram, none) =>
    let mermaidDiagram := mermaidDiagram ++ [Line.text "```\n"]
    ⟨fileName, mermaidDiagram.text,
      st.stdout ++ "Mermaid-Diagramm für Pipeline '" ++ pipeline.Name ++
        "' wurde in der Datei " ++ filePath ++ " gespeichert.\n", none, none⟩

namespace Monolith

/-- The diagram of tektongraph.go's `buildAndVisualizeMermaidForPipeline` when
it reaches the call of `addTriggersToMermaid` (line 168); this copy has no
loop over the when-expressions. -/
def pipelinePart (pipeline : Pipeline) : Builder :=
  let mermaidDiagram : Builder := [Line.text "```mermaid\n", Line.text "graph TD;\n"]
  let pipelineNode := pipelineNodeOf pipeline.Name
  let mermaidDiagram := mermaidDiagram ++ [Line.node pipelineNode]
  pipeline.Spec.Tasks.foldl (visualizeTask pipelineNode) mermaidDiagram

/-- Go `buildAndVisualizeMermaidForPipeline` of tektongraph.go. -/
def buildAndVisualizeMermaidForPipeline (json : JSONCodec) (pipeline : Pipeline) (ns : String)
    (triggersClient : Clientset) (outputDir : String) : FileResult :=
  let fileName := ns ++ "_pipeline_" ++ pipeline.Name ++ ".md"
  let filePath := filepathJoin outputDir fileName
  match addTriggersToMermaid json (pipelinePart pipeline) pipeline.Name ns triggersClient with
  | .error panic => ⟨fileName, "", "", none, some panic⟩
  | .ok (_, some err) => ⟨fileName, "", "", some err, none⟩
  | .ok (mermaidDiagram, none) =>
    let mermaidDiagram := mermaidDiagram ++ [Line.text "```\n"]
    ⟨fileName, mermaidDiagram.text,
      "Mermaid-Diagramm für Pipeline '" ++ pipeline.Name ++
        "' wurde in der Datei " ++ filePath ++ " gespeichert.\n", none, none⟩

end Monolith

/-! ## `buildAndVisualizeMermaidForEventListener`
(eventlistener.go 17-123, tektongraph.go 194-300) -/

/-- The file text, the diagram and the edge map while the triggers are
processed.  The trigger text goes to the file at once, the diagram at the
end. -/
structure ListenerState where
  file : String
  mermaidDiagram : Builder
  existingEdges : EdgeSet

/-- The loop body over `interceptor.Params`. -/
def writeInterceptorParam (json : JSONCodec) (file : String) (param : InterceptorParams) :
    String :=
  match param.Value.Raw with
  | none => file
  | some raw =>
    match decodeRawJSON json raw with
    | none => file ++ "  - **" ++ param.Name ++ ":** " ++ raw ++ " (unparsable)\n"
    | some decodedValue => file ++ "  - **" ++ param.Name ++ ":** " ++ decodedValue ++ "\n"

/-- The loop body over `trigger.Interceptors`. -/
def writeInterceptor (json : JSONCodec) (file : String) (interceptor : TriggerInterceptor) :
    String :=
  let file :=
    if interceptor.Ref.Name ≠ "" then file ++ "- **Interceptor:** " ++ interceptor.Ref.Name ++ "\n"
    else file
  interceptor.Params.foldl (writeInterceptorParam json) file

/-- The loop body over `trigger.Bindings`. -/
def visualizeBinding (eventListenerNode : String) (triggerTemplateName : Option String)
    (st : ListenerState) (binding : EventListenerBinding) : ListenerState :=
  let triggerBindingName := binding.Ref
  if triggerBindingName ≠ "" then
    let triggerBindingNode := triggerBindingNodeOf triggerBindingName
    let mermaidDiagram := st.mermaidDiagram ++ [Line.node triggerBindingNode]
    let linked : Builder × EdgeSet :=
      match triggerTemplateName with
      | none => (mermaidDiagram, st.existingEdges)
      | some name =>
        if name ≠ "" then
          addEdgeIfNotExists mermaidDiagram triggerBindingNode (triggerTemplateNodeOf name)
            st.existingEdges
        else (mermaidDiagram, st.existingEdges)
    let linked := addEdgeIfNotExists linked.1 eventListenerNode triggerBindingNode linked.2
    ⟨st.file ++ "- **Binding:** " ++ triggerBindingName ++ "\n", linked.1, linked.2⟩
  else st

/-- Lines 44-102 of eventlistener.go (221-279 of tektongraph.go), the part of
the loop body over the triggers that the two copies share, once
`triggerTemplateName` has been read: heading, interceptors, bindings. -/
def visualizeTriggerHead (json : JSONCodec) (eventListenerNode : String)
    (triggerTemplateName : Option String) (st : ListenerState)
    (trigger : EventListenerTrigger) : ListenerState :=
  let file := st.file ++ "### Trigger " ++ trigger.Name ++ ":\n\n"
  let file := trigger.Interceptors.foldl (writeInterceptor json) file
  trigger.Bindings.foldl (visualizeBinding eventListenerNode triggerTemplateName)
    ⟨file, st.mermaidDiagram, st.existingEdges⟩

/-- Lines 44-110 of eventlistener.go: the loop body over the triggers once
`triggerTemplateName` has been read; the template line is guarded by
`triggerTemplateName != nil && *triggerTemplateName != ""`. -/
def visualizeTriggerWith (json : JSONCodec) (eventListenerNode : String)
    (triggerTemplateName : Option String) (st : ListenerState)
    (trigger : EventListenerTrigger) : ListenerState :=
  let st := visualizeTriggerHead json eventListenerNode triggerTemplateName st trigger
  match triggerTemplateName with
  | none => st
  | some name =>
    if name ≠ "" then ⟨st.file ++ "- **Template:** " ++ name ++ "\n", st.mermaidDiagram,
      st.existingEdges⟩
    else st

/-- The loop body over `eventListener.Spec.Triggers` of eventlistener.go
(lines 42-111): line 43 reads `trigger.Template.Ref`, which panics when
`trigger.Template` is nil, before anything is written for the trigger. -/
def visualizeTrigger (json : JSONCodec) (eventListenerNode : String) (st : ListenerState)
    (trigger : EventListenerTrigger) : Except String ListenerState :=
  match trigger.Template with
  | none => .error nilDereference
  | some template => .ok (visualizeTriggerWith json eventListenerNode template.Ref st trigger)

/-- The loop over the triggers: the state when the loop is done, or the state
at the panic that ended it together with that panic. -/
def visualizeTriggers (json : JSONCodec) (eventListenerNode : String) :
    ListenerState → List EventListenerTrigger → ListenerState × Option String
  | st, [] => (st, none)
  | st, trigger :: rest =>
    match visualizeTrigger json eventListenerNode st trigger with
    | .error panic => (st, some panic)
    | .ok st => visualizeTriggers json eventListenerNode st rest

/-- The state of eventlistener.go's `buildAndVisualizeMermaidForEventListener`
when the loop over the triggers is done (line 111), or at the panic that
ended the loop. -/
def listenerPart (json : JSONCodec) (eventListener : EventListener) :
    ListenerState × Option String :=
  let mermaidDiagram : Builder := [Line.text "```mermaid\n", Line.text "graph TD;\n"]
  let eventListenerNode := eventListenerNodeOf eventListener.Name
  let mermaidDiagram := mermaidDiagram ++ [Line.node eventListenerNode]
  visualizeTriggers json eventListenerNode ⟨"", mermaidDiagram, EdgeSet.empty⟩
    eventListener.Spec.Triggers

/-- Go `buildAndVisualizeMermaidForEventListener` of eventlistener.go. -/
def buildAndVisualizeMermaidForEventListener (json : JSONCodec) (eventListener : EventListener)
    (ns : String) (_triggersClient : Clientset) (outputDir : String) : FileResult :=
  let fileName := ns ++ "_eventlistener_" ++ eventListener.Name ++ ".md"
  let filePath := filepathJoin outputDir fileName
  match listenerPart json eventListener with
  | (st, some panic) => ⟨fileName, st.file, "", none, some panic⟩
  | (st, none) =>
    let mermaidDiagram := st.mermaidDiagram ++ [Line.text "```\n"]
    ⟨fileName, st.file ++ mermaidDiagram.text,
      "Mermaid-Diagramm für EventListener '" ++ eventListener.Name ++
        "' wurde in der Datei " ++ filePath ++ " gespeichert.\n", none, none⟩

namespace Monolith

/-- The loop body over `eventListener.Spec.Triggers` of tektongraph.go (lines
219-288): line 220 reads `trigger.Template.Ref`, which panics when
`trigger.Template` is nil; the template line is guarded by
`*triggerTemplateName != ""` alone (line 282), so a nil `triggerTemplateName`
panics there. -/
def visualizeTrigger (json : JSONCodec) (eventListenerNode : String) (st : ListenerState)
    (trigger : EventListenerTrigger) : Except String ListenerState :=
  match trigger.Template with
  | none => .error nilDereference
  | some template =>
    let st := visualizeTriggerHead json eventListenerNode template.Ref st trigger
    match template.Ref with
    | none => .error nilDereference
    | some name =>
      if name ≠ "" then .ok ⟨st.file ++ "- **Template:** " ++ name ++ "\n", st.mermaidDiagram,
        st.existingEdges⟩
      else .ok st

/-- The loop over the triggers: a panic ends it. -/
def visualizeTriggers (json : JSONCodec) (eventListenerNode : String) :
    ListenerState → List EventListenerTrigger → Except String ListenerState
  | st, [] => .ok st
  | st, trigger :: rest =>
    match visualizeTrigger json eventListenerNode st trigger with
    | .error panic => .error panic
    | .ok st => visualizeTriggers json eventListenerNode st rest

/-- The state of tektongraph.go's `buildAndVisualizeMermaidForEventListener`
when the loop over the triggers is done (line 288), or the panic that ended
the loop. -/
def listenerPart (json : JSONCodec) (eventListener : EventListener) :
    Except String ListenerState :=
  let mermaidDiagram : Builder := [Line.text "```mermaid\n", Line.text "graph TD;\n"]
  let eventListenerNode := eventListenerNodeOf eventListener.Name
  let mermaidDiagram := mermaidDiagram ++ [Line.node eventListenerNode]
  visualizeTriggers json eventListenerNode ⟨"", mermaidDiagram, EdgeSet.empty⟩
    eventListener.Spec.Triggers

/-- Go `buildAndVisualizeMermaidForEventListener` of tektongraph.go:
`.error` when the call panics, `.ok` with the outcome when it returns. -/
def buildAndVisualizeMermaidForEventListener (json : JSONCodec) (eventListener : EventListener)
    (ns : String) (_triggersClient : Clientset) (outputDir : String) :
    Except String FileResult :=
  let fileName := ns ++ "_eventlistener_" ++ eventListener.Name ++ ".md"
  let filePath := filepathJoin outputDir fileName
  match listenerPart json eventListener with
  | .error panic => .error panic
  | .ok st =>
    let mermaidDiagram := st.mermaidDiagram ++ [Line.text "```\n"]
    .ok ⟨fileName, st.file ++ mermaidDiagram.text,
      "Mermaid-Diagramm für EventListener '" ++ eventListener.Name ++
        "' wurde in der Datei " ++ filePath ++ " gespeichert.\n", none, none⟩

end Monolith

/-! ## Edge lists used to state the claims on the pipeline diagram -/

/-- What one step contributes to the diagram: its node line and its edge
lines. -/
def taskLines (pipelineNode : String) (task : PipelineTask) : List Line :=
  [Line.node (taskNodeOf task.Name), Line.edge pipelineNode (taskNodeOf task.Name)] ++
    task.RunAfter.map (fun dep => Line.edge (taskLabelOf dep) (taskNodeOf task.Name)) ++
    task.Params.flatMap (fun param =>
      if param.Value.Type' = ParamType.string then
        (extractTaskReferences param.Value.StringVal).map
          (fun m => Line.edge (taskLabelOf m) (taskNodeOf task.Name))
      else [])

/-- The edges of one step as node references, the way they stand in the edge
lines: the pipeline and the step itself in display form, a predecessor or a
referenced step as a bare label. -/
def stepEdgeNodes (pipelineName : String) (task : PipelineTask) : List (String × String) :=
  [(pipelineNodeOf pipelineName, taskNodeOf task.Name)] ++
    task.RunAfter.map (fun dep => (taskLabelOf dep, taskNodeOf task.Name)) ++
    task.Params.flatMap (fun param =>
      if param.Value.Type' = ParamType.string then
        (extractTaskReferences param.Value.StringVal).map
          (fun m => (taskLabelOf m, taskNodeOf task.Name))
      else [])

/-- The edges of one step as pairs of labels, in the words of the claim:
`Pipeline_P -> Task_s`, then `Task_d -> Task_s` for each `d` in `RunAfter`,
then `Task_m -> Task_s` for each name `m` extracted from each string-typed
param. -/
def stepEdgeLabels (pipelineName : String) (task : PipelineTask) : List (String × String) :=
  [("Pipeline_" ++ pipelineName, "Task_" ++ task.Name)] ++
    task.RunAfter.map (fun d => ("Task_" ++ d, "Task_" ++ task.Name)) ++
    (task.Params.filter (fun param => decide (param.Value.Type' = ParamType.string))).flatMap
      (fun param =>
        (extractTaskReferences param.Value.StringVal).map
          (fun m => ("Task_" ++ m, "Task_" ++ task.Name)))

/-- An edge read as a pair of labels. -/
def edgeLabels (e : String × String) : String × String := (nodeLabel e.1, nodeLabel e.2)

/-- No name of the pipeline holds the character `[` that opens a display
form (names of cluster objects never do). -/
def BracketFree (pipeline : Pipeline) : Prop :=
  '[' ∉ pipeline.Name.data ∧
    ∀ task ∈ pipeline.Spec.Tasks, '[' ∉ task.Name.data ∧ ∀ dep ∈ task.RunAfter, '[' ∉ dep.data

instance (pipeline : Pipeline) : Decidable (BracketFree pipeline) := by
  unfold BracketFree; infer_instance

/-- Scenario of the specification: steps `build` and `test`, `test` runs after
`build`. -/
def scenarioBuildTest : Pipeline :=
  ⟨"P", ⟨[⟨"build", [], [], []⟩, ⟨"test", ["build"], [], []⟩]⟩⟩

/-- Scenario of the specification: step `deploy` with a string param that
refers to a result of `build`, and an array param with the same text in its
unused string field. -/
def scenarioDeploy : Pipeline :=
  ⟨"P", ⟨[⟨"deploy", [],
    [⟨"image", ⟨ParamType.string, "$(tasks.build.results.image)", [], []⟩⟩,
      ⟨"extra", ⟨ParamType.array, "$(tasks.other.results.x)", [], []⟩⟩], []⟩]⟩⟩

/-! ## Line lists used to state the claims on the cross-reference linker -/

/-- What one binding of a linked trigger contributes: its node line, the edge
listener -> binding and the edge binding -> template; nothing for an empty
name. -/
def bindingBlock (eventListenerNode triggerTemplateNode : String)
    (binding : EventListenerBinding) : List Line :=
  if binding.Ref = "" then []
  else
    [Line.node (triggerBindingNodeOf binding.Ref),
      Line.edge eventListenerNode (triggerBindingNodeOf binding.Ref),
      Line.edge (triggerBindingNodeOf binding.Ref) triggerTemplateNode]

/-- What a trigger contributes for one payload of kind `PipelineRun` of its
resolved template: listener node, template node, the edge listener ->
template, then the blocks of its bindings. -/
def linkedBlock (eventListener : EventListener) (trigger : EventListenerTrigger)
    (triggerTemplate : TriggerTemplate) : List Line :=
  [Line.node (eventListenerNodeOf eventListener.Name),
    Line.node (triggerTemplateNodeOf triggerTemplate.Name),
    Line.edge (eventListenerNodeOf eventListener.Name)
      (triggerTemplateNodeOf triggerTemplate.Name)] ++
    trigger.Bindings.flatMap
      (bindingBlock (eventListenerNodeOf eventListener.Name)
        (triggerTemplateNodeOf triggerTemplate.Name))

/-- What one payload contributes: the linked block when its kind reads
`PipelineRun`, nothing otherwise. -/
def resourceBlock (json : JSONCodec) (eventListener : EventListener)
    (trigger : EventListenerTrigger) (triggerTemplate : TriggerTemplate)
    (res : TriggerResourceTemplate) : List Line :=
  if json.unstructuredKind res.Raw = some "PipelineRun" then
    linkedBlock eventListener trigger triggerTemplate
  else []

/-- What one trigger with the template reference `triggerTemplateName`
contributes: nothing without a template name or when the lookup fails, else
the blocks of the payloads of the template. -/
def triggerBlockWith (json : JSONCodec) (client : Clientset) (ns : String)
    (eventListener : EventListener) (triggerTemplateName : Option String)
    (trigger : EventListenerTrigger) : List Line :=
  match triggerTemplateName with
  | none => []
  | some triggerTemplateName =>
    if triggerTemplateName = "" then []
    else
      match client.GetTriggerTemplate ns triggerTemplateName with
      | .error _ => []
      | .ok triggerTemplate =>
        triggerTemplate.Spec.ResourceTemplates.flatMap
          (resourceBlock json eventListener trigger triggerTemplate)

/-- What one trigger contributes when the call returns; a trigger with a nil
`Template` contributes nothing here, the call panics on it. -/
def triggerBlock (json : JSONCodec) (client : Clientset) (ns : String)
    (eventListener : EventListener) (trigger : EventListenerTrigger) : List Line :=
  match trigger.Template with
  | none => []
  | some template => triggerBlockWith json client ns eventListener template.Ref trigger

/-- Every trigger of every listener has its `Template` pointer set. -/
def HasTemplates (eventListeners : List EventListener) : Prop :=
  ∀ eventListener ∈ eventListeners, ∀ trigger ∈ eventListener.Spec.Triggers,
    trigger.Template ≠ none

instance (eventListeners : List EventListener) : Decidable (HasTemplates eventListeners) := by
  unfold HasTemplates; infer_instance

/-- The lines that the cross-reference part appends for a list of event
listeners when the call returns. -/
def crossReferenceLines (json : JSONCodec) (client : Clientset) (ns : String)
    (eventListeners : List EventListener) : List Line :=
  eventListeners.flatMap
    (fun eventListener => eventListener.Spec.Triggers.flatMap (triggerBlock json client ns eventListener))

/-- The template of the trigger can be resolved: the reference is neither
nil nor empty and the lookup succeeds. -/
def resolvable (client : Clientset) (ns : String) (trigger : EventListenerTrigger) : Bool :=
  match trigger.Template with
  | none => false
  | some template =>
    match template.Ref with
    | none => false
    | some triggerTemplateName =>
      if triggerTemplateName = "" then false
      else
        match client.GetTriggerTemplate ns triggerTemplateName with
        | .error _ => false
        | .ok _ => true

/-- The event listener without the triggers whose template cannot be
resolved. -/
def pruneListener (client : Clientset) (ns : String) (eventListener : EventListener) :
    EventListener :=
  ⟨eventListener.Name, ⟨eventListener.Spec.Triggers.filter (resolvable client ns)⟩⟩

/-- The client whose listing of the namespaces returns `eventListeners`; the
template lookups are those of `client`. -/
def withListeners (client : Clientset) (eventListeners : List EventListener) : Clientset :=
  ⟨fun _ => .ok eventListeners, client.GetTriggerTemplate⟩

/-! ## Shapes of edge lines -/

/-- The shape of an edge of the pipeline builder: the target is a declared
step in display form `Task_s[Task: s]`; the source is the pipeline in display
form, or the bare label `Task_d` of a predecessor `d` of that step, or the
bare label `Task_m` of a name `m` extracted from a string param of that
step. -/
def PipelineEdgeShape (pipeline : Pipeline) (e : String × String) : Prop :=
  ∃ task ∈ pipeline.Spec.Tasks, e.2 = taskNodeOf task.Name ∧
    (e.1 = pipelineNodeOf pipeline.Name ∨
      (∃ dep ∈ task.RunAfter, e.1 = taskLabelOf dep) ∨
      (∃ param ∈ task.Params, param.Value.Type' = ParamType.string ∧
        ∃ m ∈ extractTaskReferences param.Value.StringVal, e.1 = taskLabelOf m))

instance (pipeline : Pipeline) (e : String × String) :
    Decidable (PipelineEdgeShape pipeline e) := by
  unfold PipelineEdgeShape; infer_instance

/-- The shape of an edge of the event-listener builder: for a trigger of the
listener and a binding of it with a non-empty name, the edge listener ->
binding, or the edge binding -> template when the trigger names a template;
every end in display form. -/
def ListenerEdgeShape (eventListener : EventListener) (e : String × String) : Prop :=
  ∃ trigger ∈ eventListener.Spec.Triggers, ∃ template, trigger.Template = some template ∧
    ∃ binding ∈ trigger.Bindings, binding.Ref ≠ "" ∧
      (e = (eventListenerNodeOf eventListener.Name, triggerBindingNodeOf binding.Ref) ∨
        ∃ name, template.Ref = some name ∧ name ≠ "" ∧
          e = (triggerBindingNodeOf binding.Ref, triggerTemplateNodeOf name))

/-- The shape of an edge of the cross-reference linker: for a trigger of a
listed listener whose template reference resolves to a template with a
payload of kind `PipelineRun`, the edge listener -> template, or for a
binding of the trigger with a non-empty name the edge listener -> binding or
the edge binding -> template; every end in display form. -/
def LinkEdgeShape (json : JSONCodec) (client : Clientset) (ns : String)
    (eventListeners : List EventListener) (e : String × String) : Prop :=
  ∃ eventListener ∈ eventListeners, ∃ trigger ∈ eventListener.Spec.Triggers,
    ∃ template name triggerTemplate,
      trigger.Template = some template ∧ template.Ref = some name ∧ name ≠ "" ∧
      client.GetTriggerTemplate ns name = .ok triggerTemplate ∧
      (∃ res ∈ triggerTemplate.Spec.ResourceTemplates,
        json.unstructuredKind res.Raw = some "PipelineRun") ∧
      (e = (eventListenerNodeOf eventListener.Name, triggerTemplateNodeOf triggerTemplate.Name) ∨
        ∃ binding ∈ trigger.Bindings, binding.Ref ≠ "" ∧
          (e = (eventListenerNodeOf eventListener.Name, triggerBindingNodeOf binding.Ref) ∨
            e = (triggerBindingNodeOf binding.Ref,
              triggerTemplateNodeOf triggerTemplate.Name)))

/-- A cluster without event listeners. -/
def emptyCluster : Clientset := ⟨fun _ => .ok [], fun _ _ => .error "not found"⟩

/-- A JSON codec that reads the raw text as the kind and leaves the text as
it is; enough to evaluate the examples. -/
def plainCodec : JSONCodec := ⟨fun raw => some raw, fun raw => some raw⟩

/-! ## Texts used to state the claims on the event-listener builder -/

/-- The line written for one interceptor param: nothing without raw bytes,
else the decoded value, or the raw bytes marked unparsable. -/
def paramText (json : JSONCodec) (param : InterceptorParams) : String :=
  match param.Value.Raw with
  | none => ""
  | some raw =>
    match decodeRawJSON json raw with
    | none => "  - **" ++ param.Name ++ ":** " ++ raw ++ " (unparsable)\n"
    | some decodedValue => "  - **" ++ param.Name ++ ":** " ++ decodedValue ++ "\n"

/-- The text block of the interceptors of a trigger: one `- **Interceptor:**`
line per interceptor with a non-empty name, each followed by the lines of its
params. -/
def interceptorText (json : JSONCodec) (interceptors : List TriggerInterceptor) : String :=
  String.join (interceptors.map (fun interceptor =>
    (if interceptor.Ref.Name ≠ "" then "- **Interceptor:** " ++ interceptor.Ref.Name ++ "\n"
      else "") ++
    String.join (interceptor.Params.map (paramText json))))

/-- The text block of the bindings of a trigger: one `- **Binding:**` line per
binding with a non-empty name. -/
def bindingText (bindings : List EventListenerBinding) : String :=
  String.join ((bindings.filter (fun binding => decide (binding.Ref ≠ ""))).map
    (fun binding => "- **Binding:** " ++ binding.Ref ++ "\n"))

/-- The diagram part of a trigger without template: for each binding with a
non-empty name the binding node, then the edge listener -> binding through
the deduplicator. -/
def linkBindingsToListener (eventListenerNode : String) (start : Builder × EdgeSet)
    (bindings : List EventListenerBinding) : Builder × EdgeSet :=
  (bindings.filter (fun binding => decide (binding.Ref ≠ ""))).foldl
    (fun acc binding =>
      addEdgeIfNotExists (acc.1 ++ [Line.node (triggerBindingNodeOf binding.Ref)])
        eventListenerNode (triggerBindingNodeOf binding.Ref) acc.2)
    start

/-- A trigger without template (the reference points to the empty string)
and with the one binding `b`. -/
def triggerEmptyTemplate (name : String) : EventListenerTrigger :=
  ⟨name, some ⟨some ""⟩, [⟨"b"⟩], []⟩

/-- A listener with two triggers without template that share the binding
`b`. -/
def listenerSharedBinding : EventListener :=
  ⟨"l", ⟨[triggerEmptyTemplate "first", triggerEmptyTemplate "second"]⟩⟩

/-- A listener whose first trigger has a nil template reference and whose
second trigger names the template `tt`. -/
def listenerNilTemplate : EventListener :=
  ⟨"l", ⟨[⟨"t", some ⟨none⟩, [⟨"b"⟩], [⟨⟨"cel"⟩, []⟩]⟩, ⟨"u", some ⟨some "tt"⟩, [⟨"c"⟩], []⟩]⟩⟩

/-- A trigger given by a `triggerRef`: its `Template` pointer is nil. -/
def triggerByRef (name : String) : EventListenerTrigger := ⟨name, none, [], []⟩

/-- The two event listeners of the scenario, each with one trigger. -/
def scenarioListeners : List EventListener :=
  [⟨"l1", ⟨[⟨"t1", some ⟨some "tt1"⟩, [⟨"b1"⟩], []⟩]⟩⟩,
    ⟨"l2", ⟨[⟨"t2", some ⟨some "tt2"⟩, [⟨"b2"⟩], []⟩]⟩⟩]

/-- A cluster with the two listeners of the scenario; the template `tt1`
holds one `PipelineRun` payload, the template `tt2` a `TaskRun` payload and a
`PipelineRun` payload (the codec of the examples reads the raw text as the
kind). -/
def scenarioCluster : Clientset :=
  ⟨fun _ => .ok scenarioListeners,
    fun _ name =>
      if name = "tt1" then .ok ⟨"tt1", ⟨[⟨"PipelineRun"⟩]⟩⟩
      else if name = "tt2" then .ok ⟨"tt2", ⟨[⟨"TaskRun"⟩, ⟨"PipelineRun"⟩]⟩⟩
      else .error "not found"⟩

/-- One listener whose first trigger names a template that does not exist,
whose second trigger has a nil template reference, and whose third trigger
names `tt1`. -/
def failingFirstListeners : List EventListener :=
  [⟨"l", ⟨[⟨"gone", some ⟨some "missing"⟩, [⟨"a"⟩], []⟩, ⟨"nil", some ⟨none⟩, [⟨"n"⟩], []⟩,
    ⟨"kept", some ⟨some "tt1"⟩, [⟨"b"⟩], []⟩]⟩⟩]

/-- The cluster of the scenario with the listener of `failingFirstListeners`. -/
def failingFirstCluster : Clientset := withListeners scenarioCluster failingFirstListeners

/-- One listener whose first trigger is given by a `triggerRef` (nil
`Template`) and whose second trigger names `tt1`. -/
def triggerRefListeners : List EventListener :=
  [⟨"l", ⟨[triggerByRef "byref", ⟨"kept", some ⟨some "tt1"⟩, [⟨"b"⟩], []⟩]⟩⟩]

/-- The cluster of the scenario with the listener of `triggerRefListeners`. -/
def triggerRefCluster : Clientset := withListeners scenarioCluster triggerRefListeners

/-! ## Texts and pipelines used to state the claim on hyphenated step names -/

/-- A reference to a result of the step `a-b`:
`"$(tasks." + a + "-" + b + ".results.x)"`. -/
def hyphenReference (a b : String) : String := "$(tasks." ++ a ++ "-" ++ b ++ ".results.x)"

/-- A pipeline with the one step `stepName`, which has no predecessor and one
string param whose value is `value`. -/
def pipelineWithParam (pipelineName stepName paramName value : String) : Pipeline :=
  ⟨pipelineName, ⟨[⟨stepName, [], [⟨paramName, ⟨ParamType.string, value, [], []⟩⟩], []⟩]⟩⟩

/-! ## Texts used to state the claim on the annotation decoder -/

/-- The escaped ampersand of `encoding/json`: backslash, `u`, `0`, `0`, `2`,
`6`. -/
def escapedAmpersand : List Char := ['\\', 'u', '0', '0', '2', '6']

/-- The text holds the escaped ampersand somewhere. -/
def HasEscapedAmpersand (text : String) : Prop := escapedAmpersand <:+: text.data

/-! ## Pipelines and texts used to state the claim on the when-expressions -/

/-- The step without its when-expressions. -/
def eraseWhenTask (task : PipelineTask) : PipelineTask :=
  ⟨task.Name, task.RunAfter, task.Params, []⟩

/-- The pipeline without the when-expressions of its steps; two pipelines
differ only in their when-expressions when this gives the same pipeline. -/
def eraseWhen (pipeline : Pipeline) : Pipeline :=
  ⟨pipeline.Name, ⟨pipeline.Spec.Tasks.map eraseWhenTask⟩⟩

/-- The trace printed for one when-expression of the step `taskName`. -/
def conditionText (taskName : String) (whenExpression : WhenExpression) : String :=
  "\tTask: " ++ taskName ++ "\n" ++
    ("\t\tTrace: When Input: " ++ whenExpression.Input ++ "\n") ++
    ("\t\tTrace: When Operator: " ++ whenExpression.Operator ++ "\n") ++
    String.join (whenExpression.Values.map
      (fun value => "\t\t\tTrace: When Value: " ++ value ++ "\n"))

/-- The trace printed for the when-expressions of a pipeline, step by step. -/
def whenTrace (pipeline : Pipeline) : String :=
  String.join (pipeline.Spec.Tasks.map
    (fun task => String.join (task.When.map (conditionText task.Name))))

/-- The last line printed when the file has been written. -/
def savedMessage (pipelineName filePath : String) : String :=
  "Mermaid-Diagramm für Pipeline '" ++ pipelineName ++ "' wurde in der Datei " ++ filePath ++
    " gespeichert.\n"

/-- The scenario pipeline with a when-expression on the step `test`. -/
def scenarioBuildTestGuarded : Pipeline :=
  ⟨"P", ⟨[⟨"build", [], [], []⟩,
    ⟨"test", ["build"], [], [⟨"$(params.run)", "in", ["yes", "true"]⟩]⟩]⟩⟩

/-! ## Line lists used to state the claim on the edges of a listener diagram -/

/-- What one binding emits before deduplication: nothing for an empty name,
else its node line, the edge binding -> template when the trigger names a
template, and the edge listener -> binding. -/
def bindingEvents (eventListenerNode : String) (triggerTemplateName : Option String)
    (binding : EventListenerBinding) : List Line :=
  if binding.Ref = "" then []
  else
    [Line.node (triggerBindingNodeOf binding.Ref)] ++
      (match triggerTemplateName with
        | none => []
        | some name =>
          if name = "" then []
          else [Line.edge (triggerBindingNodeOf binding.Ref) (triggerTemplateNodeOf name)]) ++
      [Line.edge eventListenerNode (triggerBindingNodeOf binding.Ref)]

/-- What the triggers emit before deduplication, in order, up to the first
trigger with a nil `Template`, where the loop ends in a panic. -/
def triggerEvents (eventListenerNode : String) : List EventListenerTrigger → List Line
  | [] => []
  | trigger :: rest =>
    match trigger.Template with
    | none => []
    | some template =>
      trigger.Bindings.flatMap (bindingEvents eventListenerNode template.Ref) ++
        triggerEvents eventListenerNode rest

/-- What the triggers of a listener emit before deduplication, in order. -/
def listenerEvents (eventListener : EventListener) : List Line :=
  triggerEvents (eventListenerNodeOf eventListener.Name) eventListener.Spec.Triggers

/-- The emitted lines with every edge line kept at its first emission only:
an edge line whose key has been seen is dropped, the other lines stay. -/
def keepFirstEdges : EdgeSet → List Line → List Line
  | _, [] => []
  | seen, Line.text s :: rest => Line.text s :: keepFirstEdges seen rest
  | seen, Line.node decl :: rest => Line.node decl :: keepFirstEdges seen rest
  | seen, Line.edge fromNode toNode :: rest =>
    if seen (edgeKey fromNode toNode) then keepFirstEdges seen rest
    else
      Line.edge fromNode toNode ::
        keepFirstEdges (fun key => if key = edgeKey fromNode toNode then true else seen key) rest

/-- The keys seen after a list of emitted lines. -/
def seenAfter : EdgeSet → List Line → EdgeSet
  | seen, [] => seen
  | seen, Line.text _ :: rest => seenAfter seen rest
  | seen, Line.node _ :: rest => seenAfter seen rest
  | seen, Line.edge fromNode toNode :: rest =>
    if seen (edgeKey fromNode toNode) then seenAfter seen rest
    else seenAfter (fun key => if key = edgeKey fromNode toNode then true else seen key) rest

/-- The texts of the edge lines of a diagram, in order. -/
def edgeLineTexts (d : Builder) : List String :=
  (Builder.edges d).map (fun e => (Line.edge e.1 e.2).render)

/-- A listener whose two triggers share the binding `b` and the template
`tt`, the second trigger listing `b` twice. -/
def listenerRepeatedEdges : EventListener :=
  ⟨"l", ⟨[⟨"first", some ⟨some "tt"⟩, [⟨"b"⟩], []⟩,
    ⟨"second", some ⟨some "tt"⟩, [⟨"b"⟩, ⟨"b"⟩, ⟨"c"⟩], []⟩]⟩⟩

/-! ## Lemmas on the reference scanner -/

theorem stripLiteral_append (p s : List Char) : stripLiteral p (p ++ s) = some s := by
  induction p with
  | nil => rfl
  | cons c p ih => simp [stripLiteral, ih]

theorem stripLiteral_eq_some {p s r : List Char} (h : stripLiteral p s = some r) : s = p ++ r := by
  induction p generalizing s with
  | nil => simp [stripLiteral] at h; simp [h]
  | cons c p ih =>
    cases s with
    | nil => simp [stripLiteral] at h
    | cons d s =>
      simp only [stripLiteral] at h
      split at h
      · rename_i hcd
        rw [ih h, hcd]; rfl
      · cases h

/-- The pattern matches at the start of every text of the shape
`$(` white space `tasks.` name `.` rest. -/
theorem matchHere_shape (ws name post : List Char) (hws : ∀ c ∈ ws, isSpaceChar c = true)
    (hne : name ≠ []) (hname : ∀ c ∈ name, isWordChar c = true) :
    matchHere (['$', '('] ++ ws ++ ['t', 'a', 's', 'k', 's', '.'] ++ name ++ ['.'] ++ post)
      = some (name, 2 + ws.length + 6 + name.length + 1) := by
  have h1 : stripLiteral ['$', '(']
      (['$', '('] ++ ws ++ ['t', 'a', 's', 'k', 's', '.'] ++ name ++ ['.'] ++ post)
      = some (ws ++ (['t', 'a', 's', 'k', 's', '.'] ++ (name ++ ('.' :: post)))) := by
    simp [stripLiteral]
  have h2 : (ws ++ (['t', 'a', 's', 'k', 's', '.'] ++ (name ++ ('.' :: post)))).takeWhile isSpaceChar
      = ws := by
    rw [List.takeWhile_append_of_pos hws]
    simp [List.takeWhile, isSpaceChar]
  have h3 : (ws ++ (['t', 'a', 's', 'k', 's', '.'] ++ (name ++ ('.' :: post)))).dropWhile isSpaceChar
      = ['t', 'a', 's', 'k', 's', '.'] ++ (name ++ ('.' :: post)) := by
    rw [List.dropWhile_append_of_pos hws]
    simp [List.dropWhile, isSpaceChar]
  have h4 : (name ++ ('.' :: post)).takeWhile isWordChar = name := by
    rw [List.takeWhile_append_of_pos hname]
    simp [List.takeWhile, isWordChar, Char.isAlphanum, Char.isAlpha, Char.isDigit, Char.isUpper,
      Char.isLower]
  have h5 : (name ++ ('.' :: post)).dropWhile isWordChar = '.' :: post := by
    rw [List.dropWhile_append_of_pos hname]
    simp [List.dropWhile, isWordChar, Char.isAlphanum, Char.isAlpha, Char.isDigit, Char.isUpper,
      Char.isLower]
  unfold matchHere
  rw [h1]
  simp only [h2, h3, stripLiteral_append, h4, h5]
  cases name with
  | nil => exact absurd rfl hne
  | cons c cs => rfl

/-- A match of the pattern has the shape `$(` white space `tasks.` name `.`
rest, and its length is the length up to and including the closing dot. -/
theorem matchHere_sound {s name : List Char} {len : Nat} (h : matchHere s = some (name, len)) :
    ∃ ws post : List Char,
      s = ['$', '('] ++ ws ++ ['t', 'a', 's', 'k', 's', '.'] ++ name ++ ['.'] ++ post ∧
      (∀ c ∈ ws, isSpaceChar c = true) ∧ name ≠ [] ∧ (∀ c ∈ name, isWordChar c = true) ∧
      len = 2 + ws.length + 6 + name.length + 1 := by
  unfold matchHere at h
  split at h
  · cases h
  · rename_i r1 h1
    simp only at h
    split at h
    · cases h
    · rename_i r3 h3
      have e1 := stripLiteral_eq_some h1
      have e3 := stripLiteral_eq_some h3
      split at h
      · cases h
      · rename_i c cs rest hname hrest
        simp only [Option.some.injEq, Prod.mk.injEq] at h
        obtain ⟨hn, hl⟩ := h
        refine ⟨r1.takeWhile isSpaceChar, rest, ?_, ?_, ?_, ?_, ?_⟩
        · have e5 : r3 = name ++ '.' :: rest := by
            rw [← hn, ← hrest]; exact (List.takeWhile_append_dropWhile isWordChar r3).symm
          have e6 : r1 = r1.takeWhile isSpaceChar ++ r1.dropWhile isSpaceChar :=
            (List.takeWhile_append_dropWhile isSpaceChar r1).symm
          rw [e3, e5] at e6
          rw [e1]
          conv_lhs => rw [e6]
          simp
        · intro c hc
          exact (List.mem_takeWhile_imp hc)
        · rw [← hn, hname]; simp
        · intro c hc
          rw [← hn] at hc
          exact (List.mem_takeWhile_imp hc)
        · rw [← hn]; omega
      · cases h

theorem findAllGroups_skip (pre rest : List Char) :
    findAllGroups pre.length (pre ++ rest) = findAllGroups 0 rest := by
  induction pre with
  | nil => rfl
  | cons c pre ih =>
    simp only [List.length_cons, List.cons_append]
    cases h : pre ++ rest <;> simp [findAllGroups, ← h, ih]

theorem matchHere_no_dollar {c : Char} {cs : List Char} (h : c ≠ '$') :
    matchHere (c :: cs) = none := by
  have : ('$' = c) = False := by simpa using fun e => h e.symm
  simp [matchHere, stripLiteral, this]

/-- A text without `$` holds no match. -/
theorem findAllGroups_no_dollar (s : List Char) (h : '$' ∉ s) : findAllGroups 0 s = [] := by
  induction s with
  | nil => rfl
  | cons c cs ih =>
    have hc : c ≠ '$' := fun e => h (by simp [e])
    have hcs : '$' ∉ cs := fun e => h (by simp [e])
    simp [findAllGroups, matchHere_no_dollar hc, ih hcs]

/-- One step of the scan at a match: the group is reported and the scan goes
on after the closing dot. -/
theorem findAllGroups_at_match (ws name post : List Char)
    (hws : ∀ c ∈ ws, isSpaceChar c = true) (hne : name ≠ [])
    (hname : ∀ c ∈ name, isWordChar c = true) :
    findAllGroups 0 (['$', '('] ++ ws ++ ['t', 'a', 's', 'k', 's', '.'] ++ name ++ ['.'] ++ post)
      = name :: findAllGroups 0 post := by
  have hm := matchHere_shape ws name post hws hne hname
  have hs : ['$', '('] ++ ws ++ ['t', 'a', 's', 'k', 's', '.'] ++ name ++ ['.'] ++ post
      = '$' :: (('(' :: (ws ++ (['t', 'a', 's', 'k', 's', '.'] ++ (name ++ ['.'])))) ++ post) := by
    simp
  rw [hs] at hm ⊢
  rw [findAllGroups, hm]
  simp only
  have hl : 2 + ws.length + 6 + name.length + 1 - 1
      = ('(' :: (ws ++ (['t', 'a', 's', 'k', 's', '.'] ++ (name ++ ['.'])))).length := by
    simp; omega
  rw [hl, findAllGroups_skip]

/-- If some position of the text starts a match, the scan reports a group. -/
theorem findAllGroups_ne_nil_of_match (pre t : List Char) (h : matchHere t ≠ none) :
    findAllGroups 0 (pre ++ t) ≠ [] := by
  induction pre with
  | nil =>
    cases t with
    | nil => simp [matchHere, stripLiteral] at h
    | cons c cs =>
      simp only [List.nil_append, findAllGroups]
      cases hm : matchHere (c :: cs) with
      | none => exact absurd hm h
      | some r => simp
  | cons c pre ih =>
    simp only [List.cons_append, findAllGroups]
    cases hm : matchHere (c :: (pre ++ t)) with
    | none => simpa using ih
    | some r => simp

/-- If the scan reports a group, some suffix of the text starts a match. -/
theorem exists_match_of_findAllGroups_ne_nil (k : Nat) (s : List Char)
    (h : findAllGroups k s ≠ []) :
    ∃ pre t, s = pre ++ t ∧ matchHere t ≠ none := by
  induction s generalizing k with
  | nil => simp [findAllGroups] at h
  | cons c cs ih =>
    cases k with
    | succ k =>
      simp only [findAllGroups] at h
      obtain ⟨pre, t, e, hm⟩ := ih k h
      exact ⟨c :: pre, t, by simp [e], hm⟩
    | zero =>
      cases hm : matchHere (c :: cs) with
      | some r => exact ⟨[], c :: cs, rfl, by simp [hm]⟩
      | none =>
        simp only [findAllGroups, hm] at h
        obtain ⟨pre, t, e, hm2⟩ := ih 0 h
        exact ⟨c :: pre, t, by simp [e], hm2⟩

/-- The scanner finds something exactly when the text holds an occurrence of
the reference pattern. -/
theorem extractTaskReferences_ne_nil_iff (value : String) :
    extractTaskReferences value ≠ [] ↔ HasReference value := by
  unfold extractTaskReferences HasReference
  constructor
  · intro h
    have h2 : findAllGroups 0 value.data ≠ [] := fun e => h (by simp [e])
    obtain ⟨pre, t, e, hm⟩ := exists_match_of_findAllGroups_ne_nil 0 _ h2
    cases hr : matchHere t with
    | none => exact absurd hr hm
    | some r =>
      obtain ⟨name, len⟩ := r
      obtain ⟨ws, post, et, hws, hne, hname, _⟩ := matchHere_sound hr
      exact ⟨pre, ws, name, post, by rw [e, et]; simp, hws, hne, hname⟩
  · rintro ⟨pre, ws, name, post, e, hws, hne, hname⟩
    have hm := matchHere_shape ws name post hws hne hname
    have := findAllGroups_ne_nil_of_match pre _ (by rw [hm]; simp)
    intro h2
    apply this
    have e2 : value.data
        = pre ++ (['$', '('] ++ ws ++ ['t', 'a', 's', 'k', 's', '.'] ++ name ++ ['.'] ++ post) := by
      rw [e]; simp
    rw [← e2]
    simpa using h2

theorem foldl_append_string (l : List String) (acc : String) :
    l.foldl (fun r s => r ++ s) acc = acc ++ l.foldl (fun r s => r ++ s) "" := by
  induction l generalizing acc with
  | nil => simp
  | cons a l ih =>
    simp only [List.foldl_cons]
    rw [ih (acc ++ a), ih ("" ++ a)]
    simp [String.append_assoc]

theorem join_cons (a : String) (l : List String) : String.join (a :: l) = a ++ String.join l := by
  unfold String.join
  rw [List.foldl_cons, foldl_append_string]
  simp

theorem join_nil : String.join [] = "" := rfl

theorem join_append (l₁ l₂ : List String) :
    String.join (l₁ ++ l₂) = String.join l₁ ++ String.join l₂ := by
  induction l₁ with
  | nil => simp [join_nil]
  | cons a l ih => simp [join_cons, ih, String.append_assoc]

theorem resultSegment_data (n : String) :
    (resultSegment n).data
      = ['$', '('] ++ [] ++ ['t', 'a', 's', 'k', 's', '.'] ++ n.data ++ ['.'] ++
          ['r', 'e', 's', 'u', 'l', 't', 's', '.', 'r', ')', ' '] := by
  simp [resultSegment, String.data_append]

theorem findAllGroups_segments (ns : List String) (h : ∀ n ∈ ns, IsIdent n) :
    findAllGroups 0 (String.join (ns.map resultSegment)).data = ns.map String.data := by
  induction ns with
  | nil => rfl
  | cons n ns ih =>
    have hn : IsIdent n := h n (by simp)
    have hns : ∀ m ∈ ns, IsIdent m := fun m hm => h m (by simp [hm])
    rw [List.map_cons, join_cons, String.data_append, resultSegment_data]
    have e : ['$', '('] ++ [] ++ ['t', 'a', 's', 'k', 's', '.'] ++ n.data ++ ['.'] ++
          ['r', 'e', 's', 'u', 'l', 't', 's', '.', 'r', ')', ' '] ++
          (String.join (ns.map resultSegment)).data
        = ['$', '('] ++ [] ++ ['t', 'a', 's', 'k', 's', '.'] ++ n.data ++ ['.'] ++
          (['r', 'e', 's', 'u', 'l', 't', 's', '.', 'r', ')', ' '] ++
            (String.join (ns.map resultSegment)).data) := by simp
    rw [e, findAllGroups_at_match [] n.data _ (by simp) hn.1 hn.2]
    have e2 : findAllGroups 0 (['r', 'e', 's', 'u', 'l', 't', 's', '.', 'r', ')', ' '] ++
        (String.join (ns.map resultSegment)).data)
        = findAllGroups 0 (String.join (ns.map resultSegment)).data := by
      simp [findAllGroups, matchHere, stripLiteral]
    rw [e2, ih hns]
    rfl

/-! ## Lemmas on the loops of the pipeline builder -/

theorem foldl_append_flatMap {α β : Type} (f : α → List β) (l : List α) (init : List β) :
    l.foldl (fun d x => d ++ f x) init = init ++ l.flatMap f := by
  induction l generalizing init with
  | nil => simp
  | cons a l ih => simp [ih]

theorem foldl_append_map {α β : Type} (f : α → β) (l : List α) (init : List β) :
    l.foldl (fun d x => d ++ [f x]) init = init ++ l.map f := by
  induction l generalizing init with
  | nil => simp
  | cons a l ih => simp [ih]

theorem visualizeTask_eq (pipelineNode : String) (d : Builder) (task : PipelineTask) :
    visualizeTask pipelineNode d task = d ++ taskLines pipelineNode task := by
  unfold visualizeTask taskLines
  simp only [foldl_append_map]
  have e : (fun (d : Builder) (param : Param) =>
        if param.Value.Type' = ParamType.string then
          d ++ (extractTaskReferences param.Value.StringVal).map
            (fun m => Line.edge (taskLabelOf m) (taskNodeOf task.Name))
        else d)
      = fun d param => d ++ (if param.Value.Type' = ParamType.string then
          (extractTaskReferences param.Value.StringVal).map
            (fun m => Line.edge (taskLabelOf m) (taskNodeOf task.Name))
        else []) := by
    funext d param
    split <;> simp
  rw [e, foldl_append_flatMap]
  simp

theorem foldl_visualizeTask (pipelineNode : String) (tasks : List PipelineTask) (d : Builder) :
    tasks.foldl (visualizeTask pipelineNode) d = d ++ tasks.flatMap (taskLines pipelineNode) := by
  induction tasks generalizing d with
  | nil => simp
  | cons t ts ih => simp [ih, visualizeTask_eq]

theorem foldl_visualizeTaskWithTrace (pipelineNode : String) (tasks : List PipelineTask)
    (st : PipelineState) :
    (tasks.foldl (visualizeTaskWithTrace pipelineNode) st).mermaidDiagram
      = tasks.foldl (visualizeTask pipelineNode) st.mermaidDiagram := by
  induction tasks generalizing st with
  | nil => rfl
  | cons t ts ih => simp [ih, visualizeTaskWithTrace]

/-- The diagram of pipeline.go before the cross-reference part: the two header
lines, the pipeline node, then the lines of the steps in order. -/
theorem pipelinePart_diagram (pipeline : Pipeline) :
    (pipelinePart pipeline).mermaidDiagram
      = [Line.text "```mermaid\n", Line.text "graph TD;\n",
          Line.node (pipelineNodeOf pipeline.Name)] ++
        pipeline.Spec.Tasks.flatMap (taskLines (pipelineNodeOf pipeline.Name)) := by
  unfold pipelinePart
  simp only [foldl_visualizeTaskWithTrace, foldl_visualizeTask]
  simp

/-- The two copies of the pipeline builder build the same diagram. -/
theorem monolith_pipelinePart (pipeline : Pipeline) :
    Monolith.pipelinePart pipeline = (pipelinePart pipeline).mermaidDiagram := by
  unfold Monolith.pipelinePart pipelinePart
  simp only [foldl_visualizeTaskWithTrace]

theorem edges_append (a b : Builder) : Builder.edges (a ++ b) = Builder.edges a ++ Builder.edges b := by
  simp [Builder.edges, List.filterMap_append]

theorem edges_taskLines (pipelineName : String) (task : PipelineTask) :
    Builder.edges (taskLines (pipelineNodeOf pipelineName) task)
      = stepEdgeNodes pipelineName task := by
  unfold Builder.edges taskLines stepEdgeNodes
  simp only [List.filterMap_append, List.filterMap_flatMap, List.filterMap_map]
  congr 1
  · congr 1
    induction task.RunAfter with
    | nil => rfl
    | cons d ds ih => simp [Line.endpoints, List.filterMap_cons] at ih ⊢; exact ih
  · congr 1
    funext param
    split
    · induction extractTaskReferences param.Value.StringVal with
      | nil => rfl
      | cons d ds ih => simp [Line.endpoints, List.filterMap_cons] at ih ⊢; exact ih
    · rfl

theorem edges_pipelinePart (pipeline : Pipeline) :
    Builder.edges (pipelinePart pipeline).mermaidDiagram
      = pipeline.Spec.Tasks.flatMap (stepEdgeNodes pipeline.Name) := by
  rw [pipelinePart_diagram, edges_append]
  have e : ∀ tasks : List PipelineTask,
      Builder.edges (tasks.flatMap (taskLines (pipelineNodeOf pipeline.Name)))
        = tasks.flatMap (stepEdgeNodes pipeline.Name) := by
    intro tasks
    induction tasks with
    | nil => rfl
    | cons t ts ih => simp only [List.flatMap_cons, edges_append, edges_taskLines, ih]
  rw [e]
  rfl

/-! ## Lemmas on reading labels -/

theorem takeWhile_ne_append (x : Char) (pre rest : List Char) (h : x ∉ pre) :
    (pre ++ x :: rest).takeWhile (fun c => c != x) = pre := by
  induction pre with
  | nil => simp [List.takeWhile]
  | cons c pre ih =>
    have hc : c ≠ x := fun e => h (by simp [e])
    have hp : x ∉ pre := fun e => h (by simp [e])
    have hb : (c != x) = true := by simp [hc]
    rw [List.cons_append, List.takeWhile_cons, hb, if_pos rfl, ih hp]

theorem takeWhile_bracket (pre rest : List Char) (h : '[' ∉ pre) :
    (pre ++ '[' :: rest).takeWhile (fun c => c != '[') = pre :=
  takeWhile_ne_append '[' pre rest h

theorem takeWhile_no_bracket (l : List Char) (h : '[' ∉ l) :
    l.takeWhile (fun c => c != '[') = l := by
  induction l with
  | nil => rfl
  | cons c l ih =>
    have hc : c ≠ '[' := fun e => h (by simp [e])
    have hp : '[' ∉ l := fun e => h (by simp [e])
    have hb : (c != '[') = true := by simp [hc]
    rw [List.takeWhile_cons, hb, if_pos rfl, ih hp]

theorem nodeLabel_taskNodeOf (n : String) (h : '[' ∉ n.data) :
    nodeLabel (taskNodeOf n) = "Task_" ++ n := by
  have e : (taskNodeOf n).data
      = (['T', 'a', 's', 'k', '_'] ++ n.data) ++ '[' :: ("Task: " ++ n ++ "]").data := by
    simp [taskNodeOf, String.data_append]
  unfold nodeLabel
  rw [e, takeWhile_bracket _ _ (by simpa using h)]
  apply String.ext
  simp [String.data_append]

theorem nodeLabel_pipelineNodeOf (n : String) (h : '[' ∉ n.data) :
    nodeLabel (pipelineNodeOf n) = "Pipeline_" ++ n := by
  have e : (pipelineNodeOf n).data
      = (['P', 'i', 'p', 'e', 'l', 'i', 'n', 'e', '_'] ++ n.data) ++
          '[' :: ("Pipeline: " ++ n ++ "]").data := by
    simp [pipelineNodeOf, String.data_append]
  unfold nodeLabel
  rw [e, takeWhile_bracket _ _ (by simpa using h)]
  apply String.ext
  simp [String.data_append]

theorem nodeLabel_taskLabelOf (n : String) (h : '[' ∉ n.data) :
    nodeLabel (taskLabelOf n) = "Task_" ++ n := by
  have e : (taskLabelOf n).data = ['T', 'a', 's', 'k', '_'] ++ n.data := by
    simp [taskLabelOf, String.data_append]
  unfold nodeLabel
  rw [e, takeWhile_no_bracket _ (by simpa using h)]
  apply String.ext
  simp [String.data_append]

/-- Every reported group is made of word characters. -/
theorem findAllGroups_word (k : Nat) (s : List Char) :
    ∀ g ∈ findAllGroups k s, ∀ c ∈ g, isWordChar c = true := by
  induction s generalizing k with
  | nil => simp [findAllGroups]
  | cons d ds ih =>
    cases k with
    | succ k => simpa [findAllGroups] using ih k
    | zero =>
      cases hm : matchHere (d :: ds) with
      | none => simpa [findAllGroups, hm] using ih 0
      | some r =>
        obtain ⟨name, len⟩ := r
        obtain ⟨_, _, _, _, _, hname, _⟩ := matchHere_sound hm
        intro g hg
        simp only [findAllGroups, hm, List.mem_cons] at hg
        rcases hg with rfl | hg
        · exact hname
        · exact ih _ g hg

theorem extractTaskReferences_no_bracket (value m : String)
    (h : m ∈ extractTaskReferences value) : '[' ∉ m.data := by
  unfold extractTaskReferences at h
  obtain ⟨g, hg, rfl⟩ := List.mem_map.mp h
  intro hb
  have := findAllGroups_word 0 value.data g hg '[' hb
  revert this
  decide

theorem filter_flatMap_eq {α β : Type} (p : α → Bool) (f : α → List β) (l : List α) :
    (l.filter p).flatMap f = l.flatMap (fun x => if p x = true then f x else []) := by
  induction l with
  | nil => rfl
  | cons a l ih =>
    cases h : p a <;> simp [List.filter_cons, h, ih]

theorem stepEdgeNodes_labels (pipelineName : String) (task : PipelineTask)
    (hp : '[' ∉ pipelineName.data) (ht : '[' ∉ task.Name.data)
    (hd : ∀ dep ∈ task.RunAfter, '[' ∉ dep.data) :
    (stepEdgeNodes pipelineName task).map edgeLabels = stepEdgeLabels pipelineName task := by
  unfold stepEdgeNodes stepEdgeLabels
  rw [filter_flatMap_eq]
  simp only [List.map_append, List.map_flatMap, List.map_map, List.map_cons, List.map_nil]
  congr 1
  · congr 1
    · simp [edgeLabels, nodeLabel_pipelineNodeOf _ hp, nodeLabel_taskNodeOf _ ht]
    · apply List.map_congr_left
      intro d hdm
      simp [edgeLabels, nodeLabel_taskLabelOf _ (hd d hdm), nodeLabel_taskNodeOf _ ht]
  · congr 1
    funext param
    by_cases hs : param.Value.Type' = ParamType.string
    · simp only [hs, if_true, decide_True, List.map_map]
      apply List.map_congr_left
      intro m hm
      simp [edgeLabels, nodeLabel_taskLabelOf _ (extractTaskReferences_no_bracket _ m hm),
        nodeLabel_taskNodeOf _ ht]
    · simp [hs]

theorem flatMap_stepEdgeNodes_labels (pipelineName : String) (tasks : List PipelineTask)
    (hp : '[' ∉ pipelineName.data)
    (ht : ∀ task ∈ tasks, '[' ∉ task.Name.data ∧ ∀ dep ∈ task.RunAfter, '[' ∉ dep.data) :
    (tasks.flatMap (stepEdgeNodes pipelineName)).map edgeLabels
      = tasks.flatMap (stepEdgeLabels pipelineName) := by
  induction tasks with
  | nil => rfl
  | cons t ts ih =>
    have h1 := ht t (by simp)
    have h2 : ∀ task ∈ ts, '[' ∉ task.Name.data ∧ ∀ dep ∈ task.RunAfter, '[' ∉ dep.data :=
      fun task hm => ht task (by simp [hm])
    simp only [List.flatMap_cons, List.map_append, ih h2,
      stepEdgeNodes_labels pipelineName t hp h1.1 h1.2]

/-! ## Lemmas on the edge deduplicator -/

theorem text_append (a b : Builder) : Builder.text (a ++ b) = Builder.text a ++ Builder.text b := by
  simp [Builder.text, join_append]

theorem text_singleton (l : Line) : Builder.text [l] = l.render := by
  simp [Builder.text, join_cons, join_nil]

theorem edgeKey_data (a b : String) :
    (edgeKey a b).data = a.data ++ [' ', '-', '-'] ++ '>' :: ' ' :: b.data := by
  simp [edgeKey, String.data_append]

theorem edgeKey_ne_of_length (a b : String) (hne : a ≠ b) (hlen : a.length = b.length) :
    edgeKey a b ≠ edgeKey b a := by
  intro h
  have hd := congrArg String.data h
  rw [edgeKey_data, edgeKey_data] at hd
  simp only [List.append_assoc] at hd
  have hl : a.data.length = b.data.length := by
    cases a; cases b; exact hlen
  have := (List.append_inj hd hl).1
  exact hne (String.ext this)

theorem edgeKey_ne_of_no_gt (a b : String) (hne : a ≠ b) (ha : '>' ∉ a.data)
    (hb : '>' ∉ b.data) : edgeKey a b ≠ edgeKey b a := by
  intro h
  have hd := congrArg (fun s => s.data.takeWhile (fun c => c != '>')) h
  simp only [edgeKey_data] at hd
  rw [takeWhile_ne_append '>' _ _ (by simpa using ha),
    takeWhile_ne_append '>' _ _ (by simpa using hb)] at hd
  exact hne (String.ext (List.append_cancel_right hd))

theorem render_edge_eq (a b : String) : (Line.edge a b).render = edgeKey a b ++ ";\n" := rfl

theorem render_edge_ne (a b c d : String) (h : edgeKey a b ≠ edgeKey c d) :
    (Line.edge a b).render ≠ (Line.edge c d).render := by
  intro e
  rw [render_edge_eq, render_edge_eq] at e
  have hd := congrArg String.data e
  simp only [String.data_append] at hd
  exact h (String.ext (List.append_cancel_right hd))

theorem addEdgeIfNotExists_of_absent (d : Builder) (a b : String) (es : EdgeSet)
    (h : es (edgeKey a b) = false) :
    addEdgeIfNotExists d a b es
      = (d ++ [Line.edge a b], fun key => if key = edgeKey a b then true else es key) := by
  simp [addEdgeIfNotExists, h]

theorem addEdgeIfNotExists_of_present (d : Builder) (a b : String) (es : EdgeSet)
    (h : es (edgeKey a b) = true) : addEdgeIfNotExists d a b es = (d, es) := by
  simp [addEdgeIfNotExists, h]

theorem addEdgeIfNotExists_marks (d : Builder) (a b : String) (es : EdgeSet) :
    (addEdgeIfNotExists d a b es).2 (edgeKey a b) = true := by
  cases h : es (edgeKey a b)
  · rw [addEdgeIfNotExists_of_absent d a b es h]; simp
  · rw [addEdgeIfNotExists_of_present d a b es h]; exact h

/-! ## Lemmas on the cross-reference linker -/

theorem linkBinding_eq (eventListenerNode triggerTemplateNode : String) (d : Builder)
    (binding : EventListenerBinding) :
    linkBinding eventListenerNode triggerTemplateNode d binding
      = d ++ bindingBlock eventListenerNode triggerTemplateNode binding := by
  unfold linkBinding bindingBlock
  by_cases h : binding.Ref = "" <;> simp [h]

theorem foldl_linkBinding (eventListenerNode triggerTemplateNode : String)
    (bindings : List EventListenerBinding) (d : Builder) :
    bindings.foldl (linkBinding eventListenerNode triggerTemplateNode) d
      = d ++ bindings.flatMap (bindingBlock eventListenerNode triggerTemplateNode) := by
  induction bindings generalizing d with
  | nil => simp
  | cons b bs ih => simp [ih, linkBinding_eq]

theorem linkResource_eq (json : JSONCodec) (eventListener : EventListener)
    (trigger : EventListenerTrigger) (triggerTemplate : TriggerTemplate) (d : Builder)
    (res : TriggerResourceTemplate) :
    linkResource json eventListener trigger triggerTemplate d res
      = d ++ resourceBlock json eventListener trigger triggerTemplate res := by
  unfold linkResource resourceBlock linkedBlock
  cases hk : json.unstructuredKind res.Raw with
  | none => simp
  | some kind =>
    by_cases h : kind = "PipelineRun"
    · simp [h, foldl_linkBinding]
    · simp [h]

theorem foldl_linkResource (json : JSONCodec) (eventListener : EventListener)
    (trigger : EventListenerTrigger) (triggerTemplate : TriggerTemplate)
    (resources : List TriggerResourceTemplate) (d : Builder) :
    resources.foldl (linkResource json eventListener trigger triggerTemplate) d
      = d ++ resources.flatMap (resourceBlock json eventListener trigger triggerTemplate) := by
  induction resources generalizing d with
  | nil => simp
  | cons r rs ih => simp [ih, linkResource_eq]

theorem linkTriggerWith_eq (json : JSONCodec) (client : Clientset) (ns : String)
    (eventListener : EventListener) (tn : Option String) (d : Builder)
    (trigger : EventListenerTrigger) :
    linkTriggerWith json client ns eventListener tn d trigger
      = d ++ triggerBlockWith json client ns eventListener tn trigger := by
  unfold linkTriggerWith triggerBlockWith
  cases tn with
  | none => simp
  | some name =>
    by_cases h : name = ""
    · simp [h]
    · simp only [h, if_false]
      cases client.GetTriggerTemplate ns name with
      | error e => simp
      | ok triggerTemplate => simp [foldl_linkResource]

/-- The loop body of the linker returns exactly when the trigger has its
`Template` pointer set, and then appends the block of the trigger. -/
theorem linkTrigger_of_template (json : JSONCodec) (client : Clientset) (ns : String)
    (eventListener : EventListener) (d : Builder) (trigger : EventListenerTrigger)
    (h : trigger.Template ≠ none) :
    linkTrigger json client ns eventListener d trigger
      = .ok (d ++ triggerBlock json client ns eventListener trigger) := by
  unfold linkTrigger triggerBlock
  cases ht : trigger.Template with
  | none => exact absurd ht h
  | some template => simp [linkTriggerWith_eq]

theorem linkTrigger_of_nil (json : JSONCodec) (client : Clientset) (ns : String)
    (eventListener : EventListener) (d : Builder) (trigger : EventListenerTrigger)
    (h : trigger.Template = none) :
    linkTrigger json client ns eventListener d trigger = .error nilDereference := by
  unfold linkTrigger
  rw [h]

theorem linkTriggers_of_templates (json : JSONCodec) (client : Clientset) (ns : String)
    (eventListener : EventListener) (triggers : List EventListenerTrigger) (d : Builder)
    (h : ∀ trigger ∈ triggers, trigger.Template ≠ none) :
    linkTriggers json client ns eventListener d triggers
      = .ok (d ++ triggers.flatMap (triggerBlock json client ns eventListener)) := by
  induction triggers generalizing d with
  | nil => simp [linkTriggers]
  | cons t ts ih =>
    have ht := h t (by simp)
    have hts : ∀ trigger ∈ ts, trigger.Template ≠ none := fun x hx => h x (by simp [hx])
    rw [linkTriggers, linkTrigger_of_template json client ns eventListener d t ht]
    simp only
    rw [ih _ hts]
    simp

theorem linkTriggers_of_nil (json : JSONCodec) (client : Clientset) (ns : String)
    (eventListener : EventListener) (triggers : List EventListenerTrigger) (d : Builder)
    (h : ∃ trigger ∈ triggers, trigger.Template = none) :
    linkTriggers json client ns eventListener d triggers = .error nilDereference := by
  induction triggers generalizing d with
  | nil => simp at h
  | cons t ts ih =>
    by_cases ht : t.Template = none
    · rw [linkTriggers, linkTrigger_of_nil json client ns eventListener d t ht]
    · rw [linkTriggers, linkTrigger_of_template json client ns eventListener d t ht]
      simp only
      apply ih
      obtain ⟨x, hx, hn⟩ := h
      rcases List.mem_cons.mp hx with rfl | hx
      · exact absurd hn ht
      · exact ⟨x, hx, hn⟩

theorem linkListeners_of_templates (json : JSONCodec) (client : Clientset) (ns : String)
    (eventListeners : List EventListener) (d : Builder) (h : HasTemplates eventListeners) :
    linkListeners json client ns d eventListeners
      = .ok (d ++ crossReferenceLines json client ns eventListeners) := by
  unfold crossReferenceLines
  induction eventListeners generalizing d with
  | nil => simp [linkListeners]
  | cons l ls ih =>
    have hl : ∀ trigger ∈ l.Spec.Triggers, trigger.Template ≠ none := h l (by simp)
    have hls : HasTemplates ls := fun x hx => h x (by simp [hx])
    rw [linkListeners, linkTriggers_of_templates json client ns l _ d hl]
    simp only
    rw [ih _ hls]
    simp

theorem linkListeners_of_nil (json : JSONCodec) (client : Clientset) (ns : String)
    (eventListeners : List EventListener) (d : Builder) (h : ¬ HasTemplates eventListeners) :
    linkListeners json client ns d eventListeners = .error nilDereference := by
  induction eventListeners generalizing d with
  | nil => exact absurd (fun x hx => by cases hx) h
  | cons l ls ih =>
    by_cases hl : ∀ trigger ∈ l.Spec.Triggers, trigger.Template ≠ none
    · rw [linkListeners, linkTriggers_of_templates json client ns l _ d hl]
      simp only
      apply ih
      intro hls
      apply h
      intro x hx
      rcases List.mem_cons.mp hx with rfl | hx
      · exact hl
      · exact hls x hx
    · rw [linkListeners, linkTriggers_of_nil json client ns l _ d (by
        simpa using hl)]

/-- When the listing succeeds and every trigger has its `Template` pointer
set, `addTriggersToMermaid` appends the cross-reference lines of the listed
event listeners and returns no error. -/
theorem addTriggersToMermaid_eq (json : JSONCodec) (d : Builder) (pipelineName ns : String)
    (client : Clientset) (eventListeners : List EventListener)
    (h : client.ListEventListeners ns = .ok eventListeners) (ht : HasTemplates eventListeners) :
    addTriggersToMermaid json d pipelineName ns client
      = .ok (d ++ crossReferenceLines json client ns eventListeners, none) := by
  unfold addTriggersToMermaid
  rw [h]
  simp only [linkListeners_of_templates json client ns eventListeners d ht]

theorem addTriggersToMermaid_error (json : JSONCodec) (d : Builder) (pipelineName ns : String)
    (client : Clientset) (err : String) (h : client.ListEventListeners ns = .error err) :
    addTriggersToMermaid json d pipelineName ns client = .ok (d, some err) := by
  unfold addTriggersToMermaid
  rw [h]

/-- When the listing succeeds and some trigger has a nil `Template`,
`addTriggersToMermaid` panics. -/
theorem addTriggersToMermaid_panic (json : JSONCodec) (d : Builder) (pipelineName ns : String)
    (client : Clientset) (eventListeners : List EventListener)
    (h : client.ListEventListeners ns = .ok eventListeners) (ht : ¬ HasTemplates eventListeners) :
    addTriggersToMermaid json d pipelineName ns client = .error nilDereference := by
  unfold addTriggersToMermaid
  rw [h]
  simp only [linkListeners_of_nil json client ns eventListeners d ht]

/-- What a returning call of `addTriggersToMermaid` leaves: the builder as it
was and the error of a failed listing, or the cross-reference lines of the
listed event listeners, all of whose triggers have a `Template`. -/
theorem addTriggersToMermaid_ok (json : JSONCodec) (d b : Builder) (pipelineName ns : String)
    (client : Clientset) (err : Option String)
    (h : addTriggersToMermaid json d pipelineName ns client = .ok (b, err)) :
    (∃ e, client.ListEventListeners ns = .error e ∧ b = d ∧ err = some e) ∨
      (∃ eventListeners, client.ListEventListeners ns = .ok eventListeners ∧
        HasTemplates eventListeners ∧
        b = d ++ crossReferenceLines json client ns eventListeners ∧ err = none) := by
  cases hl : client.ListEventListeners ns with
  | error e =>
    rw [addTriggersToMermaid_error json d pipelineName ns client e hl] at h
    simp only [Except.ok.injEq, Prod.mk.injEq] at h
    exact Or.inl ⟨e, rfl, h.1.symm, h.2.symm⟩
  | ok eventListeners =>
    by_cases ht : HasTemplates eventListeners
    · rw [addTriggersToMermaid_eq json d pipelineName ns client eventListeners hl ht] at h
      simp only [Except.ok.injEq, Prod.mk.injEq] at h
      exact Or.inr ⟨eventListeners, rfl, ht, h.1.symm, h.2.symm⟩
    · rw [addTriggersToMermaid_panic json d pipelineName ns client eventListeners hl ht] at h
      cases h

theorem infix_flatMap_of_mem {α β : Type} (f : α → List β) (l : List α) (a : α) (h : a ∈ l) :
    f a <:+: l.flatMap f := by
  obtain ⟨s, t, rfl⟩ := List.append_of_mem h
  refine ⟨s.flatMap f, t.flatMap f, ?_⟩
  simp [List.flatMap_append]

/-! ## Lemmas on the shape of the edges -/

theorem mem_edges_iff (d : Builder) (e : String × String) :
    e ∈ Builder.edges d ↔ Line.edge e.1 e.2 ∈ d := by
  unfold Builder.edges
  rw [List.mem_filterMap]
  constructor
  · rintro ⟨l, hl, he⟩
    cases l with
    | text s => simp [Line.endpoints] at he
    | node s => simp [Line.endpoints] at he
    | edge a b =>
      simp only [Line.endpoints, Option.some.injEq] at he
      rw [← he]; exact hl
  · intro h
    exact ⟨_, h, rfl⟩

theorem pipelineEdgeShape_iff (pipeline : Pipeline) (e : String × String) :
    e ∈ pipeline.Spec.Tasks.flatMap (stepEdgeNodes pipeline.Name) ↔
      PipelineEdgeShape pipeline e := by
  unfold PipelineEdgeShape
  constructor
  · intro h
    obtain ⟨task, ht, he⟩ := List.mem_flatMap.mp h
    unfold stepEdgeNodes at he
    simp only [List.mem_append, List.mem_singleton, List.mem_map, List.mem_flatMap] at he
    rcases he with (rfl | ⟨dep, hd, rfl⟩) | ⟨param, hp, hm⟩
    · exact ⟨task, ht, rfl, Or.inl rfl⟩
    · exact ⟨task, ht, rfl, Or.inr (Or.inl ⟨dep, hd, rfl⟩)⟩
    · split at hm
      · rename_i hs
        obtain ⟨m, hmm, rfl⟩ := List.mem_map.mp hm
        exact ⟨task, ht, rfl, Or.inr (Or.inr ⟨param, hp, hs, m, hmm, rfl⟩)⟩
      · simp at hm
  · rintro ⟨task, ht, h2, h1⟩
    refine List.mem_flatMap.mpr ⟨task, ht, ?_⟩
    unfold stepEdgeNodes
    simp only [List.mem_append, List.mem_singleton, List.mem_map, List.mem_flatMap]
    rcases h1 with h1 | ⟨dep, hd, h1⟩ | ⟨param, hp, hs, m, hm, h1⟩
    · exact Or.inl (Or.inl (Prod.ext h1 h2))
    · exact Or.inl (Or.inr ⟨dep, hd, (Prod.ext h1 h2).symm⟩)
    · refine Or.inr ⟨param, hp, ?_⟩
      rw [if_pos hs]
      exact List.mem_map.mpr ⟨m, hm, (Prod.ext h1 h2).symm⟩

theorem mem_edges_bindingBlock (node ttNode : String) (binding : EventListenerBinding)
    (e : String × String) (h : e ∈ Builder.edges (bindingBlock node ttNode binding)) :
    binding.Ref ≠ "" ∧
      (e = (node, triggerBindingNodeOf binding.Ref) ∨
        e = (triggerBindingNodeOf binding.Ref, ttNode)) := by
  rw [mem_edges_iff] at h
  unfold bindingBlock at h
  split at h
  · simp at h
  · rename_i hb
    simp only [List.mem_cons, Line.edge.injEq, List.mem_singleton, List.not_mem_nil, or_false,
      false_or, reduceCtorEq] at h
    rcases h with ⟨h1, h2⟩ | ⟨h1, h2⟩
    · exact ⟨hb, Or.inl (Prod.ext h1 h2)⟩
    · exact ⟨hb, Or.inr (Prod.ext h1 h2)⟩

theorem mem_edges_linkedBlock (eventListener : EventListener)
    (trigger : EventListenerTrigger) (triggerTemplate : TriggerTemplate) (e : String × String)
    (h : e ∈ Builder.edges (linkedBlock eventListener trigger triggerTemplate)) :
    e = (eventListenerNodeOf eventListener.Name, triggerTemplateNodeOf triggerTemplate.Name) ∨
      ∃ binding ∈ trigger.Bindings, binding.Ref ≠ "" ∧
        (e = (eventListenerNodeOf eventListener.Name, triggerBindingNodeOf binding.Ref) ∨
          e = (triggerBindingNodeOf binding.Ref, triggerTemplateNodeOf triggerTemplate.Name)) := by
  unfold linkedBlock at h
  rw [edges_append, List.mem_append] at h
  rcases h with h | h
  · rw [mem_edges_iff] at h
    simp only [List.mem_cons, Line.edge.injEq, List.mem_singleton, List.not_mem_nil, or_false,
      false_or, reduceCtorEq] at h
    exact Or.inl (Prod.ext h.1 h.2)
  · rw [mem_edges_iff, List.mem_flatMap] at h
    obtain ⟨b, hb, hbe⟩ := h
    have := mem_edges_bindingBlock _ _ b e ((mem_edges_iff _ _).mpr hbe)
    exact Or.inr ⟨b, hb, this.1, this.2⟩

theorem linkEdgeShape_of_mem (json : JSONCodec) (client : Clientset) (ns : String)
    (eventListeners : List EventListener) (e : String × String)
    (h : e ∈ Builder.edges (crossReferenceLines json client ns eventListeners)) :
    LinkEdgeShape json client ns eventListeners e := by
  rw [mem_edges_iff] at h
  unfold crossReferenceLines at h
  obtain ⟨l, hl, h⟩ := List.mem_flatMap.mp h
  obtain ⟨t, ht, h⟩ := List.mem_flatMap.mp h
  unfold triggerBlock at h
  cases htpl : t.Template with
  | none => simp [htpl] at h
  | some template =>
    simp only [htpl] at h
    unfold triggerBlockWith at h
    cases href : template.Ref with
    | none => simp [href] at h
    | some name =>
      simp only [href] at h
      by_cases hn : name = ""
      · simp [hn] at h
      · simp only [hn, if_false] at h
        cases hg : client.GetTriggerTemplate ns name with
        | error err => simp [hg] at h
        | ok tt =>
          simp only [hg] at h
          obtain ⟨r, hr, h⟩ := List.mem_flatMap.mp h
          unfold resourceBlock at h
          split at h
          · rename_i hk
            exact ⟨l, hl, t, ht, template, name, tt, htpl, href, hn, hg, ⟨r, hr, hk⟩,
              mem_edges_linkedBlock l t tt e ((mem_edges_iff _ _).mpr h)⟩
          · simp at h

/-! ## Lemmas on the event-listener builder -/

theorem foldl_append_join {α : Type} (f : α → String) (l : List α) (init : String) :
    l.foldl (fun acc x => acc ++ f x) init = init ++ String.join (l.map f) := by
  induction l generalizing init with
  | nil => simp [join_nil]
  | cons a l ih => simp [ih, join_cons, String.append_assoc]

theorem writeInterceptorParam_eq (json : JSONCodec) (file : String) (param : InterceptorParams) :
    writeInterceptorParam json file param = file ++ paramText json param := by
  unfold writeInterceptorParam paramText
  cases param.Value.Raw with
  | none => simp
  | some raw =>
    cases h : decodeRawJSON json raw <;> simp [h, String.append_assoc]

theorem writeInterceptor_eq (json : JSONCodec) (file : String) (interceptor : TriggerInterceptor) :
    writeInterceptor json file interceptor
      = file ++ ((if interceptor.Ref.Name ≠ "" then
            "- **Interceptor:** " ++ interceptor.Ref.Name ++ "\n" else "") ++
          String.join (interceptor.Params.map (paramText json))) := by
  unfold writeInterceptor
  have e : writeInterceptorParam json = fun file param => file ++ paramText json param := by
    funext file param
    exact writeInterceptorParam_eq json file param
  rw [e, foldl_append_join]
  by_cases h : interceptor.Ref.Name = "" <;> simp [h, String.append_assoc]

theorem foldl_writeInterceptor (json : JSONCodec) (interceptors : List TriggerInterceptor)
    (file : String) :
    interceptors.foldl (writeInterceptor json) file = file ++ interceptorText json interceptors := by
  unfold interceptorText
  have e : writeInterceptor json = fun file interceptor =>
      file ++ ((if interceptor.Ref.Name ≠ "" then
            "- **Interceptor:** " ++ interceptor.Ref.Name ++ "\n" else "") ++
          String.join (interceptor.Params.map (paramText json))) := by
    funext file interceptor
    exact writeInterceptor_eq json file interceptor
  rw [e, foldl_append_join]

theorem visualizeBinding_noTemplate (eventListenerNode : String) (tn : Option String)
    (h : tn = none ∨ tn = some "") (st : ListenerState) (binding : EventListenerBinding)
    (hb : binding.Ref ≠ "") :
    visualizeBinding eventListenerNode tn st binding
      = ⟨st.file ++ "- **Binding:** " ++ binding.Ref ++ "\n",
          (addEdgeIfNotExists (st.mermaidDiagram ++ [Line.node (triggerBindingNodeOf binding.Ref)])
            eventListenerNode (triggerBindingNodeOf binding.Ref) st.existingEdges).1,
          (addEdgeIfNotExists (st.mermaidDiagram ++ [Line.node (triggerBindingNodeOf binding.Ref)])
            eventListenerNode (triggerBindingNodeOf binding.Ref) st.existingEdges).2⟩ := by
  unfold visualizeBinding
  rcases h with rfl | rfl <;> simp [hb]

theorem visualizeBinding_empty (eventListenerNode : String) (tn : Option String)
    (st : ListenerState) (binding : EventListenerBinding) (hb : binding.Ref = "") :
    visualizeBinding eventListenerNode tn st binding = st := by
  unfold visualizeBinding
  simp [hb]

theorem bindingText_cons_of_ne (b : EventListenerBinding) (bs : List EventListenerBinding)
    (hb : b.Ref ≠ "") :
    bindingText (b :: bs) = "- **Binding:** " ++ b.Ref ++ "\n" ++ bindingText bs := by
  simp [bindingText, List.filter_cons, hb, join_cons]

theorem bindingText_cons_of_eq (b : EventListenerBinding) (bs : List EventListenerBinding)
    (hb : b.Ref = "") : bindingText (b :: bs) = bindingText bs := by
  simp [bindingText, List.filter_cons, hb]

/-- The loop over the bindings of a trigger without template. -/
theorem foldl_visualizeBinding_noTemplate (eventListenerNode : String) (tn : Option String)
    (h : tn = none ∨ tn = some "") (bindings : List EventListenerBinding) (st : ListenerState) :
    (bindings.foldl (visualizeBinding eventListenerNode tn) st).file
        = st.file ++ bindingText bindings ∧
      (bindings.foldl (visualizeBinding eventListenerNode tn) st).mermaidDiagram
        = (linkBindingsToListener eventListenerNode (st.mermaidDiagram, st.existingEdges)
            bindings).1 ∧
      (bindings.foldl (visualizeBinding eventListenerNode tn) st).existingEdges
        = (linkBindingsToListener eventListenerNode (st.mermaidDiagram, st.existingEdges)
            bindings).2 := by
  induction bindings generalizing st with
  | nil => simp [bindingText, linkBindingsToListener, join_nil]
  | cons b bs ih =>
    by_cases hb : b.Ref = ""
    · rw [List.foldl_cons, visualizeBinding_empty _ _ _ _ hb, bindingText_cons_of_eq _ _ hb]
      have e : linkBindingsToListener eventListenerNode (st.mermaidDiagram, st.existingEdges)
          (b :: bs)
          = linkBindingsToListener eventListenerNode (st.mermaidDiagram, st.existingEdges) bs := by
        simp [linkBindingsToListener, List.filter_cons, hb]
      rw [e]
      exact ih st
    · rw [List.foldl_cons, visualizeBinding_noTemplate _ _ h _ _ hb,
        bindingText_cons_of_ne _ _ hb]
      have e : linkBindingsToListener eventListenerNode (st.mermaidDiagram, st.existingEdges)
          (b :: bs)
          = linkBindingsToListener eventListenerNode
              (addEdgeIfNotExists (st.mermaidDiagram ++ [Line.node (triggerBindingNodeOf b.Ref)])
                eventListenerNode (triggerBindingNodeOf b.Ref) st.existingEdges) bs := by
        simp [linkBindingsToListener, List.filter_cons, hb]
      rw [e]
      have := ih ⟨st.file ++ "- **Binding:** " ++ b.Ref ++ "\n",
          (addEdgeIfNotExists (st.mermaidDiagram ++ [Line.node (triggerBindingNodeOf b.Ref)])
            eventListenerNode (triggerBindingNodeOf b.Ref) st.existingEdges).1,
          (addEdgeIfNotExists (st.mermaidDiagram ++ [Line.node (triggerBindingNodeOf b.Ref)])
            eventListenerNode (triggerBindingNodeOf b.Ref) st.existingEdges).2⟩
      simpa [String.append_assoc] using this

/-- The shared part of the loop body on a trigger without template. -/
theorem visualizeTriggerHead_noTemplate (json : JSONCodec) (eventListenerNode : String)
    (tn : Option String) (st : ListenerState) (trigger : EventListenerTrigger)
    (h : tn = none ∨ tn = some "") :
    (visualizeTriggerHead json eventListenerNode tn st trigger).file
        = st.file ++ "### Trigger " ++ trigger.Name ++ ":\n\n" ++
            interceptorText json trigger.Interceptors ++ bindingText trigger.Bindings ∧
      (visualizeTriggerHead json eventListenerNode tn st trigger).mermaidDiagram
        = (linkBindingsToListener eventListenerNode (st.mermaidDiagram, st.existingEdges)
            trigger.Bindings).1 ∧
      (visualizeTriggerHead json eventListenerNode tn st trigger).existingEdges
        = (linkBindingsToListener eventListenerNode (st.mermaidDiagram, st.existingEdges)
            trigger.Bindings).2 := by
  unfold visualizeTriggerHead
  have := foldl_visualizeBinding_noTemplate eventListenerNode tn h
    trigger.Bindings
    ⟨(trigger.Interceptors.foldl (writeInterceptor json)
        (st.file ++ "### Trigger " ++ trigger.Name ++ ":\n\n")), st.mermaidDiagram,
      st.existingEdges⟩
  simpa only [foldl_writeInterceptor] using this

theorem listenerState_eq_mk (st : ListenerState) (file : String) (mermaidDiagram : Builder)
    (existingEdges : EdgeSet) (h1 : st.file = file) (h2 : st.mermaidDiagram = mermaidDiagram)
    (h3 : st.existingEdges = existingEdges) : st = ⟨file, mermaidDiagram, existingEdges⟩ := by
  cases st
  simp only [ListenerState.mk.injEq]
  exact ⟨h1, h2, h3⟩

theorem visualizeTriggerWith_diagram (json : JSONCodec) (node : String) (tn : Option String)
    (st : ListenerState) (trigger : EventListenerTrigger) :
    (visualizeTriggerWith json node tn st trigger).mermaidDiagram
        = (visualizeTriggerHead json node tn st trigger).mermaidDiagram ∧
      (visualizeTriggerWith json node tn st trigger).existingEdges
        = (visualizeTriggerHead json node tn st trigger).existingEdges := by
  unfold visualizeTriggerWith
  cases tn with
  | none => exact ⟨rfl, rfl⟩
  | some name => by_cases hn : name = "" <;> simp [hn]

/-- The loop body of eventlistener.go on a trigger without template: heading,
interceptors, bindings in the file; binding nodes and the edges listener ->
binding in the diagram. -/
theorem visualizeTriggerWith_noTemplate (json : JSONCodec) (eventListenerNode : String)
    (tn : Option String) (st : ListenerState) (trigger : EventListenerTrigger)
    (h : tn = none ∨ tn = some "") :
    visualizeTriggerWith json eventListenerNode tn st trigger
      = ⟨st.file ++ "### Trigger " ++ trigger.Name ++ ":\n\n" ++
            interceptorText json trigger.Interceptors ++ bindingText trigger.Bindings,
          (linkBindingsToListener eventListenerNode (st.mermaidDiagram, st.existingEdges)
            trigger.Bindings).1,
          (linkBindingsToListener eventListenerNode (st.mermaidDiagram, st.existingEdges)
            trigger.Bindings).2⟩ := by
  obtain ⟨h1, h2, h3⟩ := visualizeTriggerHead_noTemplate json eventListenerNode tn st trigger h
  have e : visualizeTriggerWith json eventListenerNode tn st trigger
      = visualizeTriggerHead json eventListenerNode tn st trigger := by
    unfold visualizeTriggerWith
    rcases h with rfl | rfl <;> simp
  rw [e]
  exact listenerState_eq_mk _ _ _ _ h1 h2 h3

theorem visualizeTrigger_of_template (json : JSONCodec) (node : String) (st : ListenerState)
    (trigger : EventListenerTrigger) (template : EventListenerTemplate)
    (h : trigger.Template = some template) :
    visualizeTrigger json node st trigger
      = .ok (visualizeTriggerWith json node template.Ref st trigger) := by
  unfold visualizeTrigger
  rw [h]

theorem visualizeTrigger_of_nil (json : JSONCodec) (node : String) (st : ListenerState)
    (trigger : EventListenerTrigger) (h : trigger.Template = none) :
    visualizeTrigger json node st trigger = .error nilDereference := by
  unfold visualizeTrigger
  rw [h]

theorem visualizeTriggers_cons_of_template (json : JSONCodec) (node : String)
    (st : ListenerState) (trigger : EventListenerTrigger) (rest : List EventListenerTrigger)
    (template : EventListenerTemplate) (h : trigger.Template = some template) :
    visualizeTriggers json node st (trigger :: rest)
      = visualizeTriggers json node (visualizeTriggerWith json node template.Ref st trigger)
          rest := by
  rw [visualizeTriggers, visualizeTrigger_of_template json node st trigger template h]

theorem visualizeTriggers_cons_of_nil (json : JSONCodec) (node : String)
    (st : ListenerState) (trigger : EventListenerTrigger) (rest : List EventListenerTrigger)
    (h : trigger.Template = none) :
    visualizeTriggers json node st (trigger :: rest) = (st, some nilDereference) := by
  rw [visualizeTriggers, visualizeTrigger_of_nil json node st trigger h]

/-- The loop over triggers one of which has a nil template ends in the
panic. -/
theorem visualizeTriggers_of_nil (json : JSONCodec) (node : String)
    (triggers : List EventListenerTrigger) (st : ListenerState)
    (h : ∃ trigger ∈ triggers, trigger.Template = none) :
    (visualizeTriggers json node st triggers).2 = some nilDereference := by
  induction triggers generalizing st with
  | nil =>
    obtain ⟨t, ht, _⟩ := h
    cases ht
  | cons t ts ih =>
    cases ht : t.Template with
    | none => rw [visualizeTriggers_cons_of_nil json node st t _ ht]
    | some template =>
      rw [visualizeTriggers_cons_of_template json node st t _ template ht]
      refine ih _ ?_
      obtain ⟨u, hu, hnil⟩ := h
      rcases List.mem_cons.mp hu with rfl | hu
      · rw [ht] at hnil
        cases hnil
      · exact ⟨u, hu, hnil⟩

theorem monolith_visualizeTrigger_of_ref (json : JSONCodec) (node : String)
    (st : ListenerState) (trigger : EventListenerTrigger) (template : EventListenerTemplate)
    (name : String) (ht : trigger.Template = some template) (hr : template.Ref = some name) :
    Monolith.visualizeTrigger json node st trigger
      = .ok (visualizeTriggerWith json node (some name) st trigger) := by
  unfold Monolith.visualizeTrigger visualizeTriggerWith
  rw [ht]
  simp only [hr]
  by_cases hn : name = "" <;> simp [hn]

theorem monolith_visualizeTrigger_of_nil (json : JSONCodec) (node : String)
    (st : ListenerState) (trigger : EventListenerTrigger)
    (h : ∀ template, trigger.Template = some template → template.Ref = none) :
    Monolith.visualizeTrigger json node st trigger = .error nilDereference := by
  unfold Monolith.visualizeTrigger
  cases ht : trigger.Template with
  | none => rfl
  | some template => simp only [h template ht]

/-- When the loop body of tektongraph.go returns, the loop body of
eventlistener.go returns the same state. -/
theorem monolith_visualizeTrigger_ok (json : JSONCodec) (node : String)
    (st st1 : ListenerState) (trigger : EventListenerTrigger)
    (h : Monolith.visualizeTrigger json node st trigger = .ok st1) :
    visualizeTrigger json node st trigger = .ok st1 := by
  cases ht : trigger.Template with
  | none =>
    rw [monolith_visualizeTrigger_of_nil json node st trigger
      (fun template e => by rw [ht] at e; cases e)] at h
    cases h
  | some template =>
    cases hr : template.Ref with
    | none =>
      rw [monolith_visualizeTrigger_of_nil json node st trigger
        (fun template2 e => by rw [ht] at e; cases e; exact hr)] at h
      cases h
    | some name =>
      rw [monolith_visualizeTrigger_of_ref json node st trigger template name ht hr] at h
      rw [visualizeTrigger_of_template json node st trigger template ht, hr]
      exact h

theorem monolith_visualizeTriggers_ok (json : JSONCodec) (node : String)
    (triggers : List EventListenerTrigger) (st st1 : ListenerState)
    (h : Monolith.visualizeTriggers json node st triggers = .ok st1) :
    visualizeTriggers json node st triggers = (st1, none) := by
  induction triggers generalizing st with
  | nil =>
    simp only [Monolith.visualizeTriggers, Except.ok.injEq] at h
    rw [visualizeTriggers, h]
  | cons t ts ih =>
    rw [Monolith.visualizeTriggers] at h
    cases hv : Monolith.visualizeTrigger json node st t with
    | error panic =>
      rw [hv] at h
      cases h
    | ok st2 =>
      rw [hv] at h
      rw [visualizeTriggers, monolith_visualizeTrigger_ok json node st st2 t hv]
      exact ih st2 h

theorem triggerBlock_of_not_resolvable (json : JSONCodec) (client : Clientset) (ns : String)
    (eventListener : EventListener) (trigger : EventListenerTrigger)
    (h : resolvable client ns trigger = false) :
    triggerBlock json client ns eventListener trigger = [] := by
  unfold resolvable at h
  unfold triggerBlock
  cases ht : trigger.Template with
  | none => rfl
  | some template =>
    simp only [ht] at h ⊢
    unfold triggerBlockWith
    cases hr : template.Ref with
    | none => rfl
    | some name =>
      simp only [hr] at h ⊢
      by_cases hn : name = ""
      · simp [hn]
      · simp only [hn, if_false] at h ⊢
        cases hg : client.GetTriggerTemplate ns name with
        | error e => rfl
        | ok tt => rw [hg] at h; cases h

theorem hasTemplates_prune (client : Clientset) (ns : String)
    (eventListeners : List EventListener) :
    HasTemplates (eventListeners.map (pruneListener client ns)) := by
  intro eventListener hl trigger ht hnil
  obtain ⟨l, _, rfl⟩ := List.mem_map.mp hl
  have hr : resolvable client ns trigger = true := (List.mem_filter.mp ht).2
  unfold resolvable at hr
  rw [hnil] at hr
  cases hr

theorem flatMap_filter_of_nil {α β : Type} (p : α → Bool) (f : α → List β) (l : List α)
    (h : ∀ x, p x = false → f x = []) : (l.filter p).flatMap f = l.flatMap f := by
  induction l with
  | nil => rfl
  | cons a l ih =>
    cases hp : p a
    · simp [List.filter_cons, hp, ih, h a hp]
    · simp [List.filter_cons, hp, ih]

theorem triggerBlock_pruneListener (json : JSONCodec) (client : Clientset) (ns : String)
    (eventListener : EventListener) (trigger : EventListenerTrigger)
    (eventListeners : List EventListener) :
    triggerBlock json (withListeners client eventListeners) ns
        (pruneListener client ns eventListener) trigger
      = triggerBlock json client ns eventListener trigger := rfl

theorem crossReferenceLines_prune (json : JSONCodec) (client : Clientset) (ns : String)
    (eventListeners pruned : List EventListener) :
    crossReferenceLines json (withListeners client pruned) ns
        (eventListeners.map (pruneListener client ns))
      = crossReferenceLines json client ns eventListeners := by
  unfold crossReferenceLines
  induction eventListeners with
  | nil => rfl
  | cons l ls ih =>
    simp only [List.map_cons, List.flatMap_cons, ih]
    congr 1
    have e : (triggerBlock json (withListeners client pruned) ns (pruneListener client ns l))
        = triggerBlock json client ns l := by
      funext trigger
      exact triggerBlock_pruneListener json client ns l trigger pruned
    rw [e]
    exact flatMap_filter_of_nil _ _ _
      (fun trigger h => triggerBlock_of_not_resolvable json client ns l trigger h)

theorem linkedBlock_infix (json : JSONCodec) (client : Clientset) (ns : String)
    (eventListeners : List EventListener) (eventListener : EventListener)
    (trigger : EventListenerTrigger) (template : EventListenerTemplate) (name : String)
    (triggerTemplate : TriggerTemplate)
    (res : TriggerResourceTemplate) (hl : eventListener ∈ eventListeners)
    (ht : trigger ∈ eventListener.Spec.Triggers) (htpl : trigger.Template = some template)
    (hr : template.Ref = some name)
    (hn : name ≠ "") (hg : client.GetTriggerTemplate ns name = .ok triggerTemplate)
    (hres : res ∈ triggerTemplate.Spec.ResourceTemplates)
    (hk : json.unstructuredKind res.Raw = some "PipelineRun") :
    linkedBlock eventListener trigger triggerTemplate
      <:+: crossReferenceLines json client ns eventListeners := by
  have h1 : linkedBlock eventListener trigger triggerTemplate
      = resourceBlock json eventListener trigger triggerTemplate res := by
    unfold resourceBlock
    rw [if_pos hk]
  have h2 : triggerBlock json client ns eventListener trigger
      = triggerTemplate.Spec.ResourceTemplates.flatMap
          (resourceBlock json eventListener trigger triggerTemplate) := by
    unfold triggerBlock
    rw [htpl]
    simp only
    unfold triggerBlockWith
    rw [hr]
    simp only [hn, if_false, hg]
  have i1 := infix_flatMap_of_mem
    (resourceBlock json eventListener trigger triggerTemplate) _ res hres
  have i2 := infix_flatMap_of_mem (triggerBlock json client ns eventListener) _ trigger ht
  have i3 := infix_flatMap_of_mem
    (fun eventListener =>
      eventListener.Spec.Triggers.flatMap (triggerBlock json client ns eventListener))
    _ eventListener hl
  rw [← h1] at i1
  rw [← h2] at i1
  exact (i1.trans i2).trans i3

theorem linkEdgeShape_mem (json : JSONCodec) (client : Clientset) (ns : String)
    (eventListeners : List EventListener) (e : String × String)
    (h : LinkEdgeShape json client ns eventListeners e) :
    e ∈ Builder.edges (crossReferenceLines json client ns eventListeners) := by
  obtain ⟨l, hl, t, ht, template, name, tt, htpl, hr, hn, hg, ⟨res, hres, hk⟩, hshape⟩ := h
  have hinf := linkedBlock_infix json client ns eventListeners l t template name tt res hl ht
    htpl hr hn hg hres hk
  rw [mem_edges_iff]
  refine hinf.subset ?_
  unfold linkedBlock
  rcases hshape with rfl | ⟨b, hb, hbn, hshape⟩
  · simp
  · refine List.mem_append_right _ (List.mem_flatMap.mpr ⟨b, hb, ?_⟩)
    unfold bindingBlock
    rw [if_neg hbn]
    rcases hshape with rfl | rfl <;> simp

/-- What the pipeline builders return, by the outcome of the cross-reference
linker. -/
theorem pipeline_result_ok (json : JSONCodec) (pipeline : Pipeline) (ns : String)
    (client : Clientset) (outputDir : String) (eventListeners : List EventListener)
    (h : client.ListEventListeners ns = .ok eventListeners) (ht : HasTemplates eventListeners) :
    buildAndVisualizeMermaidForPipeline json pipeline ns client outputDir
      = ⟨ns ++ "_pipeline_" ++ pipeline.Name ++ ".md",
          Builder.text ((pipelinePart pipeline).mermaidDiagram ++
            crossReferenceLines json client ns eventListeners ++ [Line.text "```\n"]),
          (pipelinePart pipeline).stdout ++ "Mermaid-Diagramm für Pipeline '" ++ pipeline.Name ++
            "' wurde in der Datei " ++
            filepathJoin outputDir (ns ++ "_pipeline_" ++ pipeline.Name ++ ".md") ++
            " gespeichert.\n",
          none, none⟩ := by
  unfold buildAndVisualizeMermaidForPipeline
  simp only [addTriggersToMermaid_eq json _ _ ns client eventListeners h ht]

theorem pipeline_result_error (json : JSONCodec) (pipeline : Pipeline) (ns : String)
    (client : Clientset) (outputDir : String) (err : String)
    (h : client.ListEventListeners ns = .error err) :
    buildAndVisualizeMermaidForPipeline json pipeline ns client outputDir
      = ⟨ns ++ "_pipeline_" ++ pipeline.Name ++ ".md", "", (pipelinePart pipeline).stdout,
          some err, none⟩ := by
  unfold buildAndVisualizeMermaidForPipeline
  simp only [addTriggersToMermaid_error json _ _ ns client err h]

theorem pipeline_result_panic (json : JSONCodec) (pipeline : Pipeline) (ns : String)
    (client : Clientset) (outputDir : String) (eventListeners : List EventListener)
    (h : client.ListEventListeners ns = .ok eventListeners)
    (ht : ¬ HasTemplates eventListeners) :
    buildAndVisualizeMermaidForPipeline json pipeline ns client outputDir
      = ⟨ns ++ "_pipeline_" ++ pipeline.Name ++ ".md", "", (pipelinePart pipeline).stdout,
          none, some nilDereference⟩ := by
  unfold buildAndVisualizeMermaidForPipeline
  simp only [addTriggersToMermaid_panic json _ _ ns client eventListeners h ht]

theorem monolith_pipeline_result_ok (json : JSONCodec) (pipeline : Pipeline) (ns : String)
    (client : Clientset) (outputDir : String) (eventListeners : List EventListener)
    (h : client.ListEventListeners ns = .ok eventListeners) (ht : HasTemplates eventListeners) :
    Monolith.buildAndVisualizeMermaidForPipeline json pipeline ns client outputDir
      = ⟨ns ++ "_pipeline_" ++ pipeline.Name ++ ".md",
          Builder.text ((pipelinePart pipeline).mermaidDiagram ++
            crossReferenceLines json client ns eventListeners ++ [Line.text "```\n"]),
          "Mermaid-Diagramm für Pipeline '" ++ pipeline.Name ++
            "' wurde in der Datei " ++
            filepathJoin outputDir (ns ++ "_pipeline_" ++ pipeline.Name ++ ".md") ++
            " gespeichert.\n",
          none, none⟩ := by
  unfold Monolith.buildAndVisualizeMermaidForPipeline
  simp only [addTriggersToMermaid_eq json _ _ ns client eventListeners h ht,
    monolith_pipelinePart]

theorem monolith_pipeline_result_panic (json : JSONCodec) (pipeline : Pipeline) (ns : String)
    (client : Clientset) (outputDir : String) (eventListeners : List EventListener)
    (h : client.ListEventListeners ns = .ok eventListeners)
    (ht : ¬ HasTemplates eventListeners) :
    Monolith.buildAndVisualizeMermaidForPipeline json pipeline ns client outputDir
      = ⟨ns ++ "_pipeline_" ++ pipeline.Name ++ ".md", "", "", none, some nilDereference⟩ := by
  unfold Monolith.buildAndVisualizeMermaidForPipeline
  simp only [addTriggersToMermaid_panic json _ _ ns client eventListeners h ht]

theorem pipeline_file_eq (json : JSONCodec) (pipeline : Pipeline) (ns : String)
    (client : Clientset) (outputDir : String) (eventListeners : List EventListener)
    (h : client.ListEventListeners ns = .ok eventListeners) (ht : HasTemplates eventListeners) :
    (buildAndVisualizeMermaidForPipeline json pipeline ns client outputDir).file
      = Builder.text (pipelinePart pipeline).mermaidDiagram ++
          Builder.text (crossReferenceLines json client ns eventListeners) ++ "```\n" := by
  rw [pipeline_result_ok json pipeline ns client outputDir eventListeners h ht]
  simp only [text_append, text_singleton]
  rfl

theorem monolith_pipeline_file_eq (json : JSONCodec) (pipeline : Pipeline) (ns : String)
    (client : Clientset) (outputDir : String) (eventListeners : List EventListener)
    (h : client.ListEventListeners ns = .ok eventListeners) (ht : HasTemplates eventListeners) :
    (Monolith.buildAndVisualizeMermaidForPipeline json pipeline ns client outputDir).file
      = Builder.text (pipelinePart pipeline).mermaidDiagram ++
          Builder.text (crossReferenceLines json client ns eventListeners) ++ "```\n" := by
  rw [monolith_pipeline_result_ok json pipeline ns client outputDir eventListeners h ht]
  simp only [text_append, text_singleton]
  rfl

/-! ## The panic of the tektongraph.go copy -/

theorem monolith_visualizeTriggers_of_nil (json : JSONCodec) (node : String)
    (triggers : List EventListenerTrigger) (st : ListenerState)
    (trigger : EventListenerTrigger) (hmem : trigger ∈ triggers)
    (hnil : ∀ template, trigger.Template = some template → template.Ref = none) :
    Monolith.visualizeTriggers json node st triggers = .error nilDereference := by
  induction triggers generalizing st with
  | nil => cases hmem
  | cons t ts ih =>
    rw [Monolith.visualizeTriggers]
    cases hv : Monolith.visualizeTrigger json node st t with
    | error panic =>
      cases ht : t.Template with
      | none =>
        rw [monolith_visualizeTrigger_of_nil json node st t
          (fun template e => by rw [ht] at e; cases e)] at hv
        cases hv
        rfl
      | some template =>
        cases hr : template.Ref with
        | none =>
          rw [monolith_visualizeTrigger_of_nil json node st t
            (fun template2 e => by rw [ht] at e; cases e; exact hr)] at hv
          cases hv
          rfl
        | some name =>
          rw [monolith_visualizeTrigger_of_ref json node st t template name ht hr] at hv
          cases hv
    | ok st1 =>
      simp only
      rcases List.mem_cons.mp hmem with rfl | hts
      · rw [monolith_visualizeTrigger_of_nil json node st trigger hnil] at hv
        cases hv
      · exact ih st1 hts

theorem monolith_listenerPart_of_nil (json : JSONCodec) (eventListener : EventListener)
    (trigger : EventListenerTrigger) (hmem : trigger ∈ eventListener.Spec.Triggers)
    (hnil : ∀ template, trigger.Template = some template → template.Ref = none) :
    Monolith.listenerPart json eventListener = .error nilDereference := by
  unfold Monolith.listenerPart
  exact monolith_visualizeTriggers_of_nil json _ _ _ trigger hmem hnil

/-! ## Lemmas on references to hyphenated names -/

theorem not_mem_of_word (x : Char) (hx : isWordChar x = false) (l : List Char)
    (h : ∀ c ∈ l, isWordChar c = true) : x ∉ l := by
  intro hm
  have := h x hm
  rw [hx] at this
  cases this

/-- A run of word characters followed by a hyphen is not a match: the pattern
wants a dot after the run. -/
theorem matchHere_hyphen (name post : List Char) (hne : name ≠ [])
    (hname : ∀ c ∈ name, isWordChar c = true) :
    matchHere (['$', '('] ++ ['t', 'a', 's', 'k', 's', '.'] ++ name ++ '-' :: post) = none := by
  have h4 : (name ++ '-' :: post).takeWhile isWordChar = name := by
    rw [List.takeWhile_append_of_pos hname]
    simp [List.takeWhile, isWordChar, Char.isAlphanum, Char.isAlpha, Char.isDigit, Char.isUpper,
      Char.isLower]
  have h5 : (name ++ '-' :: post).dropWhile isWordChar = '-' :: post := by
    rw [List.dropWhile_append_of_pos hname]
    simp [List.dropWhile, isWordChar, Char.isAlphanum, Char.isAlpha, Char.isDigit, Char.isUpper,
      Char.isLower]
  have h1 : stripLiteral ['$', '(']
      (['$', '('] ++ ['t', 'a', 's', 'k', 's', '.'] ++ name ++ '-' :: post)
      = some (['t', 'a', 's', 'k', 's', '.'] ++ (name ++ '-' :: post)) := by
    simp [stripLiteral]
  have h2 : (['t', 'a', 's', 'k', 's', '.'] ++ (name ++ '-' :: post)).dropWhile isSpaceChar
      = ['t', 'a', 's', 'k', 's', '.'] ++ (name ++ '-' :: post) := by
    simp [List.dropWhile, isSpaceChar]
  unfold matchHere
  rw [h1]
  simp only [h2, stripLiteral_append, h4, h5]
  cases name with
  | nil => exact absurd rfl hne
  | cons c cs => rfl

theorem hyphenReference_data (a b : String) :
    (hyphenReference a b).data
      = '$' :: (['(', 't', 'a', 's', 'k', 's', '.'] ++ a.data ++ ['-'] ++ b.data ++
          ['.', 'r', 'e', 's', 'u', 'l', 't', 's', '.', 'x', ')']) := by
  simp [hyphenReference, String.data_append]

theorem findAllGroups_hyphenReference (a b : String) (ha : IsIdent a) (hb : IsIdent b) :
    findAllGroups 0 (hyphenReference a b).data = [] := by
  rw [hyphenReference_data]
  have hm : matchHere ('$' :: (['(', 't', 'a', 's', 'k', 's', '.'] ++ a.data ++ ['-'] ++ b.data ++
      ['.', 'r', 'e', 's', 'u', 'l', 't', 's', '.', 'x', ')'])) = none := by
    have := matchHere_hyphen a.data
      (b.data ++ ['.', 'r', 'e', 's', 'u', 'l', 't', 's', '.', 'x', ')']) ha.1 ha.2
    simpa using this
  rw [findAllGroups, hm]
  apply findAllGroups_no_dollar
  have hda : '$' ∉ a.data := not_mem_of_word '$' (by decide) _ ha.2
  have hdb : '$' ∉ b.data := not_mem_of_word '$' (by decide) _ hb.2
  simp [hda, hdb]

/-! ## Lemmas on `strings.ReplaceAll` -/

theorem replaceAllFrom_skip (old new pre rest : List Char) :
    replaceAllFrom old new pre.length (pre ++ rest) = replaceAllFrom old new 0 rest := by
  induction pre with
  | nil => rfl
  | cons c pre ih =>
    simp only [List.length_cons, List.cons_append]
    cases h : pre ++ rest <;> simp [replaceAllFrom, ← h, ih]

/-- A text without the first character of `old` is left as it is. -/
theorem replaceAllFrom_of_not_mem (o : Char) (otail new s : List Char) (h : o ∉ s) :
    replaceAllFrom (o :: otail) new 0 s = s := by
  induction s with
  | nil => rfl
  | cons c cs ih =>
    have hc : ¬ o = c := fun e => h (by simp [e])
    have hcs : o ∉ cs := fun e => h (by simp [e])
    simp [replaceAllFrom, List.isPrefixOf, hc, ih hcs]

/-- The leftmost occurrence of `old` is replaced by `new` and the scan goes
on behind it. -/
theorem replaceAllFrom_at_occurrence (o : Char) (otail new pre post : List Char) (h : o ∉ pre) :
    replaceAllFrom (o :: otail) new 0 (pre ++ (o :: otail) ++ post)
      = pre ++ new ++ replaceAllFrom (o :: otail) new 0 post := by
  induction pre with
  | nil =>
    have hp : (o :: otail).isPrefixOf (o :: (otail ++ post)) = true := by
      rw [List.isPrefixOf_iff_prefix]
      exact ⟨post, by simp⟩
    have hl : (o :: otail).length - 1 = otail.length := by simp
    show replaceAllFrom (o :: otail) new 0 (o :: (otail ++ post))
      = new ++ replaceAllFrom (o :: otail) new 0 post
    rw [replaceAllFrom, if_pos hp, hl, replaceAllFrom_skip]
  | cons c pre ih =>
    have hc : ¬ o = c := fun e => h (by simp [e])
    have hpre : o ∉ pre := fun e => h (by simp [e])
    have := ih hpre
    simp only [List.cons_append, List.append_assoc] at this ⊢
    simp [replaceAllFrom, List.isPrefixOf, hc, this]

/-- A text without `amp` that starts the output also starts the input: the
scan copies characters until it replaces an occurrence by `amp`. -/
theorem prefix_of_prefix_replaceAllFrom (old : List Char) (amp : Char) (p : List Char)
    (hp : amp ∉ p) (s : List Char) (h : p <+: replaceAllFrom old [amp] 0 s) : p <+: s := by
  induction p generalizing s with
  | nil => exact List.nil_prefix
  | cons a p ih =>
    have ha : ¬ a = amp := fun e => hp (by simp [e])
    have hp2 : amp ∉ p := fun e => hp (by simp [e])
    cases s with
    | nil => simp [replaceAllFrom] at h
    | cons c cs =>
      by_cases hm : old.isPrefixOf (c :: cs) = true
      · rw [replaceAllFrom, if_pos hm, List.singleton_append, List.cons_prefix_cons] at h
        exact absurd h.1 ha
      · rw [replaceAllFrom, if_neg hm] at h
        rw [List.cons_prefix_cons] at h ⊢
        exact ⟨h.1, ih hp2 cs h.2⟩

/-- After the replacement by a single character `amp` that does not occur in
`old`, the output holds no occurrence of `old`. -/
theorem no_occurrence_in_replaceAllFrom (o : Char) (otail : List Char) (amp : Char)
    (h0 : o ≠ amp) (ht : amp ∉ otail) (k : Nat) (s : List Char) :
    ¬ (o :: otail) <:+: replaceAllFrom (o :: otail) [amp] k s := by
  induction s generalizing k with
  | nil => simp [replaceAllFrom]
  | cons c cs ih =>
    cases k with
    | succ k => simpa [replaceAllFrom] using ih k
    | zero =>
      by_cases hm : (o :: otail).isPrefixOf (c :: cs) = true
      · rw [replaceAllFrom, if_pos hm, List.singleton_append, List.infix_cons_iff]
        rintro (hpre | hin)
        · rw [List.cons_prefix_cons] at hpre
          exact h0 hpre.1
        · exact ih _ hin
      · rw [replaceAllFrom, if_neg hm, List.infix_cons_iff]
        rintro (hpre | hin)
        · rw [List.cons_prefix_cons] at hpre
          have hp := prefix_of_prefix_replaceAllFrom (o :: otail) amp otail ht cs hpre.2
          apply hm
          rw [List.isPrefixOf_iff_prefix, hpre.1, List.cons_prefix_cons]
          exact ⟨rfl, hp⟩
        · exact ih 0 hin

theorem stringsReplaceAll_escapedAmpersand (prettyJSON : String) :
    (stringsReplaceAll prettyJSON "\\u0026" "&").data
      = replaceAllFrom escapedAmpersand ['&'] 0 prettyJSON.data := by
  unfold stringsReplaceAll
  rw [if_neg (by decide)]
  rfl

/-! ## Lemmas on the when-expressions -/

theorem renderCondition_eq (taskName : String) (whenExpression : WhenExpression)
    (stdout : String) :
    renderCondition taskName whenExpression stdout
      = stdout ++ conditionText taskName whenExpression := by
  unfold renderCondition conditionText
  have e : (fun (stdout value : String) => stdout ++ "\t\t\tTrace: When Value: " ++ value ++ "\n")
      = fun stdout value => stdout ++ ("\t\t\tTrace: When Value: " ++ value ++ "\n") := by
    funext stdout value
    simp only [String.append_assoc]
  simp only [e, foldl_append_join, String.append_assoc]

theorem foldl_renderCondition (taskName : String) (conditions : List WhenExpression)
    (stdout : String) :
    conditions.foldl (fun stdout whenExpression => renderCondition taskName whenExpression stdout)
        stdout
      = stdout ++ String.join (conditions.map (conditionText taskName)) := by
  have e : (fun stdout whenExpression => renderCondition taskName whenExpression stdout)
      = fun stdout whenExpression => stdout ++ conditionText taskName whenExpression := by
    funext stdout whenExpression
    exact renderCondition_eq taskName whenExpression stdout
  rw [e, foldl_append_join]

theorem foldl_visualizeTaskWithTrace_stdout (pipelineNode : String) (tasks : List PipelineTask)
    (st : PipelineState) :
    (tasks.foldl (visualizeTaskWithTrace pipelineNode) st).stdout
      = st.stdout ++ String.join (tasks.map
          (fun task => String.join (task.When.map (conditionText task.Name)))) := by
  induction tasks generalizing st with
  | nil => simp [join_nil]
  | cons t ts ih =>
    rw [List.foldl_cons, ih]
    simp only [visualizeTaskWithTrace, foldl_renderCondition, List.map_cons, join_cons,
      String.append_assoc]

theorem pipelinePart_stdout (pipeline : Pipeline) :
    (pipelinePart pipeline).stdout = whenTrace pipeline := by
  unfold pipelinePart whenTrace
  simp only [foldl_visualizeTaskWithTrace_stdout]
  simp

theorem pipelinePart_diagram_eraseWhen (pipeline : Pipeline) :
    (pipelinePart (eraseWhen pipeline)).mermaidDiagram = (pipelinePart pipeline).mermaidDiagram := by
  rw [pipelinePart_diagram, pipelinePart_diagram]
  simp only [eraseWhen, List.flatMap_map]
  rfl

theorem pipelinePart_diagram_congr (p1 p2 : Pipeline) (h : eraseWhen p1 = eraseWhen p2) :
    (pipelinePart p1).mermaidDiagram = (pipelinePart p2).mermaidDiagram := by
  rw [← pipelinePart_diagram_eraseWhen p1, ← pipelinePart_diagram_eraseWhen p2, h]

theorem name_congr (p1 p2 : Pipeline) (h : eraseWhen p1 = eraseWhen p2) : p1.Name = p2.Name := by
  have e : (eraseWhen p1).Name = (eraseWhen p2).Name := congrArg Pipeline.Name h
  exact e

/-! ## Lemmas on edges kept at their first emission -/

theorem keepFirstEdges_append (a b : List Line) (seen : EdgeSet) :
    keepFirstEdges seen (a ++ b)
        = keepFirstEdges seen a ++ keepFirstEdges (seenAfter seen a) b ∧
      seenAfter seen (a ++ b) = seenAfter (seenAfter seen a) b := by
  induction a generalizing seen with
  | nil => exact ⟨rfl, rfl⟩
  | cons l a ih =>
    cases l with
    | text s => simp [keepFirstEdges, seenAfter, ih]
    | node decl => simp [keepFirstEdges, seenAfter, ih]
    | edge fromNode toNode =>
      cases h : seen (edgeKey fromNode toNode) <;> simp [keepFirstEdges, seenAfter, h, ih]

theorem addEdgeIfNotExists_eq_keepFirst (d : Builder) (fromNode toNode : String) (es : EdgeSet) :
    addEdgeIfNotExists d fromNode toNode es
      = (d ++ keepFirstEdges es [Line.edge fromNode toNode],
          seenAfter es [Line.edge fromNode toNode]) := by
  cases h : es (edgeKey fromNode toNode)
  · rw [addEdgeIfNotExists_of_absent d fromNode toNode es h]
    simp [keepFirstEdges, seenAfter, h]
  · rw [addEdgeIfNotExists_of_present d fromNode toNode es h]
    simp [keepFirstEdges, seenAfter, h]

theorem visualizeBinding_withTemplate (eventListenerNode name : String) (st : ListenerState)
    (binding : EventListenerBinding) (hb : binding.Ref ≠ "") (hn : name ≠ "") :
    visualizeBinding eventListenerNode (some name) st binding
      = ⟨st.file ++ "- **Binding:** " ++ binding.Ref ++ "\n",
          (addEdgeIfNotExists
            (addEdgeIfNotExists (st.mermaidDiagram ++ [Line.node (triggerBindingNodeOf binding.Ref)])
              (triggerBindingNodeOf binding.Ref) (triggerTemplateNodeOf name) st.existingEdges).1
            eventListenerNode (triggerBindingNodeOf binding.Ref)
            (addEdgeIfNotExists (st.mermaidDiagram ++ [Line.node (triggerBindingNodeOf binding.Ref)])
              (triggerBindingNodeOf binding.Ref) (triggerTemplateNodeOf name) st.existingEdges).2).1,
          (addEdgeIfNotExists
            (addEdgeIfNotExists (st.mermaidDiagram ++ [Line.node (triggerBindingNodeOf binding.Ref)])
              (triggerBindingNodeOf binding.Ref) (triggerTemplateNodeOf name) st.existingEdges).1
            eventListenerNode (triggerBindingNodeOf binding.Ref)
            (addEdgeIfNotExists (st.mermaidDiagram ++ [Line.node (triggerBindingNodeOf binding.Ref)])
              (triggerBindingNodeOf binding.Ref) (triggerTemplateNodeOf name) st.existingEdges).2).2⟩ := by
  unfold visualizeBinding
  simp [hb, hn]

theorem bindingEvents_noTemplate (eventListenerNode : String) (tn : Option String)
    (h : tn = none ∨ tn = some "") (binding : EventListenerBinding) (hb : binding.Ref ≠ "") :
    bindingEvents eventListenerNode tn binding
      = Line.node (triggerBindingNodeOf binding.Ref) ::
          [Line.edge eventListenerNode (triggerBindingNodeOf binding.Ref)] := by
  unfold bindingEvents
  rcases h with rfl | rfl <;> simp [hb]

theorem bindingEvents_withTemplate (eventListenerNode name : String)
    (binding : EventListenerBinding) (hb : binding.Ref ≠ "") (hn : name ≠ "") :
    bindingEvents eventListenerNode (some name) binding
      = Line.node (triggerBindingNodeOf binding.Ref) ::
          ([Line.edge (triggerBindingNodeOf binding.Ref) (triggerTemplateNodeOf name)] ++
            [Line.edge eventListenerNode (triggerBindingNodeOf binding.Ref)]) := by
  unfold bindingEvents
  simp [hb, hn]

theorem visualizeBinding_eq_keepFirst (eventListenerNode : String) (tn : Option String)
    (st : ListenerState) (binding : EventListenerBinding) :
    (visualizeBinding eventListenerNode tn st binding).mermaidDiagram
        = st.mermaidDiagram ++
          keepFirstEdges st.existingEdges (bindingEvents eventListenerNode tn binding) ∧
      (visualizeBinding eventListenerNode tn st binding).existingEdges
        = seenAfter st.existingEdges (bindingEvents eventListenerNode tn binding) := by
  by_cases hb : binding.Ref = ""
  · rw [visualizeBinding_empty _ _ _ _ hb]
    simp [bindingEvents, hb, keepFirstEdges, seenAfter]
  · by_cases ht : tn = none ∨ tn = some ""
    · rw [visualizeBinding_noTemplate _ _ ht _ _ hb, bindingEvents_noTemplate _ _ ht _ hb,
        addEdgeIfNotExists_eq_keepFirst, keepFirstEdges, seenAfter]
      exact ⟨by simp, rfl⟩
    · cases tn with
      | none => exact absurd (Or.inl rfl) ht
      | some name =>
        have hn : name ≠ "" := fun e => ht (Or.inr (by rw [e]))
        obtain ⟨a1, a2⟩ := keepFirstEdges_append
          [Line.edge (triggerBindingNodeOf binding.Ref) (triggerTemplateNodeOf name)]
          [Line.edge eventListenerNode (triggerBindingNodeOf binding.Ref)] st.existingEdges
        rw [visualizeBinding_withTemplate _ _ _ _ hb hn, bindingEvents_withTemplate _ _ _ hb hn,
          addEdgeIfNotExists_eq_keepFirst, addEdgeIfNotExists_eq_keepFirst, keepFirstEdges,
          seenAfter, a1, a2]
        exact ⟨by simp, rfl⟩

theorem foldl_visualizeBinding_eq_keepFirst (eventListenerNode : String) (tn : Option String)
    (bindings : List EventListenerBinding) (st : ListenerState) :
    (bindings.foldl (visualizeBinding eventListenerNode tn) st).mermaidDiagram
        = st.mermaidDiagram ++
          keepFirstEdges st.existingEdges
            (bindings.flatMap (bindingEvents eventListenerNode tn)) ∧
      (bindings.foldl (visualizeBinding eventListenerNode tn) st).existingEdges
        = seenAfter st.existingEdges (bindings.flatMap (bindingEvents eventListenerNode tn)) := by
  induction bindings generalizing st with
  | nil => simp [keepFirstEdges, seenAfter]
  | cons b bs ih =>
    obtain ⟨h1, h2⟩ := visualizeBinding_eq_keepFirst eventListenerNode tn st b
    obtain ⟨i1, i2⟩ := ih (visualizeBinding eventListenerNode tn st b)
    obtain ⟨a1, a2⟩ := keepFirstEdges_append (bindingEvents eventListenerNode tn b)
      (bs.flatMap (bindingEvents eventListenerNode tn)) st.existingEdges
    rw [List.foldl_cons, List.flatMap_cons, i1, i2, h1, h2, a1, a2, List.append_assoc]
    exact ⟨rfl, rfl⟩

theorem visualizeTriggerWith_eq_keepFirst (json : JSONCodec) (eventListenerNode : String)
    (tn : Option String) (st : ListenerState) (trigger : EventListenerTrigger) :
    (visualizeTriggerWith json eventListenerNode tn st trigger).mermaidDiagram
        = st.mermaidDiagram ++
          keepFirstEdges st.existingEdges
            (trigger.Bindings.flatMap (bindingEvents eventListenerNode tn)) ∧
      (visualizeTriggerWith json eventListenerNode tn st trigger).existingEdges
        = seenAfter st.existingEdges
            (trigger.Bindings.flatMap (bindingEvents eventListenerNode tn)) := by
  rw [(visualizeTriggerWith_diagram json eventListenerNode tn st trigger).1,
    (visualizeTriggerWith_diagram json eventListenerNode tn st trigger).2]
  unfold visualizeTriggerHead
  exact foldl_visualizeBinding_eq_keepFirst eventListenerNode tn trigger.Bindings _

theorem visualizeTriggers_eq_keepFirst (json : JSONCodec) (eventListenerNode : String)
    (triggers : List EventListenerTrigger) (st : ListenerState) :
    (visualizeTriggers json eventListenerNode st triggers).1.mermaidDiagram
        = st.mermaidDiagram ++
          keepFirstEdges st.existingEdges (triggerEvents eventListenerNode triggers) ∧
      (visualizeTriggers json eventListenerNode st triggers).1.existingEdges
        = seenAfter st.existingEdges (triggerEvents eventListenerNode triggers) := by
  induction triggers generalizing st with
  | nil => simp [visualizeTriggers, triggerEvents, keepFirstEdges, seenAfter]
  | cons t ts ih =>
    cases ht : t.Template with
    | none =>
      rw [visualizeTriggers_cons_of_nil json eventListenerNode st t ts ht]
      simp [triggerEvents, ht, keepFirstEdges, seenAfter]
    | some template =>
      obtain ⟨h1, h2⟩ := visualizeTriggerWith_eq_keepFirst json eventListenerNode template.Ref
        st t
      obtain ⟨i1, i2⟩ := ih (visualizeTriggerWith json eventListenerNode template.Ref st t)
      obtain ⟨a1, a2⟩ := keepFirstEdges_append
        (t.Bindings.flatMap (bindingEvents eventListenerNode template.Ref))
        (triggerEvents eventListenerNode ts) st.existingEdges
      have e : triggerEvents eventListenerNode (t :: ts)
          = t.Bindings.flatMap (bindingEvents eventListenerNode template.Ref) ++
              triggerEvents eventListenerNode ts := by
        rw [triggerEvents, ht]
      rw [visualizeTriggers_cons_of_template json eventListenerNode st t ts template ht, e,
        i1, i2, h1, h2, a1, a2, List.append_assoc]
      exact ⟨rfl, rfl⟩

/-- The diagram of a listener: the header, the listener node, then the
emitted lines with every edge line kept at its first emission. -/
theorem listenerPart_diagram (json : JSONCodec) (eventListener : EventListener) :
    (listenerPart json eventListener).1.mermaidDiagram
      = [Line.text "```mermaid\n", Line.text "graph TD;\n",
          Line.node (eventListenerNodeOf eventListener.Name)] ++
        keepFirstEdges EdgeSet.empty (listenerEvents eventListener) := by
  unfold listenerPart listenerEvents
  exact (visualizeTriggers_eq_keepFirst json _ _ _).1

/-- An edge that is kept had not been seen. -/
theorem keepFirstEdges_unseen (seen : EdgeSet) (l : List Line) (e : String × String)
    (h : e ∈ Builder.edges (keepFirstEdges seen l)) : seen (edgeKey e.1 e.2) = false := by
  induction l generalizing seen with
  | nil => simp [keepFirstEdges, Builder.edges] at h
  | cons x l ih =>
    cases x with
    | text s =>
      simp only [keepFirstEdges, Builder.edges, List.filterMap_cons, Line.endpoints] at h
      exact ih seen h
    | node decl =>
      simp only [keepFirstEdges, Builder.edges, List.filterMap_cons, Line.endpoints] at h
      exact ih seen h
    | edge a b =>
      cases hs : seen (edgeKey a b)
      · simp only [keepFirstEdges, hs, Bool.false_eq_true, if_false, Builder.edges,
          List.filterMap_cons, Line.endpoints, List.mem_cons] at h
        rcases h with rfl | h
        · exact hs
        · have := ih _ h
          by_cases hk : edgeKey e.1 e.2 = edgeKey a b
          · simp [hk] at this
          · simpa [hk] using this
      · simp only [keepFirstEdges, hs, if_true] at h
        exact ih seen h

theorem edgeLineTexts_cons_edge (a b : String) (d : Builder) :
    edgeLineTexts (Line.edge a b :: d) = (Line.edge a b).render :: edgeLineTexts d := by
  simp [edgeLineTexts, Builder.edges, Line.endpoints]

theorem edgeLineTexts_cons_text (s : String) (d : Builder) :
    edgeLineTexts (Line.text s :: d) = edgeLineTexts d := by
  simp [edgeLineTexts, Builder.edges, Line.endpoints]

theorem edgeLineTexts_cons_node (s : String) (d : Builder) :
    edgeLineTexts (Line.node s :: d) = edgeLineTexts d := by
  simp [edgeLineTexts, Builder.edges, Line.endpoints]

/-- The edge lines that are kept have pairwise different texts. -/
theorem keepFirstEdges_nodup (seen : EdgeSet) (l : List Line) :
    (edgeLineTexts (keepFirstEdges seen l)).Nodup := by
  induction l generalizing seen with
  | nil => simp [keepFirstEdges, edgeLineTexts, Builder.edges]
  | cons x l ih =>
    cases x with
    | text s => rw [keepFirstEdges, edgeLineTexts_cons_text]; exact ih seen
    | node decl => rw [keepFirstEdges, edgeLineTexts_cons_node]; exact ih seen
    | edge a b =>
      cases hs : seen (edgeKey a b)
      · rw [keepFirstEdges, if_neg (by simp [hs]), edgeLineTexts_cons_edge, List.nodup_cons]
        refine ⟨?_, ih _⟩
        intro hm
        obtain ⟨e, he, htext⟩ := List.mem_map.mp hm
        have hun := keepFirstEdges_unseen _ l e he
        by_cases hk : edgeKey e.1 e.2 = edgeKey a b
        · simp [hk] at hun
        · exact render_edge_ne e.1 e.2 a b hk htext
      · rw [keepFirstEdges, if_pos hs]
        exact ih seen

/-- Every emitted edge whose key had not been seen has its text among the
kept edge lines. -/
theorem keepFirstEdges_complete (seen : EdgeSet) (l : List Line) (a b : String)
    (hm : Line.edge a b ∈ l) (hs : seen (edgeKey a b) = false) :
    (Line.edge a b).render ∈ edgeLineTexts (keepFirstEdges seen l) := by
  induction l generalizing seen with
  | nil => cases hm
  | cons x l ih =>
    cases x with
    | text s =>
      rw [keepFirstEdges, edgeLineTexts_cons_text]
      exact ih seen (by simpa using hm) hs
    | node decl =>
      rw [keepFirstEdges, edgeLineTexts_cons_node]
      exact ih seen (by simpa using hm) hs
    | edge c d =>
      by_cases hk : edgeKey a b = edgeKey c d
      · have hcd : seen (edgeKey c d) = false := hk ▸ hs
        rw [keepFirstEdges, if_neg (by simp [hcd]), edgeLineTexts_cons_edge]
        rw [render_edge_eq, render_edge_eq, hk]
        exact List.mem_cons_self _ _
      · have hml : Line.edge a b ∈ l := by
          rcases List.mem_cons.mp hm with h | h
          · exfalso
            simp only [Line.edge.injEq] at h
            exact hk (by rw [h.1, h.2])
          · exact h
        cases hcd : seen (edgeKey c d)
        · rw [keepFirstEdges, if_neg (by simp [hcd]), edgeLineTexts_cons_edge]
          exact List.mem_cons_of_mem _ (ih _ hml (by simp [hk, hs]))
        · rw [keepFirstEdges, if_pos hcd]
          exact ih seen hml hs

theorem edgeLineTexts_listenerPart (json : JSONCodec) (eventListener : EventListener) :
    edgeLineTexts (listenerPart json eventListener).1.mermaidDiagram
      = edgeLineTexts (keepFirstEdges EdgeSet.empty (listenerEvents eventListener)) := by
  rw [listenerPart_diagram]
  simp only [List.cons_append, List.nil_append, edgeLineTexts_cons_text, edgeLineTexts_cons_node]

/-! ## Shape of the edges of the event-listener builder -/

/-- A line that is kept is one of the emitted lines. -/
theorem keepFirstEdges_subset (seen : EdgeSet) (l : List Line) (x : Line)
    (h : x ∈ keepFirstEdges seen l) : x ∈ l := by
  induction l generalizing seen with
  | nil => simp [keepFirstEdges] at h
  | cons y l ih =>
    cases y with
    | text s =>
      rw [keepFirstEdges] at h
      rcases List.mem_cons.mp h with h | h
      · exact h ▸ List.mem_cons_self _ _
      · exact List.mem_cons_of_mem _ (ih seen h)
    | node decl =>
      rw [keepFirstEdges] at h
      rcases List.mem_cons.mp h with h | h
      · exact h ▸ List.mem_cons_self _ _
      · exact List.mem_cons_of_mem _ (ih seen h)
    | edge a b =>
      cases hs : seen (edgeKey a b)
      · rw [keepFirstEdges, if_neg (by simp [hs])] at h
        rcases List.mem_cons.mp h with h | h
        · exact h ▸ List.mem_cons_self _ _
        · exact List.mem_cons_of_mem _ (ih _ h)
      · rw [keepFirstEdges, if_pos hs] at h
        exact List.mem_cons_of_mem _ (ih seen h)

theorem mem_bindingEvents (eventListenerNode : String) (tn : Option String)
    (binding : EventListenerBinding) (a b : String)
    (h : Line.edge a b ∈ bindingEvents eventListenerNode tn binding) :
    binding.Ref ≠ "" ∧
      ((a, b) = (eventListenerNode, triggerBindingNodeOf binding.Ref) ∨
        ∃ name, tn = some name ∧ name ≠ "" ∧
          (a, b) = (triggerBindingNodeOf binding.Ref, triggerTemplateNodeOf name)) := by
  unfold bindingEvents at h
  by_cases hb : binding.Ref = ""
  · simp [hb] at h
  · refine ⟨hb, ?_⟩
    rw [if_neg hb] at h
    simp only [List.mem_append, List.mem_singleton, reduceCtorEq, false_or, Line.edge.injEq] at h
    rcases h with h | h
    · cases tn with
      | none => simp at h
      | some name =>
        by_cases hn : name = ""
        · simp [hn] at h
        · simp only [hn, if_false, List.mem_singleton, Line.edge.injEq] at h
          exact Or.inr ⟨name, rfl, hn, Prod.ext h.1 h.2⟩
    · exact Or.inl (Prod.ext h.1 h.2)

theorem mem_triggerEvents (eventListenerNode : String) (triggers : List EventListenerTrigger)
    (x : Line) (h : x ∈ triggerEvents eventListenerNode triggers) :
    ∃ trigger ∈ triggers, ∃ template, trigger.Template = some template ∧
      x ∈ trigger.Bindings.flatMap (bindingEvents eventListenerNode template.Ref) := by
  induction triggers with
  | nil => simp [triggerEvents] at h
  | cons t ts ih =>
    rw [triggerEvents] at h
    cases ht : t.Template with
    | none => simp [ht] at h
    | some template =>
      simp only [ht, List.mem_append] at h
      rcases h with h | h
      · exact ⟨t, List.mem_cons_self _ _, template, ht, h⟩
      · obtain ⟨u, hu, tpl, htpl, hx⟩ := ih h
        exact ⟨u, List.mem_cons_of_mem _ hu, tpl, htpl, hx⟩

/-- Every edge of the diagram of a listener is the edge listener -> binding or
the edge binding -> template of a binding of one of its triggers. -/
theorem listenerEdgeShape_of_mem (json : JSONCodec) (eventListener : EventListener)
    (e : String × String)
    (h : e ∈ Builder.edges (listenerPart json eventListener).1.mermaidDiagram) :
    ListenerEdgeShape eventListener e := by
  rw [listenerPart_diagram, mem_edges_iff] at h
  simp only [List.cons_append, List.nil_append, List.mem_cons, reduceCtorEq, false_or] at h
  have hm := keepFirstEdges_subset _ _ _ h
  obtain ⟨trigger, ht, template, htpl, hx⟩ := mem_triggerEvents _ _ _ hm
  obtain ⟨binding, hb, hx⟩ := List.mem_flatMap.mp hx
  obtain ⟨hne, hshape⟩ := mem_bindingEvents _ _ _ _ _ hx
  refine ⟨trigger, ht, template, htpl, binding, hb, hne, ?_⟩
  rcases hshape with hshape | ⟨name, hr, hn, hshape⟩
  · exact Or.inl hshape
  · exact Or.inr ⟨name, hr, hn, hshape⟩

/-! ## Claims -/

/-- C2: for every non-empty string `n` made only of word characters,
`extractTaskReferences("$(tasks." + n + ".outputs.x)")` returns exactly the
one-element list `[n]`. -/
theorem extractTaskReferences_single (n : String) (h : IsIdent n) :
    extractTaskReferences ("$(tasks." ++ n ++ ".outputs.x)") = [n] := by
  have e : ("$(tasks." ++ n ++ ".outputs.x)").data
      = ['$', '('] ++ [] ++ ['t', 'a', 's', 'k', 's', '.'] ++ n.data ++ ['.'] ++
          ['o', 'u', 't', 'p', 'u', 't', 's', '.', 'x', ')'] := by
    simp [String.data_append]
  unfold extractTaskReferences
  rw [e, findAllGroups_at_match [] n.data _ (by simp) h.1 h.2]
  rw [findAllGroups_no_dollar _ (by decide)]
  rfl

/-- Witness of C2 at the step name `build_1`. -/
theorem extractTaskReferences_single_witness :
    IsIdent "build_1" ∧ extractTaskReferences "$(tasks.build_1.outputs.x)" = ["build_1"] :=
  ⟨by decide, extractTaskReferences_single "build_1" (by decide)⟩

/-- C3: `extractTaskReferences` returns every matched identifier in order of
occurrence with duplicates kept: on the concatenation of the segments
`"$(tasks." + n + ".results.r) "` for identifiers `n1 .. nk` (not necessarily
distinct, `k` may be zero) it returns exactly `[n1, .., nk]`; on a text
without any occurrence of the reference pattern it returns the empty list;
and it returns a list on every text. -/
theorem extractTaskReferences_all_in_order :
    (∀ ns : List String, (∀ n ∈ ns, IsIdent n) →
      extractTaskReferences (String.join (ns.map resultSegment)) = ns) ∧
    (∀ value : String, ¬ HasReference value → extractTaskReferences value = []) ∧
    (∀ value : String, ∃ names : List String, extractTaskReferences value = names) := by
  refine ⟨?_, ?_, ?_⟩
  · intro ns h
    unfold extractTaskReferences
    rw [findAllGroups_segments ns h, List.map_map]
    have e : (String.mk ∘ String.data) = id := funext fun _ => rfl
    rw [e, List.map_id]
  · intro value h
    by_contra hne
    exact h ((extractTaskReferences_ne_nil_iff value).mp hne)
  · intro value
    exact ⟨_, rfl⟩

/-- Witness of C3: three segments with a repeated identifier, and a text
without a reference. -/
theorem extractTaskReferences_all_in_order_witness :
    extractTaskReferences
        "$(tasks.a.results.r) $(tasks.b2.results.r) $(tasks.a.results.r) " = ["a", "b2", "a"] ∧
      extractTaskReferences "$(params.x) tasks.a.b" = [] :=
  ⟨extractTaskReferences_all_in_order.1 ["a", "b2", "a"] (by decide),
    extractTaskReferences_all_in_order.2.1 "$(params.x) tasks.a.b"
      (fun h => (extractTaskReferences_ne_nil_iff _).mpr h (by decide))⟩

/-- C1: in both copies of `buildAndVisualizeMermaidForPipeline`, the edges
written into the diagram before the cross-reference part are, per step in
declaration order, the edge pipeline -> step, then predecessor -> step for
each entry of `RunAfter` in order, then referenced step -> step for each name
that `extractTaskReferences` returns on each string-typed param in order;
nothing else, nothing deduplicated, nothing from other params.  First as the
node references that stand in the edge lines, then read as labels
(`Pipeline_P -> Task_s`, `Task_d -> Task_s`, `Task_m -> Task_s`) for names
without the display bracket. -/
theorem pipeline_edges_in_order :
    (∀ pipeline : Pipeline,
      Builder.edges (pipelinePart pipeline).mermaidDiagram
          = pipeline.Spec.Tasks.flatMap (stepEdgeNodes pipeline.Name) ∧
        Builder.edges (Monolith.pipelinePart pipeline)
          = pipeline.Spec.Tasks.flatMap (stepEdgeNodes pipeline.Name)) ∧
    (∀ pipeline : Pipeline, BracketFree pipeline →
      (Builder.edges (pipelinePart pipeline).mermaidDiagram).map edgeLabels
          = pipeline.Spec.Tasks.flatMap (stepEdgeLabels pipeline.Name) ∧
        (Builder.edges (Monolith.pipelinePart pipeline)).map edgeLabels
          = pipeline.Spec.Tasks.flatMap (stepEdgeLabels pipeline.Name)) := by
  refine ⟨fun pipeline => ⟨edges_pipelinePart pipeline, ?_⟩, fun pipeline h => ?_⟩
  · rw [monolith_pipelinePart]; exact edges_pipelinePart pipeline
  · rw [monolith_pipelinePart, edges_pipelinePart]
    have e := flatMap_stepEdgeNodes_labels pipeline.Name pipeline.Spec.Tasks h.1 h.2
    exact ⟨e, e⟩

/-- Witness of C1: the two scenarios of the specification.  Steps `build` and
`test` with `test` after `build` give exactly `Pipeline_P -> Task_build`,
`Pipeline_P -> Task_test`, `Task_build -> Task_test`; the param
`$(tasks.build.results.image)` on step `deploy` gives `Task_build ->
Task_deploy`, and the array param gives nothing. -/
theorem pipeline_edges_in_order_witness :
    (Builder.edges (pipelinePart scenarioBuildTest).mermaidDiagram).map edgeLabels
        = [("Pipeline_P", "Task_build"), ("Pipeline_P", "Task_test"),
            ("Task_build", "Task_test")] ∧
      (Builder.edges (pipelinePart scenarioDeploy).mermaidDiagram).map edgeLabels
        = [("Pipeline_P", "Task_deploy"), ("Task_build", "Task_deploy")] ∧
      Builder.edges (pipelinePart scenarioBuildTest).mermaidDiagram
        = [("Pipeline_P[Pipeline: P]", "Task_build[Task: build]"),
            ("Pipeline_P[Pipeline: P]", "Task_test[Task: test]"),
            ("Task_build", "Task_test[Task: test]")] :=
  ⟨(pipeline_edges_in_order.2 scenarioBuildTest (by decide)).1.trans (by decide),
    (pipeline_edges_in_order.2 scenarioDeploy (by decide)).1.trans (by decide),
    (pipeline_edges_in_order.1 scenarioBuildTest).1.trans (by decide)⟩

/-- C4: `addEdgeIfNotExists` is idempotent: for every diagram, every edge set
and every pair of strings, a second call with the same pair leaves the
diagram (hence its text) and the edge set exactly as the first call left
them; and from an empty edge set two calls with the same pair append exactly
one edge line `from --> to;`. -/
theorem addEdgeIfNotExists_idempotent :
    (∀ (d : Builder) (es : EdgeSet) (fromNode toNode : String),
      addEdgeIfNotExists (addEdgeIfNotExists d fromNode toNode es).1 fromNode toNode
          (addEdgeIfNotExists d fromNode toNode es).2
        = addEdgeIfNotExists d fromNode toNode es) ∧
    (∀ (d : Builder) (es : EdgeSet) (fromNode toNode : String),
      Builder.text (addEdgeIfNotExists (addEdgeIfNotExists d fromNode toNode es).1 fromNode toNode
          (addEdgeIfNotExists d fromNode toNode es).2).1
        = Builder.text (addEdgeIfNotExists d fromNode toNode es).1) ∧
    (∀ (d : Builder) (fromNode toNode : String),
      (addEdgeIfNotExists (addEdgeIfNotExists d fromNode toNode EdgeSet.empty).1 fromNode toNode
          (addEdgeIfNotExists d fromNode toNode EdgeSet.empty).2).1
        = d ++ [Line.edge fromNode toNode] ∧
      Builder.text (addEdgeIfNotExists (addEdgeIfNotExists d fromNode toNode EdgeSet.empty).1
          fromNode toNode (addEdgeIfNotExists d fromNode toNode EdgeSet.empty).2).1
        = Builder.text d ++ (fromNode ++ " --> " ++ toNode ++ ";\n")) := by
  have idem : ∀ (d : Builder) (es : EdgeSet) (fromNode toNode : String),
      addEdgeIfNotExists (addEdgeIfNotExists d fromNode toNode es).1 fromNode toNode
          (addEdgeIfNotExists d fromNode toNode es).2
        = addEdgeIfNotExists d fromNode toNode es := by
    intro d es fromNode toNode
    exact addEdgeIfNotExists_of_present _ _ _ _ (addEdgeIfNotExists_marks d fromNode toNode es)
  have once : ∀ (d : Builder) (fromNode toNode : String),
      (addEdgeIfNotExists d fromNode toNode EdgeSet.empty).1 = d ++ [Line.edge fromNode toNode] := by
    intro d fromNode toNode
    rw [addEdgeIfNotExists_of_absent d fromNode toNode EdgeSet.empty rfl]
  refine ⟨idem, ?_, ?_⟩
  · intro d es fromNode toNode
    rw [idem]
  · intro d fromNode toNode
    rw [idem, once, text_append, text_singleton]
    exact ⟨rfl, rfl⟩

/-- Counterexample to C5: the empty string and the string ` --> ` differ, yet
the key of the pair in one direction is the key of the pair in the other
direction, so the second call appends nothing. -/
theorem edge_direction_collision :
    ("" : String) ≠ " --> " ∧
      edgeKey "" " --> " = edgeKey " --> " "" ∧
      (addEdgeIfNotExists (addEdgeIfNotExists [] "" " --> " EdgeSet.empty).1 " --> " ""
          (addEdgeIfNotExists [] "" " --> " EdgeSet.empty).2).1
        = [Line.edge "" " --> "] := by
  refine ⟨by decide, by decide, by decide⟩

/-- C5 as amended: on a fresh edge set the calls with `(A, B)` and then
`(B, A)` append the line of `(A, B)`, and the line of `(B, A)` exactly when
the two keys differ; the keys differ, and so do the two lines, for all
`A ≠ B` that have the same length or hold no `>` character. -/
theorem edge_direction_sensitive :
    (∀ (d : Builder) (a b : String),
      (addEdgeIfNotExists (addEdgeIfNotExists d a b EdgeSet.empty).1 b a
          (addEdgeIfNotExists d a b EdgeSet.empty).2).1
        = if edgeKey b a = edgeKey a b then d ++ [Line.edge a b]
          else d ++ [Line.edge a b, Line.edge b a]) ∧
    (∀ a b : String, a ≠ b →
      (a.length = b.length ∨ ('>' ∉ a.data ∧ '>' ∉ b.data)) →
      edgeKey a b ≠ edgeKey b a ∧ (Line.edge a b).render ≠ (Line.edge b a).render) := by
  constructor
  · intro d a b
    rw [addEdgeIfNotExists_of_absent d a b EdgeSet.empty rfl]
    by_cases h : edgeKey b a = edgeKey a b
    · rw [if_pos h, addEdgeIfNotExists_of_present]
      simp [h]
    · rw [if_neg h, addEdgeIfNotExists_of_absent]
      · simp
      · simp [h, EdgeSet.empty]
  · intro a b hne hcond
    have hk : edgeKey a b ≠ edgeKey b a := by
      rcases hcond with hlen | ⟨ha, hb⟩
      · exact edgeKey_ne_of_length a b hne hlen
      · exact edgeKey_ne_of_no_gt a b hne ha hb
    exact ⟨hk, render_edge_ne a b b a hk⟩

/-- Witness of the amended C5 at a listener node and a binding node. -/
theorem edge_direction_sensitive_witness :
    edgeKey "EventListener_l[EventListener: l]" "TriggerBinding_b[TriggerBinding: b]"
        ≠ edgeKey "TriggerBinding_b[TriggerBinding: b]" "EventListener_l[EventListener: l]" ∧
      (Line.edge "EventListener_l[EventListener: l]" "TriggerBinding_b[TriggerBinding: b]").render
        ≠ (Line.edge "TriggerBinding_b[TriggerBinding: b]"
            "EventListener_l[EventListener: l]").render :=
  edge_direction_sensitive.2 "EventListener_l[EventListener: l]"
    "TriggerBinding_b[TriggerBinding: b]" (by decide) (Or.inr ⟨by decide, by decide⟩)

/-- Counterexample to C6: the file written for the pipeline `P` with the steps
`build` and `test` (`test` after `build`, no event listeners in the
namespace).  Its edge lines carry the display forms: the line for the edge
pipeline -> build is `Pipeline_P[Pipeline: P] --> Task_build[Task: build];`,
and no line `Pipeline_P --> Task_build;` is written. -/
theorem edge_lines_hold_display_form :
    (buildAndVisualizeMermaidForPipeline plainCodec scenarioBuildTest "ns" emptyCluster "out").file
        = "```mermaid\ngraph TD;\nPipeline_P[Pipeline: P];\nTask_build[Task: build];\nPipeline_P[Pipeline: P] --> Task_build[Task: build];\nTask_test[Task: test];\nPipeline_P[Pipeline: P] --> Task_test[Task: test];\nTask_build --> Task_test[Task: test];\n```\n" ∧
      Line.edge "Pipeline_P[Pipeline: P]" "Task_build[Task: build]"
        ∈ (pipelinePart scenarioBuildTest).mermaidDiagram ∧
      (Line.edge "Pipeline_P[Pipeline: P]" "Task_build[Task: build]").render
        = "Pipeline_P[Pipeline: P] --> Task_build[Task: build];\n" ∧
      Line.edge "Pipeline_P" "Task_build" ∉ (pipelinePart scenarioBuildTest).mermaidDiagram := by
  refine ⟨by decide, by decide, by decide, by decide⟩

/-- C6 as amended: every edge line has the text `From --> To;`.  In the
pipeline builder (both copies) the edges are exactly these: for a declared
step `s`, the edge from the pipeline in display form `Pipeline_p[Pipeline: p]`
to `Task_s[Task: s]`, the edge from the bare label `Task_d` of a predecessor
`d` of `s` to `Task_s[Task: s]`, and the edge from the bare label `Task_m` of
a name `m` extracted from a string param of `s` to `Task_s[Task: s]`.  In the
event-listener builder (both copies) every edge is the edge listener ->
binding or the edge binding -> template of a named binding of a trigger of
the listener, and what a returning call of the cross-reference linker adds is
exactly the edges listener -> template, listener -> binding and binding ->
template of the triggers that resolve to a `PipelineRun` payload; both ends
in display form. -/
theorem edge_line_shapes :
    (∀ a b : String, (Line.edge a b).render = a ++ " --> " ++ b ++ ";\n") ∧
    (∀ name : String,
      pipelineNodeOf name = "Pipeline_" ++ name ++ "[Pipeline: " ++ name ++ "]" ∧
      taskNodeOf name = "Task_" ++ name ++ "[Task: " ++ name ++ "]" ∧
      taskLabelOf name = "Task_" ++ name ∧
      eventListenerNodeOf name = "EventListener_" ++ name ++ "[EventListener: " ++ name ++ "]" ∧
      triggerBindingNodeOf name
        = "TriggerBinding_" ++ name ++ "[TriggerBinding: " ++ name ++ "]" ∧
      triggerTemplateNodeOf name
        = "TriggerTemplate_" ++ name ++ "[TriggerTemplate: " ++ name ++ "]") ∧
    (∀ (pipeline : Pipeline) (e : String × String),
      e ∈ Builder.edges (pipelinePart pipeline).mermaidDiagram ↔ PipelineEdgeShape pipeline e) ∧
    (∀ (pipeline : Pipeline) (e : String × String),
      e ∈ Builder.edges (Monolith.pipelinePart pipeline) ↔ PipelineEdgeShape pipeline e) ∧
    (∀ (json : JSONCodec) (eventListener : EventListener) (e : String × String),
      e ∈ Builder.edges (listenerPart json eventListener).1.mermaidDiagram →
      ListenerEdgeShape eventListener e) ∧
    (∀ (json : JSONCodec) (eventListener : EventListener) (st : ListenerState)
      (e : String × String), Monolith.listenerPart json eventListener = .ok st →
      e ∈ Builder.edges st.mermaidDiagram → ListenerEdgeShape eventListener e) ∧
    (∀ (json : JSONCodec) (d b : Builder) (pipelineName ns : String) (client : Clientset)
      (err : Option String) (e : String × String),
      addTriggersToMermaid json d pipelineName ns client = .ok (b, err) →
      (e ∈ Builder.edges b ↔
        e ∈ Builder.edges d ∨
          ∃ eventListeners, client.ListEventListeners ns = .ok eventListeners ∧
            LinkEdgeShape json client ns eventListeners e)) := by
  refine ⟨fun _ _ => rfl, fun _ => ⟨rfl, rfl, rfl, rfl, rfl, rfl⟩, ?_, ?_, ?_, ?_, ?_⟩
  · intro pipeline e
    rw [edges_pipelinePart]
    exact pipelineEdgeShape_iff pipeline e
  · intro pipeline e
    rw [monolith_pipelinePart, edges_pipelinePart]
    exact pipelineEdgeShape_iff pipeline e
  · intro json eventListener e he
    exact listenerEdgeShape_of_mem json eventListener e he
  · intro json eventListener st e hr he
    have hs : listenerPart json eventListener = (st, none) :=
      monolith_visualizeTriggers_ok json _ _ _ st hr
    refine listenerEdgeShape_of_mem json eventListener e ?_
    rw [hs]
    exact he
  · intro json d b pipelineName ns client err e h
    rcases addTriggersToMermaid_ok json d b pipelineName ns client err h with
      ⟨e1, hl, hb, _⟩ | ⟨eventListeners, hl, _, hb, _⟩
    · rw [hb]
      constructor
      · exact fun he => Or.inl he
      · rintro (he | ⟨eventListeners, hl2, _⟩)
        · exact he
        · rw [hl] at hl2
          cases hl2
    · rw [hb, edges_append, List.mem_append]
      constructor
      · rintro (he | he)
        · exact Or.inl he
        · exact Or.inr ⟨eventListeners, hl,
            linkEdgeShape_of_mem json client ns eventListeners e he⟩
      · rintro (he | ⟨eventListeners2, hl2, he⟩)
        · exact Or.inl he
        · rw [hl] at hl2
          cases hl2
          exact Or.inr (linkEdgeShape_mem json client ns eventListeners e he)

/-- Witness of the amended C6: in the scenario pipeline the edge pipeline ->
`build` has both ends in display form, the edge `build` -> `test` has the bare
label as its source, and the pair with the display form as source is not an
edge; the edge of a listener with one binding. -/
theorem edge_line_shapes_witness :
    PipelineEdgeShape scenarioBuildTest ("Pipeline_P[Pipeline: P]", "Task_build[Task: build]") ∧
      PipelineEdgeShape scenarioBuildTest ("Task_build", "Task_test[Task: test]") ∧
      ¬ PipelineEdgeShape scenarioBuildTest ("Task_build[Task: build]", "Task_test[Task: test]") ∧
      ListenerEdgeShape listenerSharedBinding
        ("EventListener_l[EventListener: l]", "TriggerBinding_b[TriggerBinding: b]") :=
  ⟨(edge_line_shapes.2.2.1 scenarioBuildTest _).mp (by decide),
    (edge_line_shapes.2.2.1 scenarioBuildTest _).mp (by decide),
    fun h => absurd ((edge_line_shapes.2.2.1 scenarioBuildTest _).mpr h) (by decide),
    edge_line_shapes.2.2.2.2.1 plainCodec listenerSharedBinding _ (by decide)⟩

/-- C8, the failing input evaluated: on a trigger whose template reference is
nil the loop body of tektongraph.go panics with a nil dereference (line 282),
so its call on a listener that holds such a trigger never returns a result,
and on the listener of the example it ends in that panic; the loop body of
eventlistener.go treats nil exactly like the empty string, and its call on
the same listener returns without error and without panic, with both triggers
and the diagram in the file. -/
theorem nil_template_reference :
    (∀ (json : JSONCodec) (eventListenerNode : String) (st : ListenerState) (name : String)
      (bindings : List EventListenerBinding) (interceptors : List TriggerInterceptor),
      Monolith.visualizeTrigger json eventListenerNode st
          ⟨name, some ⟨none⟩, bindings, interceptors⟩
        = .error nilDereference) ∧
    (∀ (json : JSONCodec) (eventListener : EventListener) (ns : String) (client : Clientset)
      (outputDir : String),
      (∃ trigger ∈ eventListener.Spec.Triggers,
        ∀ template, trigger.Template = some template → template.Ref = none) →
      ∀ result : FileResult,
        Monolith.buildAndVisualizeMermaidForEventListener json eventListener ns client outputDir
          ≠ .ok result) ∧
    (match Monolith.buildAndVisualizeMermaidForEventListener plainCodec listenerNilTemplate "ns"
        emptyCluster "out" with
      | .error panic => panic = nilDereference
      | .ok _ => False) ∧
    (∀ (json : JSONCodec) (eventListenerNode : String) (st : ListenerState) (name : String)
      (bindings : List EventListenerBinding) (interceptors : List TriggerInterceptor),
      visualizeTrigger json eventListenerNode st ⟨name, some ⟨none⟩, bindings, interceptors⟩
        = visualizeTrigger json eventListenerNode st
            ⟨name, some ⟨some ""⟩, bindings, interceptors⟩) ∧
    (buildAndVisualizeMermaidForEventListener plainCodec listenerNilTemplate "ns" emptyCluster
        "out").err = none ∧
    (buildAndVisualizeMermaidForEventListener plainCodec listenerNilTemplate "ns" emptyCluster
        "out").panic = none ∧
    (buildAndVisualizeMermaidForEventListener plainCodec listenerNilTemplate "ns" emptyCluster
        "out").file
      = "### Trigger t:\n\n- **Interceptor:** cel\n- **Binding:** b\n### Trigger u:\n\n- **Binding:** c\n- **Template:** tt\n```mermaid\ngraph TD;\nEventListener_l[EventListener: l];\nTriggerBinding_b[TriggerBinding: b];\nEventListener_l[EventListener: l] --> TriggerBinding_b[TriggerBinding: b];\nTriggerBinding_c[TriggerBinding: c];\nTriggerBinding_c[TriggerBinding: c] --> TriggerTemplate_tt[TriggerTemplate: tt];\nEventListener_l[EventListener: l] --> TriggerBinding_c[TriggerBinding: c];\n```\n" := by
  refine ⟨?_, ?_, ?_, ?_, by decide, by decide, by decide⟩
  · intro json eventListenerNode st name bindings interceptors
    rfl
  · intro json eventListener ns client outputDir hex result hres
    obtain ⟨trigger, hmem, hnil⟩ := hex
    unfold Monolith.buildAndVisualizeMermaidForEventListener at hres
    rw [monolith_listenerPart_of_nil json eventListener trigger hmem hnil] at hres
    cases hres
  · rfl
  · intro json eventListenerNode st name bindings interceptors
    rw [visualizeTrigger_of_template json eventListenerNode st _ ⟨none⟩ rfl,
      visualizeTrigger_of_template json eventListenerNode st _ ⟨some ""⟩ rfl,
      visualizeTriggerWith_noTemplate json eventListenerNode none st _ (Or.inl rfl),
      visualizeTriggerWith_noTemplate json eventListenerNode (some "") st _ (Or.inr rfl)]

/-- Witness of C8: the listener of the example holds a trigger with a nil
template reference, so the call of the tektongraph.go copy on it returns no
result. -/
theorem nil_template_reference_witness :
    ∀ result : FileResult,
      Monolith.buildAndVisualizeMermaidForEventListener plainCodec listenerNilTemplate "ns"
        emptyCluster "out" ≠ .ok result :=
  nil_template_reference.2.1 plainCodec listenerNilTemplate "ns" emptyCluster "out"
    ⟨⟨"t", some ⟨none⟩, [⟨"b"⟩], [⟨⟨"cel"⟩, []⟩]⟩, by decide,
      fun _ e => Option.some.inj e ▸ rfl⟩

/-- C9, the failing input evaluated: the cross-reference linker reads
`trigger.Template.Ref` without a check of `trigger.Template` (eventlistener.go
133, tektongraph.go 330).  In the namespace of the example the listener `l`
has a trigger given by a `triggerRef`, whose `Template` is nil, followed by a
trigger whose template `tt1` holds a `PipelineRun` payload: the call panics
and the second trigger is linked into no diagram, the pipeline builders
(both copies) end in the panic with no text in the file.  In general the call
panics exactly when the listing succeeds and some trigger has a nil
`Template`.  On every other namespace content the claim holds: the outcome
is the same for every two pipeline names, what is appended does not depend on
the diagram or the pipeline, the file of every pipeline ends with the same
cross-reference text, and every trigger whose template reference resolves to
a template with a payload of kind `PipelineRun` has its block (listener node,
template node, edge listener -> template, then per named binding the binding
node, the edge listener -> binding and the edge binding -> template) in what
is appended. -/
theorem cross_reference_ignores_pipeline :
    (addTriggersToMermaid plainCodec [] "P" "ns" triggerRefCluster = .error nilDereference ∧
      triggerRefCluster.ListEventListeners "ns" = .ok triggerRefListeners ∧
      resolvable triggerRefCluster "ns" ⟨"kept", some ⟨some "tt1"⟩, [⟨"b"⟩], []⟩ = true ∧
      triggerRefCluster.GetTriggerTemplate "ns" "tt1" = .ok ⟨"tt1", ⟨[⟨"PipelineRun"⟩]⟩⟩ ∧
      (buildAndVisualizeMermaidForPipeline plainCodec scenarioBuildTest "ns" triggerRefCluster
        "out").panic = some nilDereference ∧
      (buildAndVisualizeMermaidForPipeline plainCodec scenarioBuildTest "ns" triggerRefCluster
        "out").file = "" ∧
      (Monolith.buildAndVisualizeMermaidForPipeline plainCodec scenarioBuildTest "ns"
        triggerRefCluster "out").panic = some nilDereference ∧
      (Monolith.buildAndVisualizeMermaidForPipeline plainCodec scenarioBuildTest "ns"
        triggerRefCluster "out").file = "") ∧
    (∀ (json : JSONCodec) (d : Builder) (p ns : String) (client : Clientset)
      (eventListeners : List EventListener),
      client.ListEventListeners ns = .ok eventListeners →
      (addTriggersToMermaid json d p ns client = .error nilDereference ↔
        ¬ HasTemplates eventListeners)) ∧
    (∀ (json : JSONCodec) (d : Builder) (p1 p2 ns : String) (client : Clientset),
      addTriggersToMermaid json d p1 ns client = addTriggersToMermaid json d p2 ns client) ∧
    (∀ (json : JSONCodec) (ns : String) (client : Clientset),
      (∀ (d : Builder) (p : String),
        addTriggersToMermaid json d p ns client = .error nilDereference) ∨
      ∃ (appended : List Line) (err : Option String), ∀ (d : Builder) (p : String),
        addTriggersToMermaid json d p ns client = .ok (d ++ appended, err)) ∧
    (∀ (json : JSONCodec) (ns : String) (client : Clientset) (eventListeners : List EventListener),
      client.ListEventListeners ns = .ok eventListeners → HasTemplates eventListeners →
      ∀ (pipeline : Pipeline) (outputDir : String),
        (buildAndVisualizeMermaidForPipeline json pipeline ns client outputDir).file
            = Builder.text (pipelinePart pipeline).mermaidDiagram ++
              Builder.text (crossReferenceLines json client ns eventListeners) ++ "```\n" ∧
          (Monolith.buildAndVisualizeMermaidForPipeline json pipeline ns client outputDir).file
            = Builder.text (pipelinePart pipeline).mermaidDiagram ++
              Builder.text (crossReferenceLines json client ns eventListeners) ++ "```\n") ∧
    (∀ (json : JSONCodec) (d : Builder) (p ns : String) (client : Clientset)
      (eventListeners : List EventListener) (eventListener : EventListener)
      (trigger : EventListenerTrigger) (template : EventListenerTemplate) (name : String)
      (triggerTemplate : TriggerTemplate) (res : TriggerResourceTemplate),
      client.ListEventListeners ns = .ok eventListeners → HasTemplates eventListeners →
      eventListener ∈ eventListeners →
      trigger ∈ eventListener.Spec.Triggers →
      trigger.Template = some template → template.Ref = some name → name ≠ "" →
      client.GetTriggerTemplate ns name = .ok triggerTemplate →
      res ∈ triggerTemplate.Spec.ResourceTemplates →
      json.unstructuredKind res.Raw = some "PipelineRun" →
      ∃ before after : List Line,
        addTriggersToMermaid json d p ns client
          = .ok (d ++ (before ++ linkedBlock eventListener trigger triggerTemplate ++ after),
              none)) := by
  refine ⟨⟨rfl, rfl, by decide, rfl, by decide, by decide, by decide, by decide⟩,
    ?_, fun _ _ _ _ _ _ => rfl, ?_, ?_, ?_⟩
  · intro json d p ns client eventListeners hl
    constructor
    · intro hp ht
      rw [addTriggersToMermaid_eq json d p ns client eventListeners hl ht] at hp
      cases hp
    · exact addTriggersToMermaid_panic json d p ns client eventListeners hl
  · intro json ns client
    cases hl : client.ListEventListeners ns with
    | error err =>
      exact Or.inr ⟨[], some err, fun d p => by
        rw [addTriggersToMermaid_error json d p ns client err hl, List.append_nil]⟩
    | ok eventListeners =>
      by_cases ht : HasTemplates eventListeners
      · exact Or.inr ⟨crossReferenceLines json client ns eventListeners, none, fun d p =>
          addTriggersToMermaid_eq json d p ns client eventListeners hl ht⟩
      · exact Or.inl (fun d p =>
          addTriggersToMermaid_panic json d p ns client eventListeners hl ht)
  · intro json ns client eventListeners hl ht pipeline outputDir
    exact ⟨pipeline_file_eq json pipeline ns client outputDir eventListeners hl ht,
      monolith_pipeline_file_eq json pipeline ns client outputDir eventListeners hl ht⟩
  · intro json d p ns client eventListeners eventListener trigger template name triggerTemplate
      res hl hts hmem ht htpl hr hn hg hres hk
    obtain ⟨before, after, e⟩ := linkedBlock_infix json client ns eventListeners eventListener
      trigger template name triggerTemplate res hmem ht htpl hr hn hg hres hk
    refine ⟨before, after, ?_⟩
    rw [addTriggersToMermaid_eq json d p ns client eventListeners hl hts, e]

/-- Witness of C9: in the scenario cluster, where every trigger has a
`Template`, the trigger `t2` of the listener `l2` resolves to the template
`tt2`, whose second payload is a `PipelineRun`; its block is appended to the
diagram of the pipeline `P`.  In the cluster of the failing input a trigger
has a nil `Template`, and the call panics. -/
theorem cross_reference_ignores_pipeline_witness :
    (∃ before after : List Line,
      addTriggersToMermaid plainCodec [] "P" "ns" scenarioCluster
        = .ok ([] ++ (before ++
            linkedBlock ⟨"l2", ⟨[⟨"t2", some ⟨some "tt2"⟩, [⟨"b2"⟩], []⟩]⟩⟩
              ⟨"t2", some ⟨some "tt2"⟩, [⟨"b2"⟩], []⟩
              ⟨"tt2", ⟨[⟨"TaskRun"⟩, ⟨"PipelineRun"⟩]⟩⟩ ++
            after), none)) ∧
      addTriggersToMermaid plainCodec [] "Q" "ns" triggerRefCluster = .error nilDereference :=
  ⟨cross_reference_ignores_pipeline.2.2.2.2.2 plainCodec [] "P" "ns" scenarioCluster
    scenarioListeners
    ⟨"l2", ⟨[⟨"t2", some ⟨some "tt2"⟩, [⟨"b2"⟩], []⟩]⟩⟩ ⟨"t2", some ⟨some "tt2"⟩, [⟨"b2"⟩], []⟩
    ⟨some "tt2"⟩ "tt2"
    ⟨"tt2", ⟨[⟨"TaskRun"⟩, ⟨"PipelineRun"⟩]⟩⟩ ⟨"PipelineRun"⟩
    rfl (by decide) (by decide) (by decide) rfl rfl (by decide) rfl (by decide) rfl,
    (cross_reference_ignores_pipeline.2.1 plainCodec [] "Q" "ns" triggerRefCluster
      triggerRefListeners rfl).mpr (by decide)⟩

/-- C10, the failing input evaluated: in the namespace of the example the
listing succeeds and the listener `l` has a trigger given by a `triggerRef`,
whose `Template` is nil, followed by a trigger that names the template `tt1`.
`addTriggersToMermaid` reads `trigger.Template.Ref` of the first trigger
(eventlistener.go 133, tektongraph.go 330) and panics, where for the same
namespace without the first trigger it returns no error and links the second
trigger.  In general: when the listing succeeds and some trigger has a nil
`Template` the call panics; the call on the namespace with every trigger
removed whose template cannot be resolved (nil `Template`, nil or empty
reference, or failing lookup) always returns, without error and with the
cross-reference lines; and when every trigger has a `Template` the call on
the namespace itself returns that same result, whatever the template lookups
return. -/
theorem failed_lookup_is_skipped :
    (addTriggersToMermaid plainCodec [] "P" "ns" triggerRefCluster = .error nilDereference ∧
      triggerRefCluster.ListEventListeners "ns" = .ok triggerRefListeners ∧
      triggerRefListeners.map (pruneListener triggerRefCluster "ns")
        = [⟨"l", ⟨[⟨"kept", some ⟨some "tt1"⟩, [⟨"b"⟩], []⟩]⟩⟩] ∧
      addTriggersToMermaid plainCodec [] "P" "ns"
          (withListeners triggerRefCluster
            (triggerRefListeners.map (pruneListener triggerRefCluster "ns")))
        = .ok ([Line.node "EventListener_l[EventListener: l]",
            Line.node "TriggerTemplate_tt1[TriggerTemplate: tt1]",
            Line.edge "EventListener_l[EventListener: l]"
              "TriggerTemplate_tt1[TriggerTemplate: tt1]",
            Line.node "TriggerBinding_b[TriggerBinding: b]",
            Line.edge "EventListener_l[EventListener: l]" "TriggerBinding_b[TriggerBinding: b]",
            Line.edge "TriggerBinding_b[TriggerBinding: b]"
              "TriggerTemplate_tt1[TriggerTemplate: tt1]"], none)) ∧
    (∀ (json : JSONCodec) (d : Builder) (p ns : String) (client : Clientset)
      (eventListeners : List EventListener),
      client.ListEventListeners ns = .ok eventListeners → ¬ HasTemplates eventListeners →
      addTriggersToMermaid json d p ns client = .error nilDereference) ∧
    (∀ (json : JSONCodec) (d : Builder) (p ns : String) (client : Clientset)
      (eventListeners : List EventListener),
      addTriggersToMermaid json d p ns
          (withListeners client (eventListeners.map (pruneListener client ns)))
        = .ok (d ++ crossReferenceLines json client ns eventListeners, none)) ∧
    (∀ (json : JSONCodec) (d : Builder) (p ns : String) (client : Clientset)
      (eventListeners : List EventListener),
      client.ListEventListeners ns = .ok eventListeners → HasTemplates eventListeners →
      addTriggersToMermaid json d p ns client
          = .ok (d ++ crossReferenceLines json client ns eventListeners, none) ∧
        addTriggersToMermaid json d p ns client
          = addTriggersToMermaid json d p ns
              (withListeners client (eventListeners.map (pruneListener client ns)))) := by
  have hprune : ∀ (json : JSONCodec) (d : Builder) (p ns : String) (client : Clientset)
      (eventListeners : List EventListener),
      addTriggersToMermaid json d p ns
          (withListeners client (eventListeners.map (pruneListener client ns)))
        = .ok (d ++ crossReferenceLines json client ns eventListeners, none) := by
    intro json d p ns client eventListeners
    rw [addTriggersToMermaid_eq json d p ns
        (withListeners client (eventListeners.map (pruneListener client ns)))
        (eventListeners.map (pruneListener client ns)) rfl
        (hasTemplates_prune client ns eventListeners),
      crossReferenceLines_prune]
  refine ⟨⟨rfl, rfl, by decide, rfl⟩, ?_, hprune, ?_⟩
  · intro json d p ns client eventListeners hl ht
    exact addTriggersToMermaid_panic json d p ns client eventListeners hl ht
  · intro json d p ns client eventListeners hl ht
    have e := addTriggersToMermaid_eq json d p ns client eventListeners hl ht
    exact ⟨e, e.trans (hprune json d p ns client eventListeners).symm⟩

/-- Witness of C10: a listener whose first trigger names a missing template
and whose second trigger has a nil reference, both with a `Template`; the
third trigger, after them, is still linked, and the result is that of the
listener with the third trigger alone.  The namespace of the failing input
holds a trigger with a nil `Template`, and the call on it panics. -/
theorem failed_lookup_is_skipped_witness :
    addTriggersToMermaid plainCodec [] "P" "ns" failingFirstCluster
        = addTriggersToMermaid plainCodec [] "P" "ns"
            (withListeners failingFirstCluster
              (failingFirstListeners.map (pruneListener failingFirstCluster "ns"))) ∧
      failingFirstListeners.map (pruneListener failingFirstCluster "ns")
        = [⟨"l", ⟨[⟨"kept", some ⟨some "tt1"⟩, [⟨"b"⟩], []⟩]⟩⟩] ∧
      crossReferenceLines plainCodec failingFirstCluster "ns" failingFirstListeners
        = [Line.node "EventListener_l[EventListener: l]",
            Line.node "TriggerTemplate_tt1[TriggerTemplate: tt1]",
            Line.edge "EventListener_l[EventListener: l]"
              "TriggerTemplate_tt1[TriggerTemplate: tt1]",
            Line.node "TriggerBinding_b[TriggerBinding: b]",
            Line.edge "EventListener_l[EventListener: l]" "TriggerBinding_b[TriggerBinding: b]",
            Line.edge "TriggerBinding_b[TriggerBinding: b]"
              "TriggerTemplate_tt1[TriggerTemplate: tt1]"] ∧
      addTriggersToMermaid plainCodec [] "P" "ns" triggerRefCluster = .error nilDereference :=
  ⟨(failed_lookup_is_skipped.2.2.2 plainCodec [] "P" "ns" failingFirstCluster
      failingFirstListeners rfl (by decide)).2,
    by decide, by decide,
    failed_lookup_is_skipped.2.1 plainCodec [] "P" "ns" triggerRefCluster triggerRefListeners
      rfl (by decide)⟩

/-- C14: a reference to a step whose name holds a hyphen is not extracted.
For all non-empty word-character strings `a` and `b`,
`extractTaskReferences("$(tasks." + a + "-" + b + ".results.x)")` returns the
empty list, and a step whose only param holds such a reference gets, in both
copies of the pipeline builder, the edge pipeline -> step alone: no
dependency edge, neither from `Task_a-b` nor from `Task_a`. -/
theorem hyphenated_reference_not_extracted (a b : String) (ha : IsIdent a) (hb : IsIdent b) :
    extractTaskReferences (hyphenReference a b) = [] ∧
      (∀ pipelineName stepName paramName : String,
        Builder.edges
            (pipelinePart
              (pipelineWithParam pipelineName stepName paramName (hyphenReference a b))).mermaidDiagram
          = [(pipelineNodeOf pipelineName, taskNodeOf stepName)] ∧
        Builder.edges
            (Monolith.pipelinePart
              (pipelineWithParam pipelineName stepName paramName (hyphenReference a b)))
          = [(pipelineNodeOf pipelineName, taskNodeOf stepName)]) := by
  have he : extractTaskReferences (hyphenReference a b) = [] := by
    unfold extractTaskReferences
    rw [findAllGroups_hyphenReference a b ha hb]
    rfl
  refine ⟨he, fun pipelineName stepName paramName => ?_⟩
  have e : Builder.edges
      (pipelinePart
        (pipelineWithParam pipelineName stepName paramName (hyphenReference a b))).mermaidDiagram
      = [(pipelineNodeOf pipelineName, taskNodeOf stepName)] := by
    rw [edges_pipelinePart]
    simp [pipelineWithParam, stepEdgeNodes, he]
  exact ⟨e, by rw [monolith_pipelinePart]; exact e⟩

/-- Witness of C14: the reference `$(tasks.build-image.results.x)` on the
step `deploy` of the pipeline `P`. -/
theorem hyphenated_reference_not_extracted_witness :
    extractTaskReferences "$(tasks.build-image.results.x)" = [] ∧
      Builder.edges
          (pipelinePart
            (pipelineWithParam "P" "deploy" "image" "$(tasks.build-image.results.x)")).mermaidDiagram
        = [("Pipeline_P[Pipeline: P]", "Task_deploy[Task: deploy]")] :=
  ⟨(hyphenated_reference_not_extracted "build" "image" (by decide) (by decide)).1,
    ((hyphenated_reference_not_extracted "build" "image" (by decide) (by decide)).2
      "P" "deploy" "image").1⟩

/-- C11: for every raw input on which `decodeRawJSON` succeeds, the returned
text holds no occurrence of the escaped ampersand (backslash, `u`, `0`, `0`,
`2`, `6`).  The text is the re-serialisation with its occurrences replaced:
a stretch without backslash is copied, and an occurrence after such a stretch
becomes a literal `&`. -/
theorem decoded_text_has_no_escaped_ampersand :
    (∀ (json : JSONCodec) (raw text : String), decodeRawJSON json raw = some text →
      ¬ HasEscapedAmpersand text ∧
        ∃ prettyJSON : String, json.marshalIndent raw = some prettyJSON ∧
          text.data = replaceAllFrom escapedAmpersand ['&'] 0 prettyJSON.data) ∧
    (∀ s : List Char, '\\' ∉ s → replaceAllFrom escapedAmpersand ['&'] 0 s = s) ∧
    (∀ pre post : List Char, '\\' ∉ pre →
      replaceAllFrom escapedAmpersand ['&'] 0 (pre ++ escapedAmpersand ++ post)
        = pre ++ ['&'] ++ replaceAllFrom escapedAmpersand ['&'] 0 post) := by
  refine ⟨?_, ?_, ?_⟩
  · intro json raw text h
    unfold decodeRawJSON at h
    cases hm : json.marshalIndent raw with
    | none => simp [hm] at h
    | some prettyJSON =>
      simp only [hm, Option.some.injEq] at h
      have hd : text.data = replaceAllFrom escapedAmpersand ['&'] 0 prettyJSON.data := by
        rw [← h, stringsReplaceAll_escapedAmpersand]
      refine ⟨?_, prettyJSON, rfl, hd⟩
      unfold HasEscapedAmpersand
      rw [hd]
      exact no_occurrence_in_replaceAllFrom '\\' ['u', '0', '0', '2', '6'] '&' (by decide)
        (by decide) 0 prettyJSON.data
  · intro s hs
    exact replaceAllFrom_of_not_mem '\\' ['u', '0', '0', '2', '6'] ['&'] s hs
  · intro pre post hpre
    exact replaceAllFrom_at_occurrence '\\' ['u', '0', '0', '2', '6'] ['&'] pre post hpre

/-- Witness of C11: a re-serialisation with three escaped ampersands, two of
them adjacent, and a lone backslash. -/
theorem decoded_text_has_no_escaped_ampersand_witness :
    decodeRawJSON plainCodec "\"a \\u0026 b\\u0026\\u0026 \\u002\"" = some "\"a & b&& \\u002\"" ∧
      ¬ HasEscapedAmpersand "\"a & b&& \\u002\"" :=
  ⟨by decide,
    (decoded_text_has_no_escaped_ampersand.1 plainCodec "\"a \\u0026 b\\u0026\\u0026 \\u002\""
      "\"a & b&& \\u002\"" (by decide)).1⟩

/-- C12: the when-expressions never reach the output file.  For every two
pipelines that differ only in the when-expressions of their steps,
`buildAndVisualizeMermaidForPipeline` of pipeline.go gives the same file
name, the same file content, the same error and the same panic; the
when-expressions only show in the text printed on standard output, which is
the trace of the when-expressions followed, when the file has been written,
by the closing message. -/
theorem when_expressions_not_in_file :
    (∀ (json : JSONCodec) (p1 p2 : Pipeline) (ns : String) (client : Clientset)
      (outputDir : String), eraseWhen p1 = eraseWhen p2 →
      (buildAndVisualizeMermaidForPipeline json p1 ns client outputDir).file
          = (buildAndVisualizeMermaidForPipeline json p2 ns client outputDir).file ∧
        (buildAndVisualizeMermaidForPipeline json p1 ns client outputDir).fileName
          = (buildAndVisualizeMermaidForPipeline json p2 ns client outputDir).fileName ∧
        (buildAndVisualizeMermaidForPipeline json p1 ns client outputDir).err
          = (buildAndVisualizeMermaidForPipeline json p2 ns client outputDir).err ∧
        (buildAndVisualizeMermaidForPipeline json p1 ns client outputDir).panic
          = (buildAndVisualizeMermaidForPipeline json p2 ns client outputDir).panic ∧
        (pipelinePart p1).mermaidDiagram = (pipelinePart p2).mermaidDiagram) ∧
    (∀ (json : JSONCodec) (pipeline : Pipeline) (ns : String) (client : Clientset)
      (outputDir : String),
      (buildAndVisualizeMermaidForPipeline json pipeline ns client outputDir).stdout
        = whenTrace pipeline ++
          (match (buildAndVisualizeMermaidForPipeline json pipeline ns client outputDir).err,
              (buildAndVisualizeMermaidForPipeline json pipeline ns client outputDir).panic with
            | none, none => savedMessage pipeline.Name
                (filepathJoin outputDir (ns ++ "_pipeline_" ++ pipeline.Name ++ ".md"))
            | _, _ => "")) := by
  constructor
  · intro json p1 p2 ns client outputDir h
    have hd := pipelinePart_diagram_congr p1 p2 h
    have hn := name_congr p1 p2 h
    cases hl : client.ListEventListeners ns with
    | error err =>
      rw [pipeline_result_error json p1 ns client outputDir err hl,
        pipeline_result_error json p2 ns client outputDir err hl, hn]
      exact ⟨rfl, rfl, rfl, rfl, hd⟩
    | ok eventListeners =>
      by_cases ht : HasTemplates eventListeners
      · rw [pipeline_result_ok json p1 ns client outputDir eventListeners hl ht,
          pipeline_result_ok json p2 ns client outputDir eventListeners hl ht, hn, hd]
        exact ⟨rfl, rfl, rfl, rfl, rfl⟩
      · rw [pipeline_result_panic json p1 ns client outputDir eventListeners hl ht,
          pipeline_result_panic json p2 ns client outputDir eventListeners hl ht, hn]
        exact ⟨rfl, rfl, rfl, rfl, hd⟩
  · intro json pipeline ns client outputDir
    cases hl : client.ListEventListeners ns with
    | error err =>
      rw [pipeline_result_error json pipeline ns client outputDir err hl, pipelinePart_stdout]
      simp
    | ok eventListeners =>
      by_cases ht : HasTemplates eventListeners
      · rw [pipeline_result_ok json pipeline ns client outputDir eventListeners hl ht,
          pipelinePart_stdout]
        simp only [savedMessage, String.append_assoc]
      · rw [pipeline_result_panic json pipeline ns client outputDir eventListeners hl ht,
          pipelinePart_stdout]
        simp

/-- Witness of C12: the scenario pipeline with and without a when-expression
on the step `test`; the file is the same, the trace differs. -/
theorem when_expressions_not_in_file_witness :
    (buildAndVisualizeMermaidForPipeline plainCodec scenarioBuildTestGuarded "ns" emptyCluster
        "out").file
        = (buildAndVisualizeMermaidForPipeline plainCodec scenarioBuildTest "ns" emptyCluster
            "out").file ∧
      (buildAndVisualizeMermaidForPipeline plainCodec scenarioBuildTestGuarded "ns" emptyCluster
        "out").stdout
        = "\tTask: test\n\t\tTrace: When Input: $(params.run)\n\t\tTrace: When Operator: in\n\t\t\tTrace: When Value: yes\n\t\t\tTrace: When Value: true\nMermaid-Diagramm für Pipeline 'P' wurde in der Datei out/ns_pipeline_P.md gespeichert.\n" ∧
      (buildAndVisualizeMermaidForPipeline plainCodec scenarioBuildTest "ns" emptyCluster
        "out").stdout
        = "Mermaid-Diagramm für Pipeline 'P' wurde in der Datei out/ns_pipeline_P.md gespeichert.\n" :=
  ⟨(when_expressions_not_in_file.1 plainCodec scenarioBuildTestGuarded scenarioBuildTest "ns"
      emptyCluster "out" (by decide)).1,
    (when_expressions_not_in_file.2 plainCodec scenarioBuildTestGuarded "ns" emptyCluster
      "out").trans (by decide),
    (when_expressions_not_in_file.2 plainCodec scenarioBuildTest "ns" emptyCluster
      "out").trans (by decide)⟩

/-- C13: in the diagram built by `buildAndVisualizeMermaidForEventListener`
no edge line occurs more than once.  For every event listener the diagram is
the header, the listener node and then the lines the triggers emit (binding
node, edge binding -> template, edge listener -> binding), with every edge
line kept at its first emission only and every node line kept; the texts of
its edge lines are pairwise different, and the text of each emitted edge
occurs exactly once among them.  This holds of the diagram at the end of the
loop over the triggers and, when a trigger with a nil `Template` ends the loop
in a panic, of the diagram built up to there. -/
theorem listener_edges_written_once :
    (∀ (json : JSONCodec) (eventListener : EventListener),
      (listenerPart json eventListener).1.mermaidDiagram
        = [Line.text "```mermaid\n", Line.text "graph TD;\n",
            Line.node (eventListenerNodeOf eventListener.Name)] ++
          keepFirstEdges EdgeSet.empty (listenerEvents eventListener)) ∧
    (∀ (json : JSONCodec) (eventListener : EventListener),
      (edgeLineTexts (listenerPart json eventListener).1.mermaidDiagram).Nodup) ∧
    (∀ (json : JSONCodec) (eventListener : EventListener) (fromNode toNode : String),
      Line.edge fromNode toNode ∈ listenerEvents eventListener →
      (edgeLineTexts (listenerPart json eventListener).1.mermaidDiagram).count
        (Line.edge fromNode toNode).render = 1) := by
  refine ⟨listenerPart_diagram, ?_, ?_⟩
  · intro json eventListener
    rw [edgeLineTexts_listenerPart]
    exact keepFirstEdges_nodup _ _
  · intro json eventListener fromNode toNode hm
    rw [edgeLineTexts_listenerPart]
    exact List.count_eq_one_of_mem (keepFirstEdges_nodup _ _)
      (keepFirstEdges_complete EdgeSet.empty _ fromNode toNode hm rfl)

/-- Witness of C13: two triggers share the binding `b` and the template `tt`,
and the second trigger lists `b` twice.  The edge listener -> `b` is emitted
three times and written once; the node line of `b` is written three times. -/
theorem listener_edges_written_once_witness :
    (edgeLineTexts (listenerPart plainCodec listenerRepeatedEdges).1.mermaidDiagram).count
        "EventListener_l[EventListener: l] --> TriggerBinding_b[TriggerBinding: b];\n" = 1 ∧
      (listenerEvents listenerRepeatedEdges).count
        (Line.edge "EventListener_l[EventListener: l]" "TriggerBinding_b[TriggerBinding: b]") = 3 ∧
      (listenerPart plainCodec listenerRepeatedEdges).1.mermaidDiagram
        = [Line.text "```mermaid\n", Line.text "graph TD;\n",
            Line.node "EventListener_l[EventListener: l]",
            Line.node "TriggerBinding_b[TriggerBinding: b]",
            Line.edge "TriggerBinding_b[TriggerBinding: b]"
              "TriggerTemplate_tt[TriggerTemplate: tt]",
            Line.edge "EventListener_l[EventListener: l]" "TriggerBinding_b[TriggerBinding: b]",
            Line.node "TriggerBinding_b[TriggerBinding: b]",
            Line.node "TriggerBinding_b[TriggerBinding: b]",
            Line.node "TriggerBinding_c[TriggerBinding: c]",
            Line.edge "TriggerBinding_c[TriggerBinding: c]"
              "TriggerTemplate_tt[TriggerTemplate: tt]",
            Line.edge "EventListener_l[EventListener: l]"
              "TriggerBinding_c[TriggerBinding: c]"] :=
  ⟨listener_edges_written_once.2.2 plainCodec listenerRepeatedEdges
      "EventListener_l[EventListener: l]" "TriggerBinding_b[TriggerBinding: b]" (by decide),
    by decide, by decide⟩

end TektonGraph
